import Mathlib

/-!
Sudoku (Source.cpp): grid model and file codec.

A shallow embedding of the console Sudoku program in `Source.cpp`.

Conventions of the embedding.

* A text character is a Lean `Char`.  A C++ `char` is one byte, so only the
  characters below 256 stand for characters the program can read.  Where the
  source does arithmetic on a `char` (`c - '0'`, `'A' + columnID`) the value
  used is the byte read as a signed 8-bit integer (`charCode`), as on the
  MSVC target the source is written for (`Windows.h`).
* `std::size_t` is a natural number below `2 ^ 64`; conversions to it are
  taken modulo `2 ^ 64` (`toSizeT`).
* Exceptions and the situations in which the source leaves the array
  (`grid[i]` with `i >= 81`, undefined behaviour) are results in `Except Error`.
* A stream (`std::ifstream`, `std::cin`) is the list of characters not yet
  read plus its `eofbit` and `failbit`.  A file is given by its content.
* The prompt loops (`while (true)`) are run for a number of rounds computed
  from the input that is left; the section on the fuel of the prompt loops
  proves that this number never cuts a loop short.
-/

namespace Sudoku

/-! ## Constants and index arithmetic (Source.cpp 16-34) -/

/-- `constexpr std::size_t gridSize{ 9 }`. -/
abbrev gridSize : Nat := 9

/-- `constexpr std::size_t nBoxes{ gridSize * gridSize }`. -/
abbrev nBoxes : Nat := gridSize * gridSize

/-- The number of values of `std::size_t`, `2 ^ 64`. -/
abbrev sizeMod : Nat := 18446744073709551616

/-- Conversion of an integer to `std::size_t` (modulo `2 ^ 64`). -/
def toSizeT (n : Int) : Nat := (n % 18446744073709551616).toNat

/-- Conversion of an integer to `char`, `static_cast<char>(n)`: signed 8 bits. -/
def toChar (n : Int) : Int := (n + 128) % 256 - 128

/-- The numeric value of a character read from a text, as a C++ `char`. -/
def charCode (c : Char) : Int := toChar (c.toNat : Int)

/-- The character written for a `char` value (the byte with that value). -/
def byteChar (code : Int) : Char := Char.ofNat (code % 256).toNat

/-- `constexpr char maxColumn{ 'A' + gridSize }`. -/
def maxColumn : Int := toChar (65 + (gridSize : Int))

/-- `constexpr char realMaxColumn{ maxColumn - 1 }`. -/
def realMaxColumn : Int := toChar (maxColumn - 1)

/-- `using box_t = std::pair<char, std::size_t>`. -/
abbrev box_t : Type := Int × Nat

/-- `constexpr box_t cancellingBoxInputCode{ 'Z', 0 }`. -/
def cancellingBoxInputCode : box_t := (90, 0)

/-- `toGridIndexes(arrayIndex)`:
`{ static_cast<char>('A' + arrayIndex / gridSize), arrayIndex % gridSize }`. -/
def toGridIndexes (arrayIndex : Nat) : box_t :=
  (toChar (((65 + arrayIndex / gridSize) % sizeMod : Nat) : Int), arrayIndex % gridSize)

/-- `toArrayIndex(column, line)`: `line * gridSize + (column - 'A')`, computed
in `std::size_t`. -/
def toArrayIndex (column : Int) (line : Nat) : Nat :=
  ((line * gridSize) % sizeMod + toSizeT (column - 65)) % sizeMod

/-! ## Errors -/

/-- The ways an operation of the program stops without a result. -/
inductive Error where
  /-- `std::invalid_argument` thrown by `loadFileData`, with its message. -/
  | invalid_argument (what : String)
  /-- `std::bad_optional_access` thrown by `value()` on an empty optional. -/
  | bad_optional_access
  /-- `std::out_of_range` thrown by `Colours::operator[]`. -/
  | out_of_range
  /-- `grid[index]` with `index >= nBoxes`: undefined behaviour in the source. -/
  | outOfBounds (index : Nat)
  /-- The standard input is exhausted inside a prompt loop, which then
  repeats for ever. -/
  | endOfInput
deriving DecidableEq, Repr

deriving instance DecidableEq for Except

/-! ## Boxes and the grid (Source.cpp 21-52) -/

/-- `struct Box`: `isConstant` and the optional `value`. -/
structure Box where
  isConstant : Bool := false
  value : Option Nat := none
deriving DecidableEq, Repr

/-- `Box::isEmpty`. -/
def Box.isEmpty (b : Box) : Bool := !b.value.isSome

/-- `Box::get`: `isEmpty() ? ' ' : static_cast<char>('0' + value.value())`. -/
def Box.get (b : Box) : Int :=
  match b.value with
  | none => 32
  | some v => toChar (((48 + v) % sizeMod : Nat) : Int)

/-- `using grid_t = std::array<Box, nBoxes>`. -/
abbrev grid_t : Type := Fin nBoxes → Box

/-- The value-initialised array `std::array<Box, nBoxes>{}`. -/
def emptyGrid : grid_t := fun _ => {}

/-- Assignment to one element of the array. -/
def grid_t.set (grid : grid_t) (i : Fin nBoxes) (b : Box) : grid_t :=
  fun j => if j = i then b else grid j

/-- `grid[index]` read; outside the array the source has undefined behaviour. -/
def readBox (grid : grid_t) (index : Nat) : Except Error Box :=
  if h : index < nBoxes then .ok (grid ⟨index, h⟩) else .error (.outOfBounds index)

/-! ## Colours (Source.cpp 54-105) -/

/-- `enum class Colour`: a value of the underlying type `int`; the sixteen
enumerators are the values 0 to 15. -/
@[ext] structure Colour where
  code : Int
  lower : -2147483648 ≤ code
  upper : code < 2147483648
deriving DecidableEq

/-- `static_cast<Colour>(n)` for `n` of type `std::size_t`. -/
def Colour.ofSize (n : Nat) : Colour :=
  ⟨((n : Int) + 2147483648) % 4294967296 - 2147483648, by omega, by omega⟩

/-- `static_cast<std::size_t>(colour)`. -/
def Colour.toSize (c : Colour) : Nat := toSizeT c.code

def Colour.Black : Colour := ⟨0, by decide, by decide⟩
def Colour.DarkBlue : Colour := ⟨1, by decide, by decide⟩
def Colour.LightBlue : Colour := ⟨2, by decide, by decide⟩
def Colour.DarkGreen : Colour := ⟨3, by decide, by decide⟩
def Colour.DarkRed : Colour := ⟨4, by decide, by decide⟩
def Colour.DarkPurple : Colour := ⟨5, by decide, by decide⟩
def Colour.Orange : Colour := ⟨6, by decide, by decide⟩
def Colour.White : Colour := ⟨7, by decide, by decide⟩
def Colour.Grey : Colour := ⟨8, by decide, by decide⟩
def Colour.Blue : Colour := ⟨9, by decide, by decide⟩
def Colour.Green : Colour := ⟨10, by decide, by decide⟩
def Colour.LighterBlue : Colour := ⟨11, by decide, by decide⟩
def Colour.Red : Colour := ⟨12, by decide, by decide⟩
def Colour.Purple : Colour := ⟨13, by decide, by decide⟩
def Colour.Yellow : Colour := ⟨14, by decide, by decide⟩
def Colour.BrightWhite : Colour := ⟨15, by decide, by decide⟩

/-- `struct Colours`, with the defaults of `namespace defaultColours`. -/
structure Colours where
  constantBoxes : Colour := Colour.DarkRed
  commands : Colour := Colour.Blue
  boxEdges : Colour := Colour.DarkBlue
  editableBoxes : Colour := Colour.White
deriving DecidableEq

/-- `Colours::operator[]` used as an assignment target. -/
def Colours.setAt (c : Colours) (index : Nat) (v : Colour) : Except Error Colours :=
  match index with
  | 0 => .ok { c with constantBoxes := v }
  | 1 => .ok { c with commands := v }
  | 2 => .ok { c with boxEdges := v }
  | 3 => .ok { c with editableBoxes := v }
  | _ => .error .out_of_range

/-! ## Input streams -/

/-- An input stream: the characters not yet read and two state flags. -/
structure IStream where
  rest : List Char
  eofbit : Bool := false
  failbit : Bool := false
deriving DecidableEq, Repr

/-- A stream freshly opened on a text. -/
def IStream.ofText (text : List Char) : IStream := { rest := text }

/-- `good()`. -/
def IStream.good (s : IStream) : Bool := !s.eofbit && !s.failbit

/-- `std::getline(s, str)`, where `old` is the content of `str` before the
call: a stream that is not good fails and leaves `str` alone; otherwise the
characters up to the next newline are moved to `str` and the newline is
dropped; reaching the end of the text sets `eofbit`, and `failbit` too when
nothing was read. -/
def IStream.getline (s : IStream) (old : List Char) : List Char × IStream :=
  if s.good then
    match s.rest.span (fun c => c != '\n') with
    | (str, _ :: tl) => (str, { s with rest := tl })
    | (str, []) => (str, { rest := [], eofbit := true, failbit := str.isEmpty })
  else (old, { s with failbit := true })

/-- `std::isspace` in the "C" locale. -/
def isspace (c : Char) : Bool :=
  c = ' ' || c = '\t' || c = '\n' || c = Char.ofNat 11 || c = Char.ofNat 12 || c = '\r'

/-- `std::isdigit`, true exactly for `'0'` to `'9'` (for a `char` with a
negative value the source passes a negative `int`; the answer taken here is
false). -/
def isdigit (c : Char) : Bool := decide ('0' ≤ c) && decide (c ≤ '9')

/-- The number a run of decimal digits denotes. -/
def digitsValue (ds : List Char) : Nat :=
  ds.foldl (fun acc c => acc * 10 + (c.toNat - 48)) 0

/-- `s >> n` for `std::size_t n`, where `old` is the value of `n` before the
call.  A stream that is not good fails and leaves `n` alone.  Otherwise white
space is skipped (at the end of the text: `eofbit`, `failbit`, `n` unchanged),
then an optional sign and a run of decimal digits are read: no digit stores 0
and fails, a value that does not fit stores the largest value and fails, a
minus sign negates modulo `2 ^ 64`.  `eofbit` is set when the run of digits
ends with the text. -/
def IStream.readSize (s : IStream) (old : Nat) : Nat × IStream :=
  if s.good then
    match s.rest.dropWhile isspace with
    | [] => (old, { rest := [], eofbit := true, failbit := true })
    | c :: cs =>
      let neg : Bool := c = '-'
      let body : List Char := if c = '-' ∨ c = '+' then cs else c :: cs
      let ds := body.takeWhile isdigit
      let tl := body.dropWhile isdigit
      if ds.isEmpty then (0, { rest := tl, eofbit := tl.isEmpty, failbit := true })
      else if digitsValue ds < sizeMod then
        ((if neg then (sizeMod - digitsValue ds) % sizeMod else digitsValue ds),
          { rest := tl, eofbit := tl.isEmpty, failbit := false })
      else (sizeMod - 1, { rest := tl, eofbit := tl.isEmpty, failbit := true })
  else (old, { s with failbit := true })

/-! ## Decoding a file (Source.cpp 362-397) -/

/-- `filePath.contains(pattern)`. -/
def containsText (s pattern : String) : Bool :=
  s.toList.tails.any (fun t => pattern.toList.isPrefixOf t)

/-- The message of the exception thrown at an unexpected character. -/
def parseErrorMessage (filePath : String) (lineID : Nat) (c : Char) : String :=
  "Error while parsing file \"" ++ filePath ++ "\" at line " ++ toString lineID
    ++ " (unexpected character : '" ++ String.singleton c ++ "') !"

/-- The inner loop of `loadFileData` (Source.cpp 369-386) over the characters
of one line from index `i` on; `skip` counts the characters at the front that
`i` has already been moved past, and `column` is the `char` counter.  The
reference `grid[toArrayIndex(column++, lineID)]` is taken before the character
is looked at.  In the `'('` case `line[(++i)++]`, the character after the
parenthesis, gives the value (`line[line.size()]` is the null character) and
`i` ends two characters further, so the next two characters are not scanned. -/
def loadLine (isSolutionFile : Bool) (filePath : String) (lineID : Nat) :
    List Char → Nat → Int → grid_t → Except Error grid_t
  | [], _, _, grid => .ok grid
  | _ :: rest, skip + 1, column, grid =>
    loadLine isSolutionFile filePath lineID rest skip column grid
  | c :: rest, 0, column, grid =>
    if h : toArrayIndex column lineID < nBoxes then
      if c = ' ' then
        loadLine isSolutionFile filePath lineID rest 0 (toChar (column + 1))
          (grid.set ⟨toArrayIndex column lineID, h⟩ { value := none, isConstant := false })
      else if isdigit c then
        loadLine isSolutionFile filePath lineID rest 0 (toChar (column + 1))
          (grid.set ⟨toArrayIndex column lineID, h⟩
            { value := some (toSizeT (charCode c - 48)), isConstant := isSolutionFile })
      else if c = '(' then
        loadLine isSolutionFile filePath lineID rest 2 (toChar (column + 1))
          (grid.set ⟨toArrayIndex column lineID, h⟩
            { value := some (toSizeT (charCode (rest.headD (Char.ofNat 0)) - 48)),
              isConstant := true })
      else .error (.invalid_argument (parseErrorMessage filePath lineID c))
    else .error (.outOfBounds (toArrayIndex column lineID))

/-- The outer loop of `loadFileData` (Source.cpp 365-387): `count` lines are
still to be read, the next one being line `lineID`. -/
def loadLines (isSolutionFile : Bool) (filePath : String) :
    Nat → Nat → IStream → grid_t → Except Error (IStream × grid_t)
  | 0, _, file, grid => .ok (file, grid)
  | count + 1, lineID, file, grid =>
    match loadLine isSolutionFile filePath lineID (file.getline []).1 0 65 grid with
    | .error e => .error e
    | .ok grid2 => loadLines isSolutionFile filePath count (lineID + 1) (file.getline []).2 grid2

/-- The four extractions `file >> inputColours[0] >> ... >> inputColours[3]`
into the zero-initialised array, and the four assignments that follow
(Source.cpp 391-396). -/
def loadColours (file : IStream) : Colours :=
  let r0 := file.readSize 0
  let r1 := r0.2.readSize 0
  let r2 := r1.2.readSize 0
  let r3 := r2.2.readSize 0
  { boxEdges := Colour.ofSize r0.1, commands := Colour.ofSize r1.1,
    constantBoxes := Colour.ofSize r2.1, editableBoxes := Colour.ofSize r3.1 }

/-- `loadFileData(filePath, grid, colours)`, the file at `filePath` holding
`content`. -/
def loadFileData (filePath : String) (content : List Char) (grid : grid_t)
    (colours : Colours) : Except Error (grid_t × Colours) :=
  match loadLines (containsText filePath "Solutions") filePath gridSize 0
      (IStream.ofText content) grid with
  | .error e => .error e
  | .ok (file, grid2) =>
    if containsText filePath "Solutions" then .ok (grid2, colours)
    else .ok (grid2, loadColours file)

/-! ## Encoding a save file (Source.cpp 331-349) -/

/-- `stream << n` for `std::size_t n`, and `std::to_string(n)`: the decimal
digits of `n`. -/
def putSize (n : Nat) : List Char := (Nat.repr n).toList

/-- What `saveState` writes for one box (Source.cpp 338-343): a constant box
is `'('`, its value in decimal, `')'`; any other box is the character
`box.get()`. -/
def saveBox (box : Box) : Except Error (List Char) :=
  if box.isConstant then
    match box.value with
    | none => .error .bad_optional_access
    | some v => .ok ('(' :: (putSize v ++ [')']))
  else .ok [byteChar box.get]

/-- The inner loop of `saveState` (Source.cpp 336-344), in which `column` runs
from `'A'` while `column < maxColumn`, that is over `gridSize` columns:
`count` columns are still to be written, the next one being `column`. -/
def saveColumns (grid : grid_t) (line : Nat) : Nat → Int → Except Error (List Char)
  | 0, _ => .ok []
  | count + 1, column =>
    match readBox grid (toArrayIndex column line) with
    | .error e => .error e
    | .ok box =>
      match saveBox box with
      | .error e => .error e
      | .ok cell =>
        match saveColumns grid line count (toChar (column + 1)) with
        | .error e => .error e
        | .ok cells => .ok (cell ++ cells)

/-- The outer loop of `saveState` (Source.cpp 335-346): `count` lines are
still to be written, the next one being `line`; each ends with a newline. -/
def saveLines (grid : grid_t) : Nat → Nat → Except Error (List Char)
  | 0, _ => .ok []
  | count + 1, line =>
    match saveColumns grid line gridSize 65 with
    | .error e => .error e
    | .ok row =>
      match saveLines grid count (line + 1) with
      | .error e => .error e
      | .ok rows => .ok (row ++ '\n' :: rows)

/-- The colour segment (Source.cpp 347-348). -/
def saveColours (colours : Colours) : List Char :=
  putSize colours.boxEdges.toSize ++ ' ' :: (putSize colours.commands.toSize ++ ' ' ::
    (putSize colours.constantBoxes.toSize ++ ' ' :: putSize colours.editableBoxes.toSize))

/-- The text `saveState(grid, colours)` writes to the save file. -/
def saveText (grid : grid_t) (colours : Colours) : Except Error (List Char) :=
  match saveLines grid gridSize 0 with
  | .error e => .error e
  | .ok rows => .ok (rows ++ saveColours colours)

/-! ## Opening a level (Source.cpp 190-228) -/

/-- `currentFormattedPath()`, the current directory being `currentPath`. -/
def currentFormattedPath (currentPath : String) : String :=
  String.mk (currentPath.toList.map (fun c => if c = '\\' then '/' else c))

/-- The inner loop of `openLevel` (Source.cpp 221-225) over the characters of
one line: every character fills one box, constant unless the character is a
space. -/
def openLevelLine (lineID : Nat) : List Char → Nat → grid_t → Except Error grid_t
  | [], _, grid => .ok grid
  | c :: rest, columnID, grid =>
    if h : toArrayIndex (toChar (((65 + columnID) % sizeMod : Nat) : Int)) lineID < nBoxes then
      openLevelLine lineID rest ((columnID + 1) % sizeMod)
        (grid.set ⟨toArrayIndex (toChar (((65 + columnID) % sizeMod : Nat) : Int)) lineID, h⟩
          { isConstant := c != ' ',
            value := if c != ' ' then some (toSizeT (charCode c - 48)) else none })
    else .error (.outOfBounds (toArrayIndex (toChar (((65 + columnID) % sizeMod : Nat) : Int)) lineID))

/-- The outer loop of `openLevel` (Source.cpp 218-226). -/
def openLevelLines : Nat → Nat → IStream → grid_t → Except Error grid_t
  | 0, _, _, grid => .ok grid
  | count + 1, lineID, level, grid =>
    match openLevelLine lineID (level.getline []).1 0 grid with
    | .error e => .error e
    | .ok grid2 => openLevelLines count (lineID + 1) (level.getline []).2 grid2

/-- `openLevel(levelID)`, the level file holding `content`. -/
def openLevel (content : List Char) : Except Error grid_t :=
  openLevelLines gridSize 0 (IStream.ofText content) emptyGrid

/-! ## The console (Source.cpp 230-284) -/

/-- The console: the standard input, and the lines written to `std::cerr`
(oldest first).  What is written to `std::cout` is not recorded. -/
structure Console where
  cin : IStream
  cerr : List String := []
deriving DecidableEq, Repr

/-- `s.ignore(max, '\n')`: characters are dropped up to and including the
next newline; reaching the end of the text sets `eofbit`. -/
def IStream.ignoreLine (s : IStream) : IStream :=
  if s.good then
    match s.rest.span (fun c => c != '\n') with
    | (_, _ :: tl) => { s with rest := tl }
    | (_, []) => { rest := [], eofbit := true, failbit := false }
  else { s with failbit := true }

/-- `clearCin()`: `clear()` then `ignore(max, '\n')`. -/
def clearCin (cin : IStream) : IStream :=
  IStream.ignoreLine { cin with eofbit := false, failbit := false }

/-- `s >> n` for `int n`; as `readSize`, with the range of `int`. -/
def IStream.readInt (s : IStream) (old : Int) : Int × IStream :=
  if s.good then
    match s.rest.dropWhile isspace with
    | [] => (old, { rest := [], eofbit := true, failbit := true })
    | c :: cs =>
      let neg : Bool := c = '-'
      let body : List Char := if c = '-' ∨ c = '+' then cs else c :: cs
      let ds := body.takeWhile isdigit
      let tl := body.dropWhile isdigit
      let v : Int := if neg then -(digitsValue ds : Int) else (digitsValue ds : Int)
      if ds.isEmpty then (0, { rest := tl, eofbit := tl.isEmpty, failbit := true })
      else if v < -2147483648 then
        (-2147483648, { rest := tl, eofbit := tl.isEmpty, failbit := true })
      else if 2147483647 < v then
        (2147483647, { rest := tl, eofbit := tl.isEmpty, failbit := true })
      else (v, { rest := tl, eofbit := tl.isEmpty, failbit := false })
  else (old, { s with failbit := true })

/-- `s >> c` for `char c`: white space is skipped and one character is read. -/
def IStream.readChar (s : IStream) (old : Char) : Char × IStream :=
  if s.good then
    match s.rest.dropWhile isspace with
    | [] => (old, { rest := [], eofbit := true, failbit := true })
    | c :: cs => (c, { s with rest := cs })
  else (old, { s with failbit := true })

/-- The loop of `securedInput<int>` (Source.cpp 239-247); `value` is the
variable of the source, `fuel` bounds the number of rounds. -/
def securedInputIntLoop (lowerBound upperBound : Int) :
    Nat → Int → IStream → Except Error (Int × IStream)
  | 0, _, _ => .error .endOfInput
  | fuel + 1, value, cin =>
    if lowerBound ≤ (cin.readInt value).1 ∧ (cin.readInt value).1 ≤ upperBound then
      .ok (cin.readInt value)
    else
      securedInputIntLoop lowerBound upperBound fuel (cin.readInt value).1
        (clearCin (cin.readInt value).2)

/-- `securedInput<int>(message, lowerBound, upperBound)`.  Every round that
does not return drops at least one character of a non-empty input, and on an
empty input the rounds repeat unchanged, so the fuel is never the reason for
stopping early. -/
def securedInputInt (lowerBound upperBound : Int) (cin : IStream) : Except Error (Int × IStream) :=
  securedInputIntLoop lowerBound upperBound (cin.rest.length + 2) 0 cin

/-- The loop of `securedInput<std::size_t>`. -/
def securedInputSizeLoop (lowerBound upperBound : Nat) :
    Nat → Nat → IStream → Except Error (Nat × IStream)
  | 0, _, _ => .error .endOfInput
  | fuel + 1, value, cin =>
    if lowerBound ≤ (cin.readSize value).1 ∧ (cin.readSize value).1 ≤ upperBound then
      .ok (cin.readSize value)
    else
      securedInputSizeLoop lowerBound upperBound fuel (cin.readSize value).1
        (clearCin (cin.readSize value).2)

/-- `securedInput<std::size_t>(message, lowerBound, upperBound)`. -/
def securedInputSize (lowerBound upperBound : Nat) (cin : IStream) :
    Except Error (Nat × IStream) :=
  securedInputSizeLoop lowerBound upperBound (cin.rest.length + 2) 0 cin

/-- The loop of `yesNoInput` (Source.cpp 252-257). -/
def yesNoInputLoop : Nat → Char → IStream → Except Error (Bool × IStream)
  | 0, _, _ => .error .endOfInput
  | fuel + 1, input, cin =>
    if (cin.readChar input).1 ≠ 'y' ∧ (cin.readChar input).1 ≠ 'n' then
      yesNoInputLoop fuel (cin.readChar input).1
        (if (cin.readChar input).2.failbit then clearCin (cin.readChar input).2
          else (cin.readChar input).2)
    else
      .ok ((cin.readChar input).1 == 'y',
        if (cin.readChar input).2.failbit then clearCin (cin.readChar input).2
          else (cin.readChar input).2)

/-- `yesNoInput(message)`. -/
def yesNoInput (cin : IStream) : Except Error (Bool × IStream) :=
  yesNoInputLoop (cin.rest.length + 2) (Char.ofNat 0) cin

/-- One round of the loop of `securedInputBox` (Source.cpp 267-282) on the
entered line `boxID`: the box to return, or the lines written to `std::cerr`
before the prompt repeats. -/
def checkBoxID (boxID : List Char) : Except (List String) box_t :=
  if boxID = ['0'] then .ok cancellingBoxInputCode
  else
    match boxID with
    | [c0, c1] =>
      if 65 ≤ charCode c0 ∧ charCode c0 ≤ realMaxColumn then
        if 48 ≤ charCode c1 ∧ charCode c1 ≤ 56 then .ok (charCode c0, toSizeT (charCode c1 - 48))
        else .error ["Line must be included between 1 and 8 !",
          "Column must be included between A and " ++ String.singleton (byteChar realMaxColumn)]
      else .error
        ["Column must be included between A and " ++ String.singleton (byteChar realMaxColumn)]
    | _ => .error ["Two characters only ! (e.g A1, B4...) "]

/-- The loop of `securedInputBox` (Source.cpp 264-283); `boxID` is the
variable of the source. -/
def securedInputBoxLoop : Nat → List Char → Console → Except Error (box_t × Console)
  | 0, _, _ => .error .endOfInput
  | fuel + 1, boxID, console =>
    match checkBoxID (console.cin.getline boxID).1 with
    | .ok box => .ok (box, { console with cin := (console.cin.getline boxID).2 })
    | .error messages =>
      securedInputBoxLoop fuel (console.cin.getline boxID).1
        { cin := (console.cin.getline boxID).2, cerr := console.cerr ++ messages }

/-- `securedInputBox(action)`: `clearCin()`, then the loop. -/
def securedInputBox (console : Console) : Except Error (box_t × Console) :=
  securedInputBoxLoop ((clearCin console.cin).rest.length + 2) []
    { console with cin := clearCin console.cin }

/-! ## Editing the grid (Source.cpp 286-329) -/

/-- `grid[index].value = value`. -/
def setValue (grid : grid_t) (index : Nat) (value : Option Nat) : Except Error grid_t :=
  if h : index < nBoxes then
    .ok (grid.set ⟨index, h⟩ { grid ⟨index, h⟩ with value := value })
  else .error (.outOfBounds index)

/-- The line `editBox` and `eraseBox` write to `std::cerr` for a constant box. -/
def constantBoxMessage (action : String) (box : box_t) : String :=
  "Cannot " ++ action ++ " " ++ String.singleton (byteChar box.1) ++ toString box.2
    ++ " ! (constant box)"

/-- The loop of `editBox` (Source.cpp 287-299). -/
def editBoxLoop : Nat → grid_t → Console → Except Error (grid_t × Console)
  | 0, _, _ => .error .endOfInput
  | fuel + 1, grid, console =>
    match securedInputBox console with
    | .error e => .error e
    | .ok (box, console1) =>
      if box = cancellingBoxInputCode then .ok (grid, console1)
      else
        match readBox grid (toArrayIndex box.1 box.2) with
        | .error e => .error e
        | .ok target =>
          if target.isConstant then
            editBoxLoop fuel grid
              { console1 with cerr := console1.cerr ++ [constantBoxMessage "edit" box] }
          else
            match securedInputInt 1 9 console1.cin with
            | .error e => .error e
            | .ok (value, cin2) =>
              match setValue grid (toArrayIndex box.1 box.2) (some (toSizeT value)) with
              | .error e => .error e
              | .ok grid2 => .ok (grid2, { console1 with cin := cin2 })

/-- `editBox(grid)`.  Every call of `securedInputBox` that returns has read a
line, so there are at most as many rounds as characters of input. -/
def editBox (grid : grid_t) (console : Console) : Except Error (grid_t × Console) :=
  editBoxLoop (console.cin.rest.length + 1) grid console

/-- The loop of `eraseBox` (Source.cpp 304-316). -/
def eraseBoxLoop : Nat → grid_t → Console → Except Error (grid_t × Console)
  | 0, _, _ => .error .endOfInput
  | fuel + 1, grid, console =>
    match securedInputBox console with
    | .error e => .error e
    | .ok (box, console1) =>
      if box = cancellingBoxInputCode then .ok (grid, console1)
      else
        match readBox grid (toArrayIndex box.1 box.2) with
        | .error e => .error e
        | .ok target =>
          if target.isConstant then
            eraseBoxLoop fuel grid
              { console1 with cerr := console1.cerr ++ [constantBoxMessage "erase" box] }
          else
            match setValue grid (toArrayIndex box.1 box.2) none with
            | .error e => .error e
            | .ok grid2 => .ok (grid2, console1)

/-- `eraseBox(grid)`. -/
def eraseBox (grid : grid_t) (console : Console) : Except Error (grid_t × Console) :=
  eraseBoxLoop (console.cin.rest.length + 1) grid console

/-- The loop of `retryLevel` over all boxes (Source.cpp 324-328). -/
def resetEditable (grid : grid_t) : grid_t :=
  fun i => if !(grid i).isConstant then { grid i with value := none } else grid i

/-- `retryLevel(grid)`. -/
def retryLevel (grid : grid_t) (console : Console) : Except Error (grid_t × Console) :=
  match yesNoInput console.cin with
  | .error e => .error e
  | .ok (answer, cin1) =>
    if !answer then .ok (grid, { console with cin := cin1 })
    else .ok (resetEditable grid, { console with cin := cin1 })

/-! ## Saving and loading from the menu (Source.cpp 331-349, 476-527) -/

/-- `saveState(grid, colours)`: the path of the file written and its text. -/
def saveState (currentPath : String) (grid : grid_t) (colours : Colours) (console : Console) :
    Except Error (String × List Char × Console) :=
  match securedInputSize 1 3 console.cin with
  | .error e => .error e
  | .ok (saveLocation, cin1) =>
    match saveText grid colours with
    | .error e => .error e
    | .ok text =>
      .ok (currentFormattedPath currentPath ++ "/Saves/"
          ++ String.singleton (byteChar (toChar (((48 + saveLocation) % sizeMod : Nat) : Int)))
          ++ ".txt", text, { console with cin := cin1 })

/-- `loadSolution(grid, levelID)`, the solution file holding `content`: the
colours handed to `loadFileData` are a local, default-initialised `Colours`. -/
def loadSolution (currentPath : String) (content : List Char) (grid : grid_t) (levelID : Nat) :
    Except Error grid_t :=
  match loadFileData
      (currentFormattedPath currentPath ++ "/Solutions/" ++ toString levelID ++ ".txt")
      content grid {} with
  | .error e => .error e
  | .ok (grid2, _) => .ok grid2

/-- The state of `main`: the variables `grid` and `colours`. -/
structure Session where
  grid : grid_t
  colours : Colours

/-- `case 8` of the command loop of `main`: `loadSolution(grid, levelID)`. -/
def Session.showSolution (s : Session) (currentPath : String) (content : List Char)
    (levelID : Nat) : Except Error Session :=
  match loadSolution currentPath content s.grid levelID with
  | .error e => .error e
  | .ok grid2 => .ok { s with grid := grid2 }

/-! ## Cell tokens, in the words of the specification (section 4.2) -/

/-- A cell token of a grid line: a space, a plain digit, or a digit between
parentheses. -/
inductive Token where
  | blank
  | plain (d : Fin 10)
  | fixed (d : Fin 10)
deriving DecidableEq, Repr

/-- The character of a decimal digit. -/
def digitChar (d : Fin 10) : Char := Char.ofNat (48 + d.val)

/-- The characters of a token. -/
def Token.render : Token → List Char
  | .blank => [' ']
  | .plain d => [digitChar d]
  | .fixed d => ['(', digitChar d, ')']

/-- The cell a token stands for, in a file that is a solution file or not:
a space is an empty editable cell, `'(' d ')'` a fixed cell holding `d`, a
plain digit a cell holding `d` that is fixed exactly in a solution file. -/
def Token.box (isSolutionFile : Bool) : Token → Box
  | .blank => { isConstant := false, value := none }
  | .plain d => { isConstant := isSolutionFile, value := some d.val }
  | .fixed d => { isConstant := true, value := some d.val }

/-- The characters of a line of tokens. -/
def renderLine (tokens : List Token) : List Char := tokens.flatMap Token.render

/-- The grid with the boxes `boxes` stored from index `start` on. -/
def placeBoxes (grid : grid_t) (start : Nat) (boxes : List Box) : grid_t :=
  fun i => if start ≤ i.val then (boxes.get? (i.val - start)).getD (grid i) else grid i

/-- The characters of a file of token lines, each line ended by a newline. -/
def renderFile (lines : List (List Token)) : List Char :=
  lines.flatMap (fun l => renderLine l ++ ['\n'])

/-- The grid with the cells of the token lines `lines` stored in the rows
from row `r` on. -/
def placeRows (isSolutionFile : Bool) (grid : grid_t) : Nat → List (List Token) → grid_t
  | _, [] => grid
  | r, l :: ls =>
    placeRows isSolutionFile (placeBoxes grid (r * 9) (l.map (Token.box isSolutionFile))) (r + 1) ls

/-- The cell the token lines `lines`, the first of which is row `r`, give for
the box of index `i`, when they have a token for it. -/
def cellOf (isSolutionFile : Bool) (lines : List (List Token)) (r : Nat) (i : Nat) : Option Box :=
  if r ≤ i / 9 then
    (lines.get? (i / 9 - r)).bind (fun l => (l.get? (i % 9)).map (Token.box isSolutionFile))
  else none

/-- The box of index `n` of the grid (an empty editable box outside it). -/
def boxAt (grid : grid_t) (n : Nat) : Box :=
  if h : n < nBoxes then grid ⟨n, h⟩ else {}

/-- The token that stands for a box whose value is a single digit. -/
def Box.token (b : Box) : Token :=
  match b.value with
  | none => .blank
  | some v => if b.isConstant then .fixed (Fin.ofNat v) else .plain (Fin.ofNat v)

/-- The tokens of the columns `k`, ..., `k + n - 1` of row `r` of a grid. -/
def rowTokens (grid : grid_t) (r k n : Nat) : List Token :=
  (List.range' k n).map (fun j => (boxAt grid (r * 9 + j)).token)

/-- The token lines of the rows `r`, ..., `r + n - 1` of a grid. -/
def gridLines (grid : grid_t) (r n : Nat) : List (List Token) :=
  (List.range' r n).map (fun j => rowTokens grid j 0 9)

/-- The character the specification writes for a digit. -/
def specDigit (v : Nat) : Char := Char.ofNat (48 + v)

/-- The text of one cell in a save file, in the words of the specification:
`'(' digit ')'` for a fixed cell, the digit for an editable cell holding one,
a space for an empty editable cell. -/
def specCell (b : Box) : List Char :=
  if b.isConstant then ['(', specDigit (b.value.getD 0), ')']
  else
    match b.value with
    | some v => [specDigit v]
    | none => [' ']

/-- The text of a save file, in the words of the specification: nine lines,
each the texts of the cells of the columns A to I followed by a newline, then
the indices of the box-edge, command, fixed-cell and editable-cell colours in
decimal with one space between them. -/
def specSaveText (grid : grid_t) (colours : Colours) : List Char :=
  (List.range 9).flatMap
      (fun r => (List.range 9).flatMap (fun k => specCell (boxAt grid (r * 9 + k))) ++ ['\n'])
    ++ (toString colours.boxEdges.toSize ++ " " ++ toString colours.commands.toSize ++ " "
      ++ toString colours.constantBoxes.toSize ++ " "
      ++ toString colours.editableBoxes.toSize).toList

/-- An example grid: row 0 is `(5)3   (8)   `, the other rows are empty. -/
def exampleGrid : grid_t :=
  placeBoxes emptyGrid 0
    [⟨true, some 5⟩, ⟨false, some 3⟩, {}, {}, {}, ⟨true, some 8⟩]

/-- The example colours: edges 2, commands 5, fixed boxes 3, editable boxes 1. -/
def exampleColours : Colours :=
  { boxEdges := Colour.LightBlue, commands := Colour.DarkPurple,
    constantBoxes := Colour.DarkGreen, editableBoxes := Colour.DarkBlue }

/-- A grid whose first box is constant and holds the value 10. -/
def tenGrid : grid_t := emptyGrid.set ⟨0, by decide⟩ ⟨true, some 10⟩

/-- The boxes the scan of `loadFileData` can store: an empty editable box, a
box holding a value that is constant exactly in a solution file, or a
constant box holding a value. -/
def writtenBox (isSolutionFile : Bool) (b : Box) : Prop :=
  b = { isConstant := false, value := none } ∨
    ∃ v, b = { isConstant := isSolutionFile, value := some v } ∨
      b = { isConstant := true, value := some v }

/-- The text of a solution file in which the first cell is a space. -/
def holedSolution : List Char :=
  (" 23456789\n456789123\n789123456\n234567891\n567891234\n891234567\n"
    ++ "345678912\n678912345\n912345678\n").toList

/-- The token lines of a solution file whose first line is a space, a plain
`2` and `(3)`, the other eight lines being empty. -/
def mixedSolution : List (List Token) :=
  [[.blank, .plain 2, .fixed 3], [], [], [], [], [], [], [], []]

/-- The text of a save file whose row 3 is `(ab`. -/
def unclosedSave : List Char := "\n\n\n(ab\n\n\n\n\n\n1 9 4 7".toList

/-- The text of a save file whose row 3 is `ab`. -/
def strayLetters : List Char := "\n\n\nab\n\n\n\n\n\n1 9 4 7".toList

/-- The text of a level file whose first line is `5(7)`. -/
def smallLevel : List Char := "5(7)\n\n\n\n\n\n\n\n\n".toList

/-- One step of editing: a call of `editBox` or of `eraseBox` that returns. -/
def EditStep (grid grid2 : grid_t) : Prop :=
  ∃ console console2, editBox grid console = .ok (grid2, console2) ∨
    eraseBox grid console = .ok (grid2, console2)

/-- The grids of a session: the grid `openLevel` returns, and every grid that
`editBox`, `eraseBox`, `retryLevel` (confirmed or declined), `loadFileData`
(the load of a save file) or `loadSolution` returns on such a grid. -/
inductive Reachable : grid_t → Prop where
  | fromLevel (content : List Char) (grid : grid_t) :
      openLevel content = .ok grid → Reachable grid
  | afterEdit (grid grid2 : grid_t) (console console2 : Console) :
      Reachable grid → editBox grid console = .ok (grid2, console2) → Reachable grid2
  | afterErase (grid grid2 : grid_t) (console console2 : Console) :
      Reachable grid → eraseBox grid console = .ok (grid2, console2) → Reachable grid2
  | afterRetry (grid grid2 : grid_t) (console console2 : Console) :
      Reachable grid → retryLevel grid console = .ok (grid2, console2) → Reachable grid2
  | afterLoad (grid grid2 : grid_t) (path : String) (content : List Char)
      (colours colours2 : Colours) :
      Reachable grid → loadFileData path content grid colours = .ok (grid2, colours2) →
        Reachable grid2
  | afterSolution (grid grid2 : grid_t) (currentPath : String) (content : List Char)
      (levelID : Nat) :
      Reachable grid → loadSolution currentPath content grid levelID = .ok grid2 →
        Reachable grid2

/-- The example grid after the box B0 has been erased. -/
def erasedGrid : grid_t :=
  exampleGrid.set ⟨1, by decide⟩ { exampleGrid ⟨1, by decide⟩ with value := none }

/-- The text of a level whose first line is `5 3`. -/
def levelText : List Char := "5 3\n\n\n\n\n\n\n\n\n".toList

/-- The grid `openLevel` builds from `levelText`. -/
def levelGrid : grid_t :=
  ((emptyGrid.set ⟨0, by decide⟩ { isConstant := true, value := some 5 }).set ⟨1, by decide⟩
    { isConstant := false, value := none }).set ⟨2, by decide⟩
    { isConstant := true, value := some 3 }

/-- The grid `levelGrid` after the box B0 has been given the value 7. -/
def levelEdited : grid_t :=
  levelGrid.set ⟨1, by decide⟩ { levelGrid ⟨1, by decide⟩ with value := some 7 }

/-- The invariant of a constant box: it holds a value. -/
def Box.constantHasValue (b : Box) : Prop := b.isConstant = true → b.value.isSome = true

/-- The invariant of the data model on one box: a constant box holds a value
and a value is a single digit. -/
def Box.wellFormed (b : Box) : Prop :=
  (b.isConstant = true → b.value.isSome = true) ∧ ∀ v, b.value = some v → v ≤ 9

/-! ## Colours and saves from the menu (Source.cpp 351-360, 399-474) -/

/-- The array `coloursText` of `changeColours`. -/
def coloursText : List String :=
  ["Box edges", "Commands", "Constant boxes", "Editable boxes"]

/-- The line of the fifteen colour numbers `changeColours` prints
(Source.cpp 442-446). -/
def colourNumbersLine : String :=
  (List.range' 1 15).foldl (fun line i => line ++ toString i ++ " ") ""

/-- The loop of `changeColours` that reads one colour number
(Source.cpp 449-459); `newColour` is the variable of the source, and the
second component of the result is the list of the lines written to
`std::cout` by the loop. -/
def newColourLoop (text : String) :
    Nat → Nat → IStream → List String → Except Error (Nat × IStream × List String)
  | 0, _, _, _ => .error .endOfInput
  | fuel + 1, newColour, cin, cout =>
    if (cin.readSize newColour).2.failbit then
      newColourLoop text fuel (cin.readSize newColour).1 (clearCin (cin.readSize newColour).2)
        (cout ++ [text ++ " colour ? [1-15] (0 to leave unchanged)"])
    else if (cin.readSize newColour).1 < 16 then
      .ok ((cin.readSize newColour).1, (cin.readSize newColour).2, cout)
    else
      newColourLoop text fuel (cin.readSize newColour).1 (cin.readSize newColour).2
        (cout ++ [text ++ " colour ? [1-15] (0 to leave unchanged)"])

/-- The outer loop of `changeColours` (Source.cpp 439-463): `count` prompts
are still to come, the next one being the prompt of index `colour`. -/
def changeColoursFrom :
    Nat → Nat → Colours → IStream → List String → Except Error (Colours × IStream × List String)
  | 0, _, colours, cin, cout => .ok (colours, cin, cout)
  | count + 1, colour, colours, cin, cout =>
    match newColourLoop (coloursText.getD colour "") (cin.rest.length + 2) 16 cin
        (cout ++ [coloursText.getD colour "" ++ " colour ? [1-15] (0 to cancel)",
          colourNumbersLine]) with
    | .error e => .error e
    | .ok (newColour, cin1, cout1) =>
      if newColour ≠ 0 then
        match colours.setAt colour (Colour.ofSize newColour) with
        | .error e => .error e
        | .ok colours1 => changeColoursFrom count (colour + 1) colours1 cin1 cout1
      else changeColoursFrom count (colour + 1) colours cin1 cout1

/-- `changeColours(colours)`: the new colours, the console, and the lines
written to `std::cout`. -/
def changeColours (colours : Colours) (console : Console) :
    Except Error (Colours × Console × List String) :=
  match changeColoursFrom 4 0 colours console.cin [] with
  | .error e => .error e
  | .ok (colours1, cin1, cout) => .ok (colours1, { console with cin := cin1 }, cout)

/-- `restoreDefaultColours(colours)`. -/
def restoreDefaultColours (colours : Colours) (console : Console) :
    Except Error (Colours × Console) :=
  match yesNoInput console.cin with
  | .error e => .error e
  | .ok (answer, cin1) =>
    if !answer then .ok (colours, { console with cin := cin1 })
    else
      .ok ({ colours with boxEdges := Colour.DarkBlue, commands := Colour.Blue,
                          constantBoxes := Colour.DarkRed, editableBoxes := Colour.White },
        { console with cin := cin1 })

/-- The loop of `loadBackup` that asks for a save (Source.cpp 406-427);
`saves` is the set `availableSaves()` returned and `saveID` the variable of
the source. -/
def chooseSaveLoop (saves : List Nat) : Nat → Nat → Console → Except Error (Nat × Console)
  | 0, _, _ => .error .endOfInput
  | fuel + 1, saveID, console =>
    if (console.cin.readSize saveID).2.failbit then
      chooseSaveLoop saves fuel (console.cin.readSize saveID).1
        { console with cin := clearCin (console.cin.readSize saveID).2 }
    else if !saves.contains (console.cin.readSize saveID).1 then
      chooseSaveLoop saves fuel (console.cin.readSize saveID).1
        { cin := (console.cin.readSize saveID).2,
          cerr := console.cerr ++
            ["Save " ++ toString (console.cin.readSize saveID).1 ++ " doesn't exist !"] }
    else .ok ((console.cin.readSize saveID).1, { console with cin := (console.cin.readSize saveID).2 })

/-- The path `loadBackup` hands to `loadFileData` (Source.cpp 429). -/
def savePath (currentPath : String) (saveID : Nat) : String :=
  currentFormattedPath currentPath ++ "/Saves/" ++ toString saveID ++ ".txt"

/-- `loadBackup(grid, colours)`, the directory `Saves` holding, for each pair
of `saves`, the file named after the number with the content of the pair. -/
def loadBackup (currentPath : String) (saves : List (Nat × List Char)) (grid : grid_t)
    (colours : Colours) (console : Console) : Except Error (grid_t × Colours × Console) :=
  if saves.isEmpty then
    .ok (grid, colours, { console with cerr := console.cerr ++ ["No saves found !"] })
  else
    match chooseSaveLoop (saves.map Prod.fst) (console.cin.rest.length + 2) 0 console with
    | .error e => .error e
    | .ok (saveID, console1) =>
      match loadFileData (savePath currentPath saveID) ((saves.lookup saveID).getD []) grid
          colours with
      | .error e => .error e
      | .ok (grid2, colours2) => .ok (grid2, colours2, console1)

/-- The text of a file whose first line holds ten cells. -/
def tenCells : List Char := "1234567890\n\n\n\n\n\n\n\n\n".toList

/-- The text of a file whose first line is `0(x)`. -/
def oddValues : List Char := "0(x)\n\n\n\n\n\n\n\n\n".toList

/-- The grids of a session whose files are made of cell tokens: the grid
`openLevel` returns for a level text of nine lines of at most nine spaces and
plain digits, and every grid that `editBox`, `eraseBox`, `retryLevel`, or
`loadFileData` on a file of nine lines of at most nine cell tokens, returns on
such a grid. -/
inductive DigitReachable : grid_t → Prop where
  | fromLevel (lines : List (List Token)) (tl : List Char) (grid : grid_t) :
      lines.length = 9 → (∀ l ∈ lines, l.length ≤ 9 ∧ ∀ t ∈ l, ∀ d, t ≠ Token.fixed d) →
      openLevel (renderFile lines ++ tl) = .ok grid → DigitReachable grid
  | afterEdit (grid grid2 : grid_t) (console console2 : Console) :
      DigitReachable grid → editBox grid console = .ok (grid2, console2) → DigitReachable grid2
  | afterErase (grid grid2 : grid_t) (console console2 : Console) :
      DigitReachable grid → eraseBox grid console = .ok (grid2, console2) → DigitReachable grid2
  | afterRetry (grid grid2 : grid_t) (console console2 : Console) :
      DigitReachable grid → retryLevel grid console = .ok (grid2, console2) →
        DigitReachable grid2
  | afterLoad (grid grid2 : grid_t) (path : String) (lines : List (List Token))
      (tl : List Char) (colours colours2 : Colours) :
      DigitReachable grid → lines.length = 9 → (∀ l ∈ lines, l.length ≤ 9) →
      loadFileData path (renderFile lines ++ tl) grid colours = .ok (grid2, colours2) →
        DigitReachable grid2

/-- Every value of the grid is a digit. -/
def digitValues (grid : grid_t) : Prop := ∀ i v, (grid i).value = some v → v ≤ 9

/-- A colour is one of the fifteen display colours, 1 to 15. -/
def Colour.isDisplay (c : Colour) : Prop := 1 ≤ c.code ∧ c.code ≤ 15

/-- Each of the four stored colours is a display colour. -/
def Colours.valid (c : Colours) : Prop :=
  c.boxEdges.isDisplay ∧ c.commands.isDisplay ∧ c.constantBoxes.isDisplay ∧
    c.editableBoxes.isDisplay

instance (c : Colour) : Decidable c.isDisplay := by
  unfold Colour.isDisplay
  infer_instance

instance (c : Colours) : Decidable c.valid := by
  unfold Colours.valid
  infer_instance

/-- The text of a save file with empty grid lines and the colour segment
`0 16 3 1`. -/
def oddColours : List Char := "\n\n\n\n\n\n\n\n\n0 16 3 1".toList

/-- The text of a save file whose first cell is a plain 5 and whose colour
segment is `2 5 3 1`. -/
def smallSave : List Char := "5\n\n\n\n\n\n\n\n\n2 5 3 1".toList

/-! # Theorems -/

/-! ## Index arithmetic -/

theorem nBoxes_eq : nBoxes = 81 := rfl

theorem toArrayIndex_column (r k : Nat) (hr : r < 9) (hk : k ≤ 62) :
    toArrayIndex (65 + (k : Int)) r = r * 9 + k := by
  simp only [toArrayIndex, toSizeT, gridSize, sizeMod]
  omega

theorem toChar_next_column (k : Nat) (hk : k ≤ 61) :
    toChar (65 + (k : Int) + 1) = 65 + ((k + 1 : Nat) : Int) := by
  unfold toChar
  push_cast
  omega

/-! ## Digits -/

theorem digitChar_facts : ∀ d : Fin 10,
    isdigit (digitChar d) = true ∧ digitChar d ≠ ' ' ∧ digitChar d ≠ '\n' ∧
      digitChar d ≠ '(' ∧ toSizeT (charCode (digitChar d) - 48) = d.val := by
  decide

/-! ## Decoding a line of tokens -/

theorem placeBoxes_set (grid : grid_t) (start : Nat) (h : start < nBoxes) (b : Box)
    (bs : List Box) :
    placeBoxes (grid.set ⟨start, h⟩ b) (start + 1) bs = placeBoxes grid start (b :: bs) := by
  funext i
  unfold placeBoxes grid_t.set
  by_cases h1 : start + 1 ≤ i.val
  · have h2 : start ≤ i.val := by omega
    have h3 : i.val - start = (i.val - (start + 1)) + 1 := by omega
    have h4 : i ≠ ⟨start, h⟩ := by
      intro e
      rw [e] at h1
      simp at h1
    simp [h1, h2, h3, h4]
  · by_cases h2 : i = ⟨start, h⟩
    · subst h2
      simp
    · have h3 : ¬ start ≤ i.val := by
        intro h4
        apply h2
        apply Fin.ext
        simp only
        omega
      simp [h1, h2, h3]

theorem loadLine_token (sol : Bool) (path : String) (r k : Nat) (hr : r < 9) (hk : k ≤ 61)
    (hlt : r * 9 + k < nBoxes) (t : Token) (rest : List Char) (grid : grid_t) :
    loadLine sol path r (t.render ++ rest) 0 (65 + (k : Int)) grid =
      loadLine sol path r rest 0 (65 + ((k + 1 : Nat) : Int))
        (grid.set ⟨r * 9 + k, hlt⟩ (t.box sol)) := by
  have hidx : toArrayIndex (65 + (k : Int)) r = r * 9 + k :=
    toArrayIndex_column r k hr (by omega)
  have hcol : toChar (65 + (k : Int) + 1) = 65 + ((k + 1 : Nat) : Int) :=
    toChar_next_column k hk
  cases t with
  | blank =>
    rw [Token.render, List.singleton_append, loadLine]
    simp only [hidx, hlt, hcol, Token.box, dite_true, if_true]
  | plain d =>
    obtain ⟨h1, h2, -, -, h5⟩ := digitChar_facts d
    rw [Token.render, List.singleton_append, loadLine]
    simp only [hidx, hlt, hcol, Token.box, dite_true, if_true, h1, h2, if_false, h5]
  | fixed d =>
    obtain ⟨-, -, -, -, h5⟩ := digitChar_facts d
    have h6 : isdigit '(' = false := by decide
    have h7 : ('(' : Char) ≠ ' ' := by decide
    rw [Token.render, List.cons_append, List.cons_append, List.cons_append, List.nil_append,
      loadLine]
    simp only [hidx, hlt, hcol, Token.box, dite_true, if_true, if_false, h5, h6, h7,
      Bool.false_eq_true, List.headD_cons]
    rw [loadLine, loadLine]

theorem loadLine_tokens (sol : Bool) (path : String) (r : Nat) (hr : r < 9) :
    ∀ (tokens : List Token) (k : Nat) (rest : List Char) (grid : grid_t),
      k + tokens.length ≤ 62 → r * 9 + (k + tokens.length) ≤ nBoxes →
      loadLine sol path r (renderLine tokens ++ rest) 0 (65 + (k : Int)) grid =
        loadLine sol path r rest 0 (65 + ((k + tokens.length : Nat) : Int))
          (placeBoxes grid (r * 9 + k) (tokens.map (Token.box sol))) := by
  intro tokens
  induction tokens with
  | nil =>
    intro k rest grid _ _
    have : placeBoxes grid (r * 9 + k) [] = grid := by
      funext i
      simp [placeBoxes]
    simp [renderLine, this]
  | cons t ts ih =>
    intro k rest grid hlen hbound
    simp only [List.length_cons] at hlen hbound
    have hk : k ≤ 61 := by omega
    have hlt : r * 9 + k < nBoxes := by omega
    have e1 : renderLine (t :: ts) ++ rest = t.render ++ (renderLine ts ++ rest) := by
      simp [renderLine]
    rw [e1, loadLine_token sol path r k hr hk hlt, ih (k + 1) rest _ (by omega) (by omega)]
    have e2 : r * 9 + (k + 1) = (r * 9 + k) + 1 := by omega
    have e3 : k + 1 + ts.length = k + (t :: ts).length := by simp only [List.length_cons]; omega
    rw [e2, placeBoxes_set grid (r * 9 + k) hlt, e3]
    rfl

theorem placeBoxes_inside (grid : grid_t) (start : Nat) (boxes : List Box) (k : Nat)
    (hk : k < boxes.length) (h : start + k < nBoxes) :
    placeBoxes grid start boxes ⟨start + k, h⟩ = boxes.get ⟨k, hk⟩ := by
  simp [placeBoxes, List.getElem?_eq_getElem hk]

theorem placeBoxes_outside (grid : grid_t) (start : Nat) (boxes : List Box) (i : Fin nBoxes)
    (h : i.val < start ∨ start + boxes.length ≤ i.val) :
    placeBoxes grid start boxes i = grid i := by
  unfold placeBoxes
  by_cases h1 : start ≤ i.val
  · have h2 : boxes.length ≤ i.val - start := by omega
    simp [h1, List.getElem?_eq_none h2]
  · simp [h1]

/-! ## Decoding a file of token lines -/

theorem span_append_of_all (p : Char → Bool) (l m : List Char) (h : ∀ c ∈ l, p c = true) :
    (l ++ m).span p = (l ++ (m.span p).1, (m.span p).2) := by
  rw [List.span_eq_take_drop, List.span_eq_take_drop, List.takeWhile_append_of_pos h,
    List.dropWhile_append_of_pos h]

theorem renderLine_no_newline (tokens : List Token) :
    ∀ c ∈ renderLine tokens, (c != '\n') = true := by
  intro c hc
  simp only [renderLine, List.mem_flatMap] at hc
  obtain ⟨t, -, hct⟩ := hc
  cases t with
  | blank =>
    simp only [Token.render, List.mem_singleton] at hct
    subst hct
    decide
  | plain d =>
    simp only [Token.render, List.mem_singleton] at hct
    subst hct
    simpa using (digitChar_facts d).2.2.1
  | fixed d =>
    simp only [Token.render, List.mem_cons, List.mem_singleton, List.not_mem_nil,
      or_false] at hct
    rcases hct with h | h | h
    · subst h; decide
    · subst h; simpa using (digitChar_facts d).2.2.1
    · subst h; decide

theorem getline_of_line (l tl old : List Char) (h : ∀ c ∈ l, (c != '\n') = true) :
    IStream.getline { rest := l ++ '\n' :: tl } old = (l, { rest := tl }) := by
  have hs : (l ++ '\n' :: tl).span (fun c => c != '\n') = (l, '\n' :: tl) := by
    rw [span_append_of_all _ l _ h]
    simp [List.span_eq_take_drop]
  simp only [IStream.getline, IStream.good, hs]
  rfl

theorem loadLines_tokens (sol : Bool) (path : String) :
    ∀ (lines : List (List Token)) (r : Nat) (tl : List Char) (grid : grid_t),
      r + lines.length ≤ 9 → (∀ l ∈ lines, l.length ≤ 9) →
      loadLines sol path lines.length r { rest := renderFile lines ++ tl } grid =
        .ok ({ rest := tl }, placeRows sol grid r lines) := by
  intro lines
  induction lines with
  | nil =>
    intro r tl grid _ _
    simp [loadLines, renderFile, placeRows]
  | cons l ls ih =>
    intro r tl grid hr hl
    simp only [List.length_cons] at hr
    have hn := nBoxes_eq
    have hlen : l.length ≤ 9 := hl l (List.mem_cons_self l ls)
    have e1 : renderFile (l :: ls) ++ tl = renderLine l ++ '\n' :: (renderFile ls ++ tl) := by
      simp [renderFile]
    have hline := loadLine_tokens sol path r (by omega) l 0 [] grid (by omega) (by omega)
    simp only [List.append_nil, Nat.zero_add, Nat.cast_zero, add_zero] at hline
    rw [List.length_cons, loadLines, e1, getline_of_line _ _ _ (renderLine_no_newline l)]
    simp only [hline, loadLine]
    rw [ih (r + 1) tl _ (by omega) (fun x hx => hl x (List.mem_cons_of_mem l hx))]
    rfl

theorem placeBoxes_row (grid : grid_t) (r : Nat) (boxes : List Box) (hlen : boxes.length ≤ 9)
    (i : Fin nBoxes) :
    placeBoxes grid (r * 9) boxes i =
      if i.val / 9 = r then (boxes.get? (i.val % 9)).getD (grid i) else grid i := by
  unfold placeBoxes
  by_cases h1 : r * 9 ≤ i.val
  · by_cases h2 : i.val / 9 = r
    · have h3 : i.val - r * 9 = i.val % 9 := by omega
      simp [h1, h2, h3]
    · have h3 : boxes.length ≤ i.val - r * 9 := by omega
      simp [h1, h2, List.getElem?_eq_none h3]
  · have h2 : ¬ i.val / 9 = r := by omega
    simp [h1, h2]

theorem placeRows_apply (sol : Bool) :
    ∀ (lines : List (List Token)) (r : Nat) (grid : grid_t) (i : Fin nBoxes),
      (∀ l ∈ lines, l.length ≤ 9) →
      placeRows sol grid r lines i = (cellOf sol lines r i.val).getD (grid i) := by
  intro lines
  induction lines with
  | nil =>
    intro r grid i _
    simp [placeRows, cellOf]
  | cons l ls ih =>
    intro r grid i hl
    have hlen : l.length ≤ 9 := hl l (List.mem_cons_self l ls)
    rw [placeRows, ih (r + 1) _ i (fun x hx => hl x (List.mem_cons_of_mem l hx)),
      placeBoxes_row _ _ _ (by simpa using hlen)]
    unfold cellOf
    by_cases h1 : r + 1 ≤ i.val / 9
    · have h2 : r ≤ i.val / 9 := by omega
      have h3 : ¬ i.val / 9 = r := by omega
      have h4 : i.val / 9 - r = (i.val / 9 - (r + 1)) + 1 := by omega
      simp [h1, h2, h3, h4]
    · by_cases h2 : i.val / 9 = r
      · subst h2
        simp
      · have h3 : ¬ r ≤ i.val / 9 := by omega
        simp [h1, h2, h3]

theorem cellOf_middle (sol : Bool) (before after : List (List Token)) (tokens : List Token)
    (k : Nat) (hk : k < tokens.length) (hk9 : k < 9) :
    cellOf sol (before ++ tokens :: after) 0 (before.length * 9 + k) =
      some ((tokens.get ⟨k, hk⟩).box sol) := by
  have h1 : (before.length * 9 + k) / 9 = before.length := by omega
  have h2 : (before.length * 9 + k) % 9 = k := by omega
  have e1 : (before ++ tokens :: after).get? before.length = some tokens := by
    rw [List.get?_eq_getElem?, List.getElem?_append_right (le_refl _)]
    simp
  have e2 : tokens.get? k = some (tokens.get ⟨k, hk⟩) := List.get?_eq_get hk
  simp only [cellOf, Nat.zero_le, if_true, Nat.sub_zero, h1, h2, e1, Option.some_bind, e2,
    Option.map_some']

/-- C2. Decoding rules of `loadFileData` for a grid line of a file that is
not a solution file.  A line that consists of at most nine cell tokens is
scanned to its end, the `k`-th token filling the box of column `k` of row `r`
with the cell it stands for (a space an empty editable cell, a plain digit an
editable cell holding it, `'(' d ')'` a fixed cell holding `d`); each token
uses up exactly its own characters (three for the parenthesised form, one
otherwise) and one column, so that what follows the tokens is scanned from
column `tokens.length` on; the other boxes are left as they were.  And when
this line is line `r` of a file whose other grid lines are lines of at most
nine tokens too, `loadFileData` returns a grid with these cells in row `r`. -/
theorem loadFileData_line_decoding (path : String)
    (hpath : containsText path "Solutions" = false) (r : Nat) (hr : r < 9)
    (tokens : List Token) (hlen : tokens.length ≤ 9) (grid : grid_t)
    (before after : List (List Token)) (hbefore : before.length = r)
    (hafter : before.length + 1 + after.length = 9)
    (hothers : ∀ l ∈ before ++ after, l.length ≤ 9) (tl : List Char) (colours : Colours) :
    (∃ grid2 : grid_t,
      loadLine (containsText path "Solutions") path r (renderLine tokens) 0 65 grid = .ok grid2 ∧
      (∀ rest, loadLine (containsText path "Solutions") path r (renderLine tokens ++ rest) 0 65
          grid =
        loadLine (containsText path "Solutions") path r rest 0 (65 + (tokens.length : Int))
          grid2) ∧
      (∀ (k : Nat) (hk : k < tokens.length) (h : r * 9 + k < nBoxes),
        grid2 ⟨r * 9 + k, h⟩ = (tokens.get ⟨k, hk⟩).box false) ∧
      (∀ i : Fin nBoxes, i.val < r * 9 ∨ r * 9 + tokens.length ≤ i.val → grid2 i = grid i)) ∧
    (∀ d, (Token.fixed d).render.length = 3 ∧ (Token.plain d).render.length = 1) ∧
    Token.blank.render.length = 1 ∧
    ∃ (grid3 : grid_t) (colours3 : Colours),
      loadFileData path (renderFile (before ++ tokens :: after) ++ tl) grid colours =
        .ok (grid3, colours3) ∧
      ∀ (k : Nat) (hk : k < tokens.length) (h : r * 9 + k < nBoxes),
        grid3 ⟨r * 9 + k, h⟩ = (tokens.get ⟨k, hk⟩).box false := by
  subst hbefore
  rw [hpath]
  have hn := nBoxes_eq
  have key := fun rest => loadLine_tokens false path before.length hr tokens 0 rest grid
    (by omega) (by omega)
  simp only [Nat.zero_add, Nat.cast_zero, add_zero] at key
  refine ⟨⟨placeBoxes grid (before.length * 9) (tokens.map (Token.box false)), ?_, key, ?_, ?_⟩,
    fun d => ⟨rfl, rfl⟩, rfl, ?_⟩
  · have h := key []
    rw [List.append_nil] at h
    rw [h, loadLine]
  · intro k hk h
    rw [placeBoxes_inside grid (before.length * 9) _ k (by simpa using hk) h]
    simp
  · intro i hi
    apply placeBoxes_outside
    simpa using hi
  · have hall : ∀ l ∈ before ++ tokens :: after, l.length ≤ 9 := by
      intro l hl
      rcases List.mem_append.mp hl with h1 | h1
      · exact hothers l (List.mem_append_left _ h1)
      · rcases List.mem_cons.mp h1 with h2 | h2
        · rw [h2]
          exact hlen
        · exact hothers l (List.mem_append_right _ h2)
    have hcount : (before ++ tokens :: after).length = 9 := by
      simp only [List.length_append, List.length_cons]
      omega
    have hload := loadLines_tokens false path (before ++ tokens :: after) 0 tl grid
      (by omega) hall
    rw [hcount] at hload
    refine ⟨placeRows false grid 0 (before ++ tokens :: after), loadColours { rest := tl }, ?_, ?_⟩
    · simp only [loadFileData, hpath, IStream.ofText, hload, Bool.false_eq_true, if_false]
    · intro k hk h
      rw [placeRows_apply false _ 0 grid _ hall]
      simp only
      rw [cellOf_middle false before after tokens k hk (by omega)]
      rfl

/-- A witness for C2: the line `(5)3 ` decoded as row 2 of a save file. -/
theorem loadFileData_line_decoding_witness :
    (∃ grid2 : grid_t,
      loadLine (containsText "Saves/1.txt" "Solutions") "Saves/1.txt" 2
        (renderLine [.fixed 5, .plain 3, .blank]) 0 65 emptyGrid = .ok grid2 ∧
      (∀ rest, loadLine (containsText "Saves/1.txt" "Solutions") "Saves/1.txt" 2
          (renderLine [.fixed 5, .plain 3, .blank] ++ rest) 0 65 emptyGrid =
        loadLine (containsText "Saves/1.txt" "Solutions") "Saves/1.txt" 2 rest 0
          (65 + (([.fixed 5, .plain 3, .blank] : List Token).length : Int)) grid2) ∧
      (∀ (k : Nat) (hk : k < ([.fixed 5, .plain 3, .blank] : List Token).length)
          (h : 2 * 9 + k < nBoxes),
        grid2 ⟨2 * 9 + k, h⟩ = (([.fixed 5, .plain 3, .blank] : List Token).get ⟨k, hk⟩).box false) ∧
      (∀ i : Fin nBoxes,
        i.val < 2 * 9 ∨ 2 * 9 + ([.fixed 5, .plain 3, .blank] : List Token).length ≤ i.val →
          grid2 i = emptyGrid i)) ∧
    (∀ d, (Token.fixed d).render.length = 3 ∧ (Token.plain d).render.length = 1) ∧
    Token.blank.render.length = 1 ∧
    ∃ (grid3 : grid_t) (colours3 : Colours),
      loadFileData "Saves/1.txt"
          (renderFile ([[.plain 1], []] ++ [.fixed 5, .plain 3, .blank] ::
            List.replicate 6 [.blank, .plain 9]) ++ "2 5 3 1".toList) emptyGrid {} =
        .ok (grid3, colours3) ∧
      ∀ (k : Nat) (hk : k < ([.fixed 5, .plain 3, .blank] : List Token).length)
          (h : 2 * 9 + k < nBoxes),
        grid3 ⟨2 * 9 + k, h⟩ =
          (([.fixed 5, .plain 3, .blank] : List Token).get ⟨k, hk⟩).box false :=
  loadFileData_line_decoding "Saves/1.txt" (by decide) 2 (by decide)
    [.fixed 5, .plain 3, .blank] (by decide) emptyGrid [[.plain 1], []]
    (List.replicate 6 [.blank, .plain 9]) (by decide) (by decide) (by decide)
    "2 5 3 1".toList {}

/-! ## Reading back a number written in decimal -/

theorem natDigitChar_facts : ∀ m : Fin 10,
    isdigit (Nat.digitChar m.val) = true ∧ (Nat.digitChar m.val).toNat - 48 = m.val := by
  decide

theorem isdigit_not_other (c : Char) (h : isdigit c = true) :
    isspace c = false ∧ c ≠ '-' ∧ c ≠ '+' := by
  refine ⟨?_, ?_, ?_⟩
  · cases hs : isspace c with
    | false => rfl
    | true =>
      exfalso
      simp only [isspace, Bool.or_eq_true, decide_eq_true_eq] at hs
      rcases hs with ((((h1 | h1) | h1) | h1) | h1) | h1 <;> subst h1 <;> revert h <;> decide
  · intro h1
    subst h1
    revert h
    decide
  · intro h1
    subst h1
    revert h
    decide

theorem toDigitsCore_digits (fuel : Nat) :
    ∀ (n : Nat) (acc : List Char), n < fuel → (∀ c ∈ acc, isdigit c = true) →
      (∀ c ∈ Nat.toDigitsCore 10 fuel n acc, isdigit c = true) ∧
      Nat.toDigitsCore 10 fuel n acc ≠ [] ∧
      (Nat.toDigitsCore 10 fuel n acc).foldl (fun a c => a * 10 + (c.toNat - 48)) 0 =
        acc.foldl (fun a c => a * 10 + (c.toNat - 48)) n := by
  induction fuel with
  | zero =>
    intro n acc hn
    omega
  | succ fuel ih =>
    intro n acc hn hacc
    have hd := natDigitChar_facts ⟨n % 10, Nat.mod_lt n (by decide)⟩
    simp only at hd
    have hacc2 : ∀ c ∈ Nat.digitChar (n % 10) :: acc, isdigit c = true := by
      intro c hc
      rcases List.mem_cons.mp hc with h | h
      · rw [h]; exact hd.1
      · exact hacc c h
    rw [Nat.toDigitsCore]
    by_cases h0 : n / 10 = 0
    · simp only [h0, if_true]
      refine ⟨hacc2, List.cons_ne_nil _ _, ?_⟩
      rw [List.foldl_cons, hd.2]
      have e : 0 * 10 + n % 10 = n := by omega
      rw [e]
    · simp only [h0, if_false]
      obtain ⟨h1, h2, h3⟩ := ih (n / 10) (Nat.digitChar (n % 10) :: acc) (by omega) hacc2
      refine ⟨h1, h2, ?_⟩
      rw [h3, List.foldl_cons, hd.2]
      have e : n / 10 * 10 + n % 10 = n := by omega
      rw [e]

theorem putSize_digits (n : Nat) :
    (∀ c ∈ putSize n, isdigit c = true) ∧ putSize n ≠ [] ∧ digitsValue (putSize n) = n := by
  have h := toDigitsCore_digits (n + 1) n [] (by omega) (by simp)
  simpa [putSize, Nat.repr, Nat.toDigits, digitsValue, List.asString] using h

theorem readSize_number (ws : List Char) (n : Nat) (tl : List Char) (old : Nat)
    (hws : ∀ c ∈ ws, isspace c = true) (hn : n < sizeMod)
    (htl : ∀ c, tl.head? = some c → isdigit c = false) :
    IStream.readSize { rest := ws ++ (putSize n ++ tl) } old =
      (n, { rest := tl, eofbit := tl.isEmpty, failbit := false }) := by
  obtain ⟨hdig, hne, hval⟩ := putSize_digits n
  obtain ⟨d, ds, hds⟩ := List.exists_cons_of_ne_nil hne
  have hd : isdigit d = true := hdig d (by rw [hds]; exact List.mem_cons_self d ds)
  obtain ⟨hd1, hd2, hd3⟩ := isdigit_not_other d hd
  have htake : (putSize n ++ tl).takeWhile isdigit = putSize n := by
    rw [List.takeWhile_append_of_pos hdig]
    cases tl with
    | nil => simp
    | cons c cs =>
      have := htl c rfl
      simp [List.takeWhile_cons, this]
  have hdrop : (putSize n ++ tl).dropWhile isdigit = tl := by
    rw [List.dropWhile_append_of_pos hdig]
    cases tl with
    | nil => simp
    | cons c cs =>
      have := htl c rfl
      simp [List.dropWhile_cons, this]
  have hskip : (ws ++ (putSize n ++ tl)).dropWhile isspace = d :: (ds ++ tl) := by
    rw [List.dropWhile_append_of_pos hws, hds, List.cons_append, List.dropWhile_cons, hd1]
    simp
  have hbody : d :: (ds ++ tl) = putSize n ++ tl := by rw [hds]; rfl
  have hne2 : (putSize n).isEmpty = false := by
    rw [hds]; rfl
  simp only [IStream.readSize, IStream.good, hskip, hd2, hd3, or_self, if_false, if_true,
    decide_False, Bool.not_false, Bool.and_self, Bool.false_eq_true]
  simp only [hbody, htake, hdrop, hne2, hval, hn, if_true, if_false, Bool.false_eq_true]

/-! ## The colour segment -/

theorem isspace_not_digit (c : Char) (h : isspace c = true) : isdigit c = false := by
  cases hd : isdigit c with
  | false => rfl
  | true =>
    rw [(isdigit_not_other c hd).1] at h
    exact absurd h (by decide)

theorem head_space_not_digit (w tl : List Char) (hw : ∀ c ∈ w, isspace c = true)
    (hne : w ≠ []) : ∀ c, (w ++ tl).head? = some c → isdigit c = false := by
  intro c hc
  obtain ⟨a, as, rfl⟩ := List.exists_cons_of_ne_nil hne
  simp only [List.cons_append, List.head?_cons, Option.some.injEq] at hc
  subst hc
  exact isspace_not_digit a (hw a (List.mem_cons_self a as))

theorem isEmpty_space_append (w tl : List Char) (hne : w ≠ []) : (w ++ tl).isEmpty = false := by
  obtain ⟨a, as, rfl⟩ := List.exists_cons_of_ne_nil hne
  rfl

theorem loadColours_segment (w0 w1 w2 w3 tl : List Char) (a b c d : Nat)
    (h0 : ∀ x ∈ w0, isspace x = true) (h1 : ∀ x ∈ w1, isspace x = true)
    (h2 : ∀ x ∈ w2, isspace x = true) (h3 : ∀ x ∈ w3, isspace x = true)
    (n1 : w1 ≠ []) (n2 : w2 ≠ []) (n3 : w3 ≠ [])
    (ha : a < sizeMod) (hb : b < sizeMod) (hc : c < sizeMod) (hd : d < sizeMod)
    (htl : ∀ x, tl.head? = some x → isdigit x = false) :
    loadColours { rest := w0 ++ (putSize a ++ (w1 ++ (putSize b ++ (w2 ++ (putSize c ++
        (w3 ++ (putSize d ++ tl))))))) } =
      { boxEdges := Colour.ofSize a, commands := Colour.ofSize b,
        constantBoxes := Colour.ofSize c, editableBoxes := Colour.ofSize d } := by
  have r0 := readSize_number w0 a (w1 ++ (putSize b ++ (w2 ++ (putSize c ++
    (w3 ++ (putSize d ++ tl)))))) 0 h0 ha (head_space_not_digit w1 _ h1 n1)
  have r1 := readSize_number w1 b (w2 ++ (putSize c ++ (w3 ++ (putSize d ++ tl)))) 0 h1 hb
    (head_space_not_digit w2 _ h2 n2)
  have r2 := readSize_number w2 c (w3 ++ (putSize d ++ tl)) 0 h2 hc
    (head_space_not_digit w3 _ h3 n3)
  have r3 := readSize_number w3 d tl 0 h3 hd htl
  rw [isEmpty_space_append w1 _ n1] at r0
  rw [isEmpty_space_append w2 _ n2] at r1
  rw [isEmpty_space_append w3 _ n3] at r2
  simp only [loadColours, r0, r1, r2, r3]

theorem Colour.ofSize_toSize (c : Colour) : Colour.ofSize c.toSize = c := by
  have h1 := c.lower
  have h2 := c.upper
  apply Colour.ext
  simp only [Colour.ofSize, Colour.toSize, toSizeT]
  omega

theorem Colour.toSize_lt (c : Colour) : c.toSize < sizeMod := by
  simp only [Colour.toSize, toSizeT, sizeMod]
  omega

theorem loadColours_saveColours (colours : Colours) :
    loadColours { rest := saveColours colours } = colours := by
  have hs : ∀ x ∈ [' '], isspace x = true := by decide
  have h := loadColours_segment [] [' '] [' '] [' '] [] colours.boxEdges.toSize
    colours.commands.toSize colours.constantBoxes.toSize colours.editableBoxes.toSize
    (by simp) hs hs hs (by simp) (by simp) (by simp) (Colour.toSize_lt _) (Colour.toSize_lt _)
    (Colour.toSize_lt _) (Colour.toSize_lt _) (by simp)
  simp only [List.nil_append, List.singleton_append, List.append_nil] at h
  rw [saveColours, h]
  simp only [Colour.ofSize_toSize]

/-- C9. Colours on load.  Showing the solution (`case 8` of `main`, which
calls `loadSolution`) either throws or leaves the colours of the session as
they were, whatever the grid, the level and the content of the solution file.
Loading with `loadFileData` a file that is not a solution file and consists of
nine lines of cell tokens followed by four integers separated by white space
replaces the four colours by these integers, the first being the box-edge
colour, the second the command colour, the third the fixed-cell colour and the
fourth the editable-cell colour. -/
theorem colours_on_load (s : Session) (currentPath : String) (solution : List Char)
    (levelID : Nat) (path : String) (hpath : containsText path "Solutions" = false)
    (lines : List (List Token)) (hlines : lines.length = 9) (hl : ∀ l ∈ lines, l.length ≤ 9)
    (w0 w1 w2 w3 tl : List Char) (a b c d : Nat)
    (h0 : ∀ x ∈ w0, isspace x = true) (h1 : ∀ x ∈ w1, isspace x = true)
    (h2 : ∀ x ∈ w2, isspace x = true) (h3 : ∀ x ∈ w3, isspace x = true)
    (n1 : w1 ≠ []) (n2 : w2 ≠ []) (n3 : w3 ≠ [])
    (ha : a < sizeMod) (hb : b < sizeMod) (hc : c < sizeMod) (hd : d < sizeMod)
    (htl : ∀ x, tl.head? = some x → isdigit x = false) (grid : grid_t) (colours : Colours) :
    ((∃ e, s.showSolution currentPath solution levelID = .error e) ∨
      (∃ g, s.showSolution currentPath solution levelID = .ok { grid := g, colours := s.colours }))
    ∧ ∃ grid2, loadFileData path
        (renderFile lines ++ (w0 ++ (putSize a ++ (w1 ++ (putSize b ++ (w2 ++ (putSize c ++
          (w3 ++ (putSize d ++ tl)))))))))
        grid colours =
      .ok (grid2,
        { boxEdges := Colour.ofSize a, commands := Colour.ofSize b,
          constantBoxes := Colour.ofSize c, editableBoxes := Colour.ofSize d }) := by
  constructor
  · unfold Session.showSolution
    cases h : loadSolution currentPath solution s.grid levelID with
    | error e => exact Or.inl ⟨e, rfl⟩
    | ok g => exact Or.inr ⟨g, rfl⟩
  · have hload := loadLines_tokens false path lines 0 (w0 ++ (putSize a ++ (w1 ++ (putSize b ++
      (w2 ++ (putSize c ++ (w3 ++ (putSize d ++ tl)))))))) grid (by omega) hl
    rw [hlines] at hload
    refine ⟨placeRows false grid 0 lines, ?_⟩
    simp only [loadFileData, hpath, IStream.ofText, hload, Bool.false_eq_true, if_false]
    rw [loadColours_segment w0 w1 w2 w3 tl a b c d h0 h1 h2 h3 n1 n2 n3 ha hb hc hd htl]

/-- A witness for C9: a solution shown in a session with the default colours,
and a save file whose nine lines are `(5)3 ` and whose colour segment is
`2 5 3 1`. -/
theorem colours_on_load_witness :
    ((∃ e, Session.showSolution { grid := emptyGrid, colours := {} } "C:\\Sudoku"
        "123456789\n".toList 1 = .error e) ∨
      (∃ g, Session.showSolution { grid := emptyGrid, colours := {} } "C:\\Sudoku"
        "123456789\n".toList 1 = .ok { grid := g, colours := {} }))
    ∧ ∃ grid2, loadFileData "C:/Sudoku/Saves/1.txt"
        (renderFile (List.replicate 9 [.fixed 5, .plain 3, .blank]) ++ ([] ++ (putSize 2 ++
          ([' '] ++ (putSize 5 ++ ([' '] ++ (putSize 3 ++ ([' '] ++ (putSize 1 ++ [])))))))))
        emptyGrid {} =
      .ok (grid2,
        { boxEdges := Colour.ofSize 2, commands := Colour.ofSize 5,
          constantBoxes := Colour.ofSize 3, editableBoxes := Colour.ofSize 1 }) :=
  colours_on_load { grid := emptyGrid, colours := {} } "C:\\Sudoku" "123456789\n".toList 1
    "C:/Sudoku/Saves/1.txt" (by decide) (List.replicate 9 [.fixed 5, .plain 3, .blank])
    (by decide) (by decide) [] [' '] [' '] [' '] [] 2 5 3 1 (by decide) (by decide) (by decide)
    (by decide) (by decide) (by decide) (by decide) (by decide) (by decide) (by decide)
    (by decide) (by decide) emptyGrid {}

/-! ## Encoding a grid of digits -/

theorem digit_texts : ∀ v : Fin 10,
    putSize v.val = [digitChar v] ∧
      byteChar (toChar (((48 + v.val) % sizeMod : Nat) : Int)) = digitChar v ∧
      specDigit v.val = digitChar v ∧ (Fin.ofNat v.val : Fin 10) = v := by
  decide

theorem digit_texts_nat (v : Nat) (hv : v ≤ 9) :
    putSize v = [digitChar (Fin.ofNat v)] ∧
      byteChar (toChar (((48 + v) % sizeMod : Nat) : Int)) = digitChar (Fin.ofNat v) ∧
      specDigit v = digitChar (Fin.ofNat v) ∧ ((Fin.ofNat v : Fin 10).val = v) := by
  obtain ⟨h1, h2, h3, h4⟩ := digit_texts ⟨v, by omega⟩
  simp only at h1 h2 h3 h4
  rw [h4]
  exact ⟨h1, h2, h3, rfl⟩

theorem saveBox_token (b : Box) (h : b.wellFormed) : saveBox b = .ok b.token.render := by
  obtain ⟨hc, hv⟩ := h
  rcases b with ⟨const, value⟩
  cases value with
  | none =>
    cases const with
    | true => simp at hc
    | false => rfl
  | some v =>
    obtain ⟨h1, h2, -, -⟩ := digit_texts_nat v (hv v rfl)
    cases const with
    | true => simp [saveBox, Box.token, Token.render, h1]
    | false =>
      simp only [saveBox, Box.token, Token.render, Box.get, h2, Bool.false_eq_true, if_false]

theorem specCell_token (b : Box) (h : b.wellFormed) : specCell b = b.token.render := by
  obtain ⟨hc, hv⟩ := h
  rcases b with ⟨const, value⟩
  cases value with
  | none =>
    cases const with
    | true => simp at hc
    | false => rfl
  | some v =>
    obtain ⟨-, -, h3, -⟩ := digit_texts_nat v (hv v rfl)
    cases const with
    | true => simp [specCell, Box.token, Token.render, h3]
    | false => simp [specCell, Box.token, Token.render, h3]

theorem box_token (b : Box) (h : b.wellFormed) : b.token.box false = b := by
  obtain ⟨hc, hv⟩ := h
  rcases b with ⟨const, value⟩
  cases value with
  | none =>
    cases const with
    | true => simp at hc
    | false => rfl
  | some v =>
    obtain ⟨-, -, -, h4⟩ := digit_texts_nat v (hv v rfl)
    cases const with
    | true => simp [Box.token, Token.box, h4]
    | false => simp [Box.token, Token.box, h4]

theorem boxAt_wellFormed (grid : grid_t) (h : ∀ i, (grid i).wellFormed) (n : Nat) :
    (boxAt grid n).wellFormed := by
  unfold boxAt
  by_cases hn : n < nBoxes
  · simp only [hn, dite_true]
    exact h _
  · simp only [hn, dite_false]
    exact ⟨by decide, by intro v hv; cases hv⟩

theorem saveColumns_tokens (grid : grid_t) (h : ∀ i, (grid i).wellFormed) (r : Nat)
    (hr : r < 9) :
    ∀ (n k : Nat), k + n ≤ 9 →
      saveColumns grid r n (65 + (k : Int)) = .ok (renderLine (rowTokens grid r k n)) := by
  intro n
  induction n with
  | zero =>
    intro k _
    rfl
  | succ n ih =>
    intro k hk
    have hn := nBoxes_eq
    have hidx : toArrayIndex (65 + (k : Int)) r = r * 9 + k :=
      toArrayIndex_column r k hr (by omega)
    have hlt : r * 9 + k < nBoxes := by omega
    have hread : readBox grid (r * 9 + k) = .ok (boxAt grid (r * 9 + k)) := by
      simp only [readBox, boxAt, hlt, dite_true]
    rw [saveColumns, hidx, hread]
    simp only [saveBox_token _ (boxAt_wellFormed grid h _), toChar_next_column k (by omega),
      ih (k + 1) (by omega)]
    simp [rowTokens, renderLine, List.range'_succ]

theorem saveLines_tokens (grid : grid_t) (h : ∀ i, (grid i).wellFormed) :
    ∀ (n r : Nat), r + n ≤ 9 →
      saveLines grid n r = .ok (renderFile (gridLines grid r n)) := by
  intro n
  induction n with
  | zero =>
    intro r _
    rfl
  | succ n ih =>
    intro r hr
    have hcols := saveColumns_tokens grid h r (by omega) 9 0 (by omega)
    simp only [Nat.cast_zero, add_zero] at hcols
    rw [saveLines, hcols]
    simp only [ih (r + 1) (by omega)]
    simp [gridLines, renderFile, List.range'_succ]

theorem saveText_tokens (grid : grid_t) (colours : Colours) (h : ∀ i, (grid i).wellFormed) :
    saveText grid colours = .ok (renderFile (gridLines grid 0 9) ++ saveColours colours) := by
  simp only [saveText, saveLines_tokens grid h 9 0 (by omega)]

theorem placeRows_gridLines (grid grid0 : grid_t) (h : ∀ i, (grid i).wellFormed) :
    placeRows false grid0 0 (gridLines grid 0 9) = grid := by
  funext i
  have hi := i.isLt
  have hn := nBoxes_eq
  have hl : ∀ l ∈ gridLines grid 0 9, l.length ≤ 9 := by
    intro l hl
    simp only [gridLines, List.mem_map] at hl
    obtain ⟨j, -, rfl⟩ := hl
    simp [rowTokens]
  rw [placeRows_apply false _ 0 grid0 i hl]
  have h1 : i.val / 9 < 9 := by omega
  have h2 : i.val % 9 < 9 := Nat.mod_lt _ (by decide)
  have h3 : i.val / 9 * 9 + i.val % 9 = i.val := by omega
  have h4 : boxAt grid i.val = grid i := by
    simp only [boxAt, hi, dite_true]
  simp [cellOf, gridLines, rowTokens, List.getElem?_range', h1, h2, h3, h4,
    box_token _ (h i)]

/-- C1. Round trip: for every grid in which every constant box holds a value
and every value is a single digit, and for every four colours, there is a
text that every call of `saveState` that returns writes, and decoding this
text with `loadFileData` as a save file (a path that does not contain
`Solutions`), into any grid and colours, gives back the grid, box for box,
and the four colours. -/
theorem save_load_round_trip (grid : grid_t) (colours : Colours)
    (hfixed : ∀ i, (grid i).isConstant = true → (grid i).value.isSome = true)
    (hdigit : ∀ i v, (grid i).value = some v → v ≤ 9)
    (path : String) (hpath : containsText path "Solutions" = false)
    (grid0 : grid_t) (colours0 : Colours) :
    ∃ text, saveText grid colours = .ok text ∧
      (∀ currentPath console,
        (∃ e, saveState currentPath grid colours console = .error e) ∨
        ∃ file console2, saveState currentPath grid colours console = .ok (file, text, console2)) ∧
      loadFileData path text grid0 colours0 = .ok (grid, colours) := by
  have h : ∀ i, (grid i).wellFormed := fun i => ⟨hfixed i, hdigit i⟩
  refine ⟨_, saveText_tokens grid colours h, ?_, ?_⟩
  · intro currentPath console
    unfold saveState
    cases hin : securedInputSize 1 3 console.cin with
    | error e => exact Or.inl ⟨e, rfl⟩
    | ok r =>
      obtain ⟨saveLocation, cin1⟩ := r
      simp only [saveText_tokens grid colours h]
      exact Or.inr ⟨_, _, rfl⟩
  have hl : ∀ l ∈ gridLines grid 0 9, l.length ≤ 9 := by
    intro l hl
    simp only [gridLines, List.mem_map] at hl
    obtain ⟨j, -, rfl⟩ := hl
    simp [rowTokens]
  have hlen : (gridLines grid 0 9).length = 9 := by simp [gridLines]
  have hload := loadLines_tokens false path (gridLines grid 0 9) 0 (saveColours colours) grid0
    (by omega) hl
  rw [hlen] at hload
  simp only [loadFileData, hpath, IStream.ofText, hload, Bool.false_eq_true, if_false,
    placeRows_gridLines grid grid0 h, loadColours_saveColours]

theorem exampleGrid_digits (i : Fin nBoxes) (v : Nat) (h : (exampleGrid i).value = some v) :
    v ≤ 9 := by
  have key : ∀ j : Fin nBoxes, ((exampleGrid j).value.getD 0) ≤ 9 := by decide
  have := key i
  rw [h] at this
  exact this

/-- A witness for C1: the example grid and colours, loaded over an empty grid
and the default colours. -/
theorem save_load_round_trip_witness :
    ∃ text, saveText exampleGrid exampleColours = .ok text ∧
      (∀ currentPath console,
        (∃ e, saveState currentPath exampleGrid exampleColours console = .error e) ∨
        ∃ file console2,
          saveState currentPath exampleGrid exampleColours console = .ok (file, text, console2)) ∧
      loadFileData "C:/Sudoku/Saves/2.txt" text emptyGrid {} =
        .ok (exampleGrid, exampleColours) :=
  save_load_round_trip exampleGrid exampleColours (by decide) exampleGrid_digits
    "C:/Sudoku/Saves/2.txt" (by decide) emptyGrid {}

/-! ## The format of a save file -/

/-- C3, as stated, fails: the first box of `tenGrid` is constant and holds a
value, 10, and `saveState` writes it as the four characters `(10)`, so the
text is not nine lines of `'(' digit ')'`, digit and space cells. -/
theorem saveState_format_counterexample :
    (∀ i, (tenGrid i).isConstant = true → (tenGrid i).value.isSome = true) ∧
      saveText tenGrid {} ≠ .ok (specSaveText tenGrid {}) ∧
      (saveText tenGrid {}).map (List.take 5) = .ok ['(', '1', '0', ')', ' '] := by
  decide

theorem renderFile_gridLines (grid : grid_t) (h : ∀ i, (grid i).wellFormed) :
    renderFile (gridLines grid 0 9) =
      (List.range 9).flatMap
        (fun r => (List.range 9).flatMap (fun k => specCell (boxAt grid (r * 9 + k))) ++ ['\n']) := by
  have e : ∀ n, specCell (boxAt grid n) = (boxAt grid n).token.render :=
    fun n => specCell_token _ (boxAt_wellFormed grid h n)
  simp only [renderFile, gridLines, rowTokens, renderLine, e, List.range_eq_range',
    List.flatMap_map]

theorem saveColours_spec (colours : Colours) :
    saveColours colours =
      (toString colours.boxEdges.toSize ++ " " ++ toString colours.commands.toSize ++ " "
        ++ toString colours.constantBoxes.toSize ++ " "
        ++ toString colours.editableBoxes.toSize).toList := by
  simp [saveColours, putSize, toString]

/-- C3, amended. Encoding format of `saveState`: for every grid in which
every constant box holds a value and every value is a single digit, and for
every four colours, the text written is exactly nine lines, each ended by a
newline and each the texts of the boxes of the columns A to I in order
(`'(' digit ')'` for a constant box, the digit for an editable box holding
one, a space for an empty editable box), followed by the indices of the
box-edge, command, constant-box and editable-box colours in decimal, in that
order, with one space between them. -/
theorem saveState_format (grid : grid_t) (colours : Colours)
    (hfixed : ∀ i, (grid i).isConstant = true → (grid i).value.isSome = true)
    (hdigit : ∀ i v, (grid i).value = some v → v ≤ 9) :
    saveText grid colours = .ok (specSaveText grid colours) := by
  have h : ∀ i, (grid i).wellFormed := fun i => ⟨hfixed i, hdigit i⟩
  rw [saveText_tokens grid colours h, renderFile_gridLines grid h, saveColours_spec]
  rfl

/-- A witness for C3: the example grid with edges 2, commands 5, fixed 3 and
editable 1, whose text ends with `2 5 3 1`. -/
theorem saveState_format_witness :
    saveText exampleGrid exampleColours = .ok (specSaveText exampleGrid exampleColours) ∧
      specSaveText exampleGrid exampleColours =
        ("(5)3   (8)   \n         \n         \n         \n         \n         \n"
          ++ "         \n         \n         \n2 5 3 1").toList :=
  ⟨saveState_format exampleGrid exampleColours (by decide) exampleGrid_digits, by decide⟩

/-! ## What the scan of a file stores -/

theorem set_written (sol : Bool) (grid grid2 : grid_t) (j : Fin nBoxes) (b : Box)
    (hb : writtenBox sol b)
    (h : ∀ i, grid2 i = (grid.set j b) i ∨ writtenBox sol (grid2 i)) :
    ∀ i, grid2 i = grid i ∨ writtenBox sol (grid2 i) := by
  intro i
  rcases h i with h1 | h1
  · by_cases hij : i = j
    · right
      rw [h1, grid_t.set, if_pos hij]
      exact hb
    · left
      rw [h1, grid_t.set, if_neg hij]
  · exact Or.inr h1

theorem loadLine_written (sol : Bool) (path : String) (r : Nat) :
    ∀ (line : List Char) (skip : Nat) (column : Int) (grid grid2 : grid_t),
      loadLine sol path r line skip column grid = .ok grid2 →
      ∀ i, grid2 i = grid i ∨ writtenBox sol (grid2 i) := by
  intro line
  induction line with
  | nil =>
    intro skip column grid grid2 h i
    rw [loadLine] at h
    cases h
    exact Or.inl rfl
  | cons c rest ih =>
    intro skip column grid grid2 h
    cases skip with
    | succ skip =>
      rw [loadLine] at h
      exact ih skip column grid grid2 h
    | zero =>
      rw [loadLine] at h
      split at h
      · split at h
        · exact set_written sol grid grid2 _ _ (Or.inl rfl) (ih _ _ _ _ h)
        · split at h
          · exact set_written sol grid grid2 _ _ (Or.inr ⟨_, Or.inl rfl⟩) (ih _ _ _ _ h)
          · split at h
            · exact set_written sol grid grid2 _ _ (Or.inr ⟨_, Or.inr rfl⟩) (ih _ _ _ _ h)
            · cases h
      · cases h

theorem loadLines_written (sol : Bool) (path : String) :
    ∀ (count r : Nat) (file file2 : IStream) (grid grid2 : grid_t),
      loadLines sol path count r file grid = .ok (file2, grid2) →
      ∀ i, grid2 i = grid i ∨ writtenBox sol (grid2 i) := by
  intro count
  induction count with
  | zero =>
    intro r file file2 grid grid2 h i
    rw [loadLines] at h
    cases h
    exact Or.inl rfl
  | succ count ih =>
    intro r file file2 grid grid2 h i
    rw [loadLines] at h
    split at h
    · cases h
    · rename_i g hg
      rcases ih _ _ _ _ _ h i with h1 | h1
      · rw [h1]
        exact loadLine_written sol path r _ _ _ _ _ hg i
      · exact Or.inr h1

theorem loadFileData_written (path : String) (content : List Char) (grid grid2 : grid_t)
    (colours colours2 : Colours)
    (h : loadFileData path content grid colours = .ok (grid2, colours2)) :
    ∀ i, grid2 i = grid i ∨ writtenBox (containsText path "Solutions") (grid2 i) := by
  unfold loadFileData at h
  split at h
  · cases h
  · rename_i file g hg
    split at h
    · cases h
      exact loadLines_written _ path _ _ _ _ _ _ hg
    · cases h
      exact loadLines_written _ path _ _ _ _ _ _ hg

theorem loadLines_tokens_then (sol : Bool) (path : String) (m : Nat) :
    ∀ (lines : List (List Token)) (r : Nat) (tl : List Char) (grid : grid_t),
      r + lines.length ≤ 9 → (∀ l ∈ lines, l.length ≤ 9) →
      loadLines sol path (lines.length + m) r { rest := renderFile lines ++ tl } grid =
        loadLines sol path m (r + lines.length) { rest := tl } (placeRows sol grid r lines) := by
  intro lines
  induction lines with
  | nil =>
    intro r tl grid _ _
    simp [renderFile, placeRows]
  | cons l ls ih =>
    intro r tl grid hr hl
    simp only [List.length_cons] at hr
    have hn := nBoxes_eq
    have hlen : l.length ≤ 9 := hl l (List.mem_cons_self l ls)
    have e1 : renderFile (l :: ls) ++ tl = renderLine l ++ '\n' :: (renderFile ls ++ tl) := by
      simp [renderFile]
    have e2 : (l :: ls).length + m = (ls.length + m) + 1 := by
      simp only [List.length_cons]
      omega
    have e3 : r + (l :: ls).length = r + 1 + ls.length := by
      simp only [List.length_cons]
      omega
    have hline := loadLine_tokens sol path r (by omega) l 0 [] grid (by omega) (by omega)
    simp only [List.append_nil, Nat.zero_add, Nat.cast_zero, add_zero] at hline
    rw [e2, loadLines, e1, getline_of_line _ _ _ (renderLine_no_newline l)]
    simp only [hline, loadLine]
    rw [ih (r + 1) tl _ (by omega) (fun x hx => hl x (List.mem_cons_of_mem l hx)), e3]
    rfl

/-! ## Solution files -/

/-- C7, as stated, fails: the path marks the file as a solution, its first
character is a space, and after `loadFileData` the first box is empty and not
constant. -/
theorem solution_file_counterexample :
    containsText "C:/Sudoku/Solutions/1.txt" "Solutions" = true ∧
      (loadFileData "C:/Sudoku/Solutions/1.txt" holedSolution emptyGrid {}).map
        (fun result => result.1 ⟨0, by decide⟩) = .ok { isConstant := false, value := none } := by
  decide

theorem solution_token_box (t : Token) (h : t ≠ .blank) :
    (t.box true).isConstant = true ∧ (t.box true).value.isSome = true := by
  cases t with
  | blank => exact absurd rfl h
  | plain d => exact ⟨rfl, rfl⟩
  | fixed d => exact ⟨rfl, rfl⟩

theorem cellOf_full (sol : Bool) (lines : List (List Token)) (hlines : lines.length = 9)
    (hl : ∀ l ∈ lines, l.length = 9) (i : Fin nBoxes) :
    ∃ l ∈ lines, ∃ t ∈ l, cellOf sol lines 0 i.val = some (t.box sol) := by
  have hi := i.isLt
  have hn := nBoxes_eq
  have h1 : i.val / 9 < lines.length := by omega
  have h2 : (lines.get ⟨i.val / 9, h1⟩).length = 9 := hl _ (List.get_mem _ _ _)
  have h3 : i.val % 9 < (lines.get ⟨i.val / 9, h1⟩).length := by
    rw [h2]
    exact Nat.mod_lt _ (by decide)
  refine ⟨lines.get ⟨i.val / 9, h1⟩, List.get_mem _ _ _,
    (lines.get ⟨i.val / 9, h1⟩).get ⟨i.val % 9, h3⟩, List.get_mem _ _ _, ?_⟩
  simp only [cellOf, Nat.zero_le, if_true, Nat.sub_zero, List.get?_eq_get h1, Option.some_bind,
    List.get?_eq_get h3, Option.map_some']

theorem loadFileData_solution_colours (path : String)
    (hpath : containsText path "Solutions" = true) (content : List Char) (grid grid2 : grid_t)
    (colours colours2 : Colours)
    (h : loadFileData path content grid colours = .ok (grid2, colours2)) :
    colours2 = colours := by
  unfold loadFileData at h
  split at h
  · cases h
  · rw [hpath] at h
    simp only [if_true, Except.ok.injEq, Prod.mk.injEq] at h
    exact h.2.symm

/-- C7, amended. Decoding a solution file (a path that contains `Solutions`)
leaves the colours alone, and in a file of nine lines of at most nine cell
tokens each (`cells`) the token of column `k` of line `r` decides the box
`r * 9 + k`: a space gives an empty editable box, a digit `d`, plain or
parenthesised, a constant box holding `d`, and a box the line has no token
for stays as it was.  So when each of the nine lines consists of nine digit
tokens (`lines`), each of the 81 boxes has a value and is constant after
`loadFileData`.  Whatever the text of the file (`content`), a load that
returns leaves the colours alone and every box is as it was, or empty and
editable, or constant with a value. -/
theorem solution_file_decoding (path : String) (hpath : containsText path "Solutions" = true)
    (lines : List (List Token)) (hlines : lines.length = 9)
    (hl : ∀ l ∈ lines, l.length = 9 ∧ ∀ t ∈ l, t ≠ Token.blank)
    (cells : List (List Token)) (hcells : cells.length = 9)
    (hc : ∀ l ∈ cells, l.length ≤ 9) (tl content : List Char)
    (grid : grid_t) (colours : Colours) :
    (∃ grid2, loadFileData path (renderFile lines ++ tl) grid colours = .ok (grid2, colours) ∧
        ∀ i, (grid2 i).isConstant = true ∧ (grid2 i).value.isSome = true) ∧
      (∃ grid2, loadFileData path (renderFile cells ++ tl) grid colours = .ok (grid2, colours) ∧
        ∀ (r k : Nat) (h : r * 9 + k < nBoxes) (l : List Token), k < 9 →
          cells.get? r = some l →
          (l.get? k = some Token.blank →
            grid2 ⟨r * 9 + k, h⟩ = { isConstant := false, value := none }) ∧
          (∀ d : Fin 10, l.get? k = some (Token.plain d) ∨ l.get? k = some (Token.fixed d) →
            grid2 ⟨r * 9 + k, h⟩ = { isConstant := true, value := some d.val }) ∧
          (l.get? k = none → grid2 ⟨r * 9 + k, h⟩ = grid ⟨r * 9 + k, h⟩)) ∧
      ((∃ e, loadFileData path content grid colours = .error e) ∨
        ∃ grid2, loadFileData path content grid colours = .ok (grid2, colours) ∧
          ∀ i, grid2 i = grid i ∨ grid2 i = { isConstant := false, value := none } ∨
            ((grid2 i).isConstant = true ∧ (grid2 i).value.isSome = true)) := by
  refine ⟨?_, ?_, ?_⟩
  · have hl9 : ∀ l ∈ lines, l.length ≤ 9 := fun l h => le_of_eq (hl l h).1
    have hload := loadLines_tokens true path lines 0 tl grid (by omega) hl9
    rw [hlines] at hload
    refine ⟨placeRows true grid 0 lines, ?_, ?_⟩
    · simp only [loadFileData, hpath, IStream.ofText, hload, if_true]
    · intro i
      obtain ⟨l, hlm, t, htm, hcell⟩ := cellOf_full true lines hlines (fun l h => (hl l h).1) i
      rw [placeRows_apply true lines 0 grid i hl9, hcell]
      exact solution_token_box t ((hl l hlm).2 t htm)
  · have hload := loadLines_tokens true path cells 0 tl grid (by omega) hc
    rw [hcells] at hload
    refine ⟨placeRows true grid 0 cells, ?_, ?_⟩
    · simp only [loadFileData, hpath, IStream.ofText, hload, if_true]
    · intro r k h l hk hrow
      have h1 : (r * 9 + k) / 9 = r := by omega
      have h2 : (r * 9 + k) % 9 = k := by omega
      have hcell : placeRows true grid 0 cells ⟨r * 9 + k, h⟩ =
          ((l.get? k).map (Token.box true)).getD (grid ⟨r * 9 + k, h⟩) := by
        rw [placeRows_apply true cells 0 grid _ hc]
        simp only [cellOf, Nat.zero_le, if_true, Nat.sub_zero, h1, h2, hrow, Option.some_bind]
      refine ⟨?_, ?_, ?_⟩
      · intro hb
        rw [hcell, hb]
        rfl
      · intro d hd
        rcases hd with hd | hd
        · rw [hcell, hd]
          rfl
        · rw [hcell, hd]
          rfl
      · intro hn
        rw [hcell, hn]
        rfl
  · cases h : loadFileData path content grid colours with
    | error e => exact Or.inl ⟨e, rfl⟩
    | ok result =>
      obtain ⟨grid2, colours2⟩ := result
      have hc2 : colours2 = colours := loadFileData_solution_colours path hpath _ _ _ _ _ h
      subst hc2
      refine Or.inr ⟨grid2, rfl, ?_⟩
      intro i
      have hw := loadFileData_written path content grid grid2 _ _ h i
      rw [hpath] at hw
      rcases hw with h1 | h1 | ⟨v, h1 | h1⟩
      · exact Or.inl h1
      · exact Or.inr (Or.inl h1)
      · exact Or.inr (Or.inr (by rw [h1]; exact ⟨rfl, rfl⟩))
      · exact Or.inr (Or.inr (by rw [h1]; exact ⟨rfl, rfl⟩))

/-- A witness for C7: a solution file of nine lines of nine plain digits; the
solution file `mixedSolution`, whose first line is a space, `2` and `(3)`,
read into `exampleGrid`: the space empties the constant box A0 and makes it
editable, the plain `2` and `(3)` give constant boxes, and the box D0, for
which the line has no character, and the box F0 keep their content; and the
text `holedSolution`. -/
theorem solution_file_decoding_witness :
    (∃ grid2, loadFileData "C:/Sudoku/Solutions/1.txt"
        (renderFile (List.replicate 9 (List.replicate 9 (Token.plain 4))) ++ []) exampleGrid {} =
          .ok (grid2, {}) ∧
        ∀ i, (grid2 i).isConstant = true ∧ (grid2 i).value.isSome = true) ∧
      (exampleGrid ⟨0, by decide⟩ = { isConstant := true, value := some 5 } ∧
        ∃ grid2, loadFileData "C:/Sudoku/Solutions/1.txt" (renderFile mixedSolution ++ [])
            exampleGrid {} = .ok (grid2, {}) ∧
          grid2 ⟨0, by decide⟩ = { isConstant := false, value := none } ∧
          grid2 ⟨1, by decide⟩ = { isConstant := true, value := some 2 } ∧
          grid2 ⟨2, by decide⟩ = { isConstant := true, value := some 3 } ∧
          grid2 ⟨3, by decide⟩ = exampleGrid ⟨3, by decide⟩ ∧
          grid2 ⟨5, by decide⟩ = { isConstant := true, value := some 8 }) ∧
      ((∃ e, loadFileData "C:/Sudoku/Solutions/1.txt" holedSolution exampleGrid {} = .error e) ∨
        ∃ grid2, loadFileData "C:/Sudoku/Solutions/1.txt" holedSolution exampleGrid {} =
            .ok (grid2, {}) ∧
          ∀ i, grid2 i = exampleGrid i ∨ grid2 i = { isConstant := false, value := none } ∨
            ((grid2 i).isConstant = true ∧ (grid2 i).value.isSome = true)) := by
  obtain ⟨hfull, ⟨grid2, hload, hcell⟩, hany⟩ :=
    solution_file_decoding "C:/Sudoku/Solutions/1.txt" (by decide)
      (List.replicate 9 (List.replicate 9 (Token.plain 4))) (by decide) (by decide)
      mixedSolution (by decide) (by decide) [] holedSolution exampleGrid {}
  refine ⟨hfull, ⟨rfl, grid2, hload, ?_, ?_, ?_, ?_, ?_⟩, hany⟩
  · exact (hcell 0 0 (by decide) _ (by decide) rfl).1 rfl
  · exact (hcell 0 1 (by decide) _ (by decide) rfl).2.1 2 (Or.inl rfl)
  · exact (hcell 0 2 (by decide) _ (by decide) rfl).2.1 3 (Or.inr rfl)
  · exact (hcell 0 3 (by decide) _ (by decide) rfl).2.2 rfl
  · exact ((hcell 0 5 (by decide) _ (by decide) rfl).2.2 rfl).trans rfl

/-! ## Unexpected characters -/

/-- C8. The check for unexpected characters misses the two characters after
an opening parenthesis.  Row 3 of the save file `unclosedSave` is `(ab`: the
characters `a` and `b` are neither spaces nor digits nor part of a
`'(' digit ')'` group, and `loadFileData` returns without an error, the first
box of row 3 being constant with the value `'a' - '0'` and the colours being
read.  The same two characters without the parenthesis, in `strayLetters`, are
refused with the message that names the file, the row 3 and the character
`a`. -/
theorem parse_error_unchecked_group :
    (loadFileData "C:/Sudoku/Saves/1.txt" unclosedSave emptyGrid {}).map
        (fun result => (result.1 ⟨27, by decide⟩, result.2.boxEdges.code)) =
          .ok ({ isConstant := true, value := some 49 }, 1) ∧
      loadFileData "C:/Sudoku/Saves/1.txt" strayLetters emptyGrid {} =
        .error (.invalid_argument
          "Error while parsing file \"C:/Sudoku/Saves/1.txt\" at line 3 (unexpected character : 'a') !") := by
  decide

theorem getline_fst (s : IStream) (old : List Char) (hg : s.good = true) :
    (s.getline old).1 = s.rest.takeWhile (fun c => c != '\n') := by
  unfold IStream.getline
  rw [if_pos hg, List.span_eq_take_drop]
  split
  · rename_i str x tl h
    exact (Prod.mk.inj h).1.symm
  · rename_i str h
    exact (Prod.mk.inj h).1.symm

theorem loadLine_unexpected (sol : Bool) (path : String) (r k : Nat) (hr : r < 9)
    (hk : k ≤ 62) (hlt : r * 9 + k < nBoxes) (c : Char) (rest : List Char) (grid : grid_t)
    (hspace : c ≠ ' ') (hdigit : isdigit c = false) (hparen : c ≠ '(') :
    loadLine sol path r (c :: rest) 0 (65 + (k : Int)) grid =
      .error (.invalid_argument (parseErrorMessage path r c)) := by
  rw [loadLine]
  simp only [toArrayIndex_column r k hr hk, hlt, dite_true, hspace, hdigit, hparen, if_false,
    Bool.false_eq_true]

/-- The check at a cell position: when the lines before row `r` are lines of
at most nine cell tokens, and on line `r` the character `c` comes after whole
cell tokens only, in a column whose box `r * 9 + k` the grid still has (and
`k` at most 62, the last column the `char` counter reaches), and `c` is not a
space, a digit, an opening parenthesis or a newline, `loadFileData` throws
`std::invalid_argument` with the message made of the file path, the decimal
row index `r` and the character `c`. -/
theorem loadFileData_unexpected (path : String) (before : List (List Token))
    (hb : ∀ l ∈ before, l.length ≤ 9) (hr : before.length < 9) (tokens : List Token)
    (hk : tokens.length ≤ 62) (hidx : before.length * 9 + tokens.length < nBoxes) (c : Char)
    (hspace : c ≠ ' ') (hdigit : isdigit c = false) (hparen : c ≠ '(') (hnl : c ≠ '\n')
    (post : List Char) (grid : grid_t) (colours : Colours) :
    loadFileData path (renderFile before ++ (renderLine tokens ++ c :: post)) grid colours =
      .error (.invalid_argument
        ("Error while parsing file \"" ++ path ++ "\" at line " ++ toString before.length
          ++ " (unexpected character : '" ++ String.singleton c ++ "') !")) := by
  have hn := nBoxes_eq
  obtain ⟨m, hm9⟩ : ∃ m, 9 = before.length + (m + 1) := ⟨8 - before.length, by omega⟩
  have hm : gridSize = before.length + (m + 1) := hm9
  have h1 := loadLines_tokens_then (containsText path "Solutions") path (m + 1) before 0
    (renderLine tokens ++ c :: post) grid (by omega) hb
  have hline : (IStream.getline { rest := renderLine tokens ++ c :: post } []).1 =
      renderLine tokens ++ c :: post.takeWhile (fun x => x != '\n') := by
    rw [getline_fst { rest := renderLine tokens ++ c :: post } [] rfl]
    simp only
    rw [List.takeWhile_append_of_pos (renderLine_no_newline tokens), List.takeWhile_cons]
    simp [hnl]
  have h2 := loadLine_tokens (containsText path "Solutions") path before.length hr tokens 0
    (c :: post.takeWhile (fun x => x != '\n')) (placeRows (containsText path "Solutions") grid 0 before)
    (by omega) (by omega)
  simp only [Nat.zero_add, Nat.cast_zero, add_zero] at h2
  have h3 := loadLine_unexpected (containsText path "Solutions") path before.length
    tokens.length hr hk hidx c (post.takeWhile (fun x => x != '\n'))
    (placeBoxes (placeRows (containsText path "Solutions") grid 0 before) (before.length * 9)
      (tokens.map (Token.box (containsText path "Solutions")))) hspace hdigit hparen
  simp only [Nat.zero_add] at h1
  unfold loadFileData
  rw [hm, IStream.ofText, h1, loadLines, hline, h2, h3]
  rfl

/-- An instance of the check: the character `x` after the tokens `5` and `(1)`
on row 3 of a save file. -/
theorem loadFileData_unexpected_example :
    loadFileData "C:/Sudoku/Saves/3.txt"
      (renderFile [[.plain 1], [], [.blank, .fixed 2]] ++
        (renderLine [.plain 5, .fixed 1] ++ 'x' :: "9\n\n".toList)) emptyGrid {} =
      .error (.invalid_argument
        ("Error while parsing file \"" ++ "C:/Sudoku/Saves/3.txt" ++ "\" at line "
          ++ toString ([[.plain 1], [], [.blank, .fixed 2]] : List (List Token)).length
          ++ " (unexpected character : '" ++ String.singleton 'x' ++ "') !")) :=
  loadFileData_unexpected "C:/Sudoku/Saves/3.txt" [[.plain 1], [], [.blank, .fixed 2]] (by decide)
    (by decide) [.plain 5, .fixed 1] (by decide) (by decide) 'x' (by decide) (by decide)
    (by decide) (by decide) "9\n\n".toList emptyGrid {}

/-! ## Level files -/

/-- C10, as stated, fails: for the level text whose first line is `5(7)`,
`openLevel` makes the plain digit a constant box and gives each parenthesis a
box of its own (a constant box holding `'(' - '0'` as a `std::size_t`), while
`loadFileData`, reading the same text as a file that is not a solution file,
makes the plain digit an editable box and `(7)` one constant box. -/
theorem openLevel_counterexample :
    (openLevel smallLevel).map
        (fun g => (g ⟨0, by decide⟩, g ⟨1, by decide⟩, g ⟨2, by decide⟩)) =
      .ok ({ isConstant := true, value := some 5 },
        { isConstant := true, value := some 18446744073709551608 },
        { isConstant := true, value := some 7 }) ∧
    (loadFileData "C:/Sudoku/Levels/1.txt" smallLevel emptyGrid {}).map
        (fun result => (result.1 ⟨0, by decide⟩, result.1 ⟨1, by decide⟩,
          result.1 ⟨2, by decide⟩)) =
      .ok ({ isConstant := false, value := some 5 }, { isConstant := true, value := some 7 },
        { isConstant := false, value := none }) := by
  decide

theorem openLevel_column (r k : Nat) (hr : r < 9) (hk : k ≤ 62) :
    toArrayIndex (toChar (((65 + k) % sizeMod : Nat) : Int)) r = r * 9 + k := by
  simp only [toArrayIndex, toSizeT, toChar, gridSize, sizeMod]
  omega

theorem openLevelLine_token (r k : Nat) (hr : r < 9) (hk : k ≤ 62) (hlt : r * 9 + k < nBoxes)
    (t : Token) (ht : ∀ d, t ≠ Token.fixed d) (rest : List Char) (grid : grid_t) :
    openLevelLine r (t.render ++ rest) k grid =
      openLevelLine r rest (k + 1) (grid.set ⟨r * 9 + k, hlt⟩ (t.box true)) := by
  have hnext : (k + 1) % sizeMod = k + 1 := by
    simp only [sizeMod]
    omega
  cases t with
  | blank =>
    rw [Token.render, List.singleton_append, openLevelLine]
    simp only [openLevel_column r k hr hk, hlt, dite_true, hnext, Token.box]
    rfl
  | plain d =>
    obtain ⟨-, h2, -, -, h5⟩ := digitChar_facts d
    have h6 : (digitChar d != ' ') = true := by simpa using h2
    rw [Token.render, List.singleton_append, openLevelLine]
    simp only [openLevel_column r k hr hk, hlt, dite_true, hnext, Token.box, h6, if_true, h5]
  | fixed d => exact absurd rfl (ht d)

theorem openLevelLine_tokens (r : Nat) (hr : r < 9) :
    ∀ (tokens : List Token) (k : Nat) (rest : List Char) (grid : grid_t),
      (∀ t ∈ tokens, ∀ d, t ≠ Token.fixed d) →
      k + tokens.length ≤ 63 → r * 9 + (k + tokens.length) ≤ nBoxes →
      openLevelLine r (renderLine tokens ++ rest) k grid =
        openLevelLine r rest (k + tokens.length)
          (placeBoxes grid (r * 9 + k) (tokens.map (Token.box true))) := by
  intro tokens
  induction tokens with
  | nil =>
    intro k rest grid _ _ _
    have : placeBoxes grid (r * 9 + k) [] = grid := by
      funext i
      simp [placeBoxes]
    simp [renderLine, this]
  | cons t ts ih =>
    intro k rest grid ht hlen hbound
    simp only [List.length_cons] at hlen hbound
    have hlt : r * 9 + k < nBoxes := by omega
    have e1 : renderLine (t :: ts) ++ rest = t.render ++ (renderLine ts ++ rest) := by
      simp [renderLine]
    rw [e1, openLevelLine_token r k hr (by omega) hlt t (ht t (List.mem_cons_self t ts)),
      ih (k + 1) rest _ (fun x hx => ht x (List.mem_cons_of_mem t hx)) (by omega) (by omega)]
    have e2 : r * 9 + (k + 1) = (r * 9 + k) + 1 := by omega
    have e3 : k + 1 + ts.length = k + (t :: ts).length := by simp only [List.length_cons]; omega
    rw [e2, placeBoxes_set grid (r * 9 + k) hlt, e3]
    rfl

theorem openLevelLines_tokens :
    ∀ (lines : List (List Token)) (r : Nat) (tl : List Char) (grid : grid_t),
      r + lines.length ≤ 9 → (∀ l ∈ lines, l.length ≤ 9 ∧ ∀ t ∈ l, ∀ d, t ≠ Token.fixed d) →
      openLevelLines lines.length r { rest := renderFile lines ++ tl } grid =
        .ok (placeRows true grid r lines) := by
  intro lines
  induction lines with
  | nil =>
    intro r tl grid _ _
    simp [openLevelLines, placeRows]
  | cons l ls ih =>
    intro r tl grid hr hl
    simp only [List.length_cons] at hr
    have hn := nBoxes_eq
    obtain ⟨hlen, hplain⟩ := hl l (List.mem_cons_self l ls)
    have e1 : renderFile (l :: ls) ++ tl = renderLine l ++ '\n' :: (renderFile ls ++ tl) := by
      simp [renderFile]
    have hline := openLevelLine_tokens r (by omega) l 0 [] grid hplain (by omega) (by omega)
    simp only [List.append_nil, Nat.zero_add, add_zero] at hline
    rw [List.length_cons, openLevelLines, e1, getline_of_line _ _ _ (renderLine_no_newline l)]
    simp only [hline, openLevelLine]
    rw [ih (r + 1) tl _ (by omega) (fun x hx => hl x (List.mem_cons_of_mem l hx))]
    rfl

theorem cellOf_token (sol : Bool) (lines : List (List Token)) (r : Fin lines.length)
    (k : Fin (lines.get r).length) (hk : k.val < 9) :
    cellOf sol lines 0 (r.val * 9 + k.val) = some (((lines.get r).get k).box sol) := by
  have h1 : (r.val * 9 + k.val) / 9 = r.val := by omega
  have h2 : (r.val * 9 + k.val) % 9 = k.val := by omega
  simp only [cellOf, Nat.zero_le, if_true, Nat.sub_zero, h1, h2, List.get?_eq_get r.isLt,
    Option.some_bind, List.get?_eq_get k.isLt, Option.map_some']

/-- C10, amended. Level files: `openLevel` gives every character of a line
one column, a space being an empty editable box and a plain digit a constant
box holding that digit.  So for every level text of nine lines of at most
nine spaces and plain digits, the grid `openLevel` builds is the grid
`loadFileData` decodes from the same text read as a solution file into an
empty grid: the box of column `k` of row `r` is the cell of the `k`-th token
of line `r`, constant when the token is a digit. -/
theorem openLevel_decoding (lines : List (List Token)) (hlines : lines.length = 9)
    (hl : ∀ l ∈ lines, l.length ≤ 9 ∧ ∀ t ∈ l, ∀ d, t ≠ Token.fixed d) (tl : List Char)
    (path : String) (hpath : containsText path "Solutions" = true) (colours : Colours) :
    ∃ grid, openLevel (renderFile lines ++ tl) = .ok grid ∧
      loadFileData path (renderFile lines ++ tl) emptyGrid colours = .ok (grid, colours) ∧
      ∀ (r : Fin lines.length) (k : Fin (lines.get r).length) (h : r.val * 9 + k.val < nBoxes),
        grid ⟨r.val * 9 + k.val, h⟩ = ((lines.get r).get k).box true := by
  have hl9 : ∀ l ∈ lines, l.length ≤ 9 := fun l h => (hl l h).1
  refine ⟨placeRows true emptyGrid 0 lines, ?_, ?_, ?_⟩
  · have h := openLevelLines_tokens lines 0 tl emptyGrid (by omega) hl
    rw [hlines] at h
    exact h
  · have hload := loadLines_tokens true path lines 0 tl emptyGrid (by omega) hl9
    rw [hlines] at hload
    simp only [loadFileData, hpath, IStream.ofText, hload, if_true]
  · intro r k h
    have hk : k.val < 9 := lt_of_lt_of_le k.isLt (hl9 _ (List.get_mem _ _ _))
    rw [placeRows_apply true lines 0 emptyGrid _ hl9]
    simp only
    rw [cellOf_token true lines r k hk]
    rfl

/-- A witness for C10: a level of nine lines `5 3`. -/
theorem openLevel_decoding_witness :
    ∃ grid, openLevel (renderFile (List.replicate 9 [.plain 5, .blank, .plain 3]) ++ []) =
        .ok grid ∧
      loadFileData "C:/Sudoku/Solutions/7.txt"
        (renderFile (List.replicate 9 [.plain 5, .blank, .plain 3]) ++ []) emptyGrid {} =
          .ok (grid, {}) ∧
      ∀ (r : Fin (List.replicate 9 [Token.plain 5, .blank, .plain 3]).length)
        (k : Fin ((List.replicate 9 [Token.plain 5, .blank, .plain 3]).get r).length)
        (h : r.val * 9 + k.val < nBoxes),
        grid ⟨r.val * 9 + k.val, h⟩ =
          (((List.replicate 9 [Token.plain 5, .blank, .plain 3]).get r).get k).box true :=
  openLevel_decoding (List.replicate 9 [.plain 5, .blank, .plain 3]) (by decide) (by decide) []
    "C:/Sudoku/Solutions/7.txt" (by decide) {}

/-! ## The fuel of the prompt loops

Each prompt loop is run with a number of rounds computed from the input that
is left.  The theorems of this section show that this number is never what
stops a loop: whenever some number of rounds gives a result, the number used
gives the same result, so that `Error.endOfInput` stands for a loop that
repeats for ever on an exhausted input. -/

theorem dropWhile_length_le (p : Char → Bool) (l : List Char) :
    (l.dropWhile p).length ≤ l.length :=
  (List.dropWhile_sublist p).length_le

theorem readInt_rest_le (s : IStream) (old : Int) :
    (s.readInt old).2.rest.length ≤ s.rest.length := by
  unfold IStream.readInt
  by_cases hg : s.good = true
  · simp only [hg, if_true]
    split
    · simp
    · rename_i c cs heq
      have h1 := dropWhile_length_le isspace s.rest
      rw [heq] at h1
      have h2 := dropWhile_length_le isdigit (if c = '-' ∨ c = '+' then cs else c :: cs)
      have h3 : (if c = '-' ∨ c = '+' then cs else c :: cs).length ≤ cs.length + 1 := by
        split_ifs <;> simp
      simp only [List.length_cons] at h1
      generalize (if c = '-' ∨ c = '+' then cs else c :: cs) = body at h2 h3 ⊢
      split_ifs <;> simp only <;> omega
  · simp only [hg, if_false]
    exact le_refl _

theorem readSize_rest_le (s : IStream) (old : Nat) :
    (s.readSize old).2.rest.length ≤ s.rest.length := by
  unfold IStream.readSize
  by_cases hg : s.good = true
  · simp only [hg, if_true]
    split
    · simp
    · rename_i c cs heq
      have h1 := dropWhile_length_le isspace s.rest
      rw [heq] at h1
      have h2 := dropWhile_length_le isdigit (if c = '-' ∨ c = '+' then cs else c :: cs)
      have h3 : (if c = '-' ∨ c = '+' then cs else c :: cs).length ≤ cs.length + 1 := by
        split_ifs <;> simp
      simp only [List.length_cons] at h1
      generalize (if c = '-' ∨ c = '+' then cs else c :: cs) = body at h2 h3 ⊢
      split_ifs <;> simp only <;> omega
  · simp only [hg, if_false]
    exact le_refl _

theorem clearCin_rest_le (s : IStream) : (clearCin s).rest.length ≤ s.rest.length := by
  unfold clearCin IStream.ignoreLine
  simp only [IStream.good, Bool.not_false, Bool.and_self, if_true, List.span_eq_take_drop]
  split
  · rename_i a b c tl heq
    have h1 := dropWhile_length_le (fun c => c != '\n') s.rest
    rw [(Prod.mk.inj heq).2] at h1
    simp only [List.length_cons] at h1
    simp only
    omega
  · simp

theorem clearCin_rest_lt (s : IStream) (h : s.rest ≠ []) :
    (clearCin s).rest.length < s.rest.length := by
  unfold clearCin IStream.ignoreLine
  simp only [IStream.good, Bool.not_false, Bool.and_self, if_true, List.span_eq_take_drop]
  split
  · rename_i a b c tl heq
    have h1 := dropWhile_length_le (fun c => c != '\n') s.rest
    rw [(Prod.mk.inj heq).2] at h1
    simp only [List.length_cons] at h1
    simp only
    omega
  · simp only [List.length_nil]
    exact List.length_pos.mpr h

theorem readInt_nil (s : IStream) (old : Int) (h : s.rest = []) :
    (s.readInt old).1 = old ∧ (s.readInt old).2.rest = [] := by
  unfold IStream.readInt
  by_cases hg : s.good = true
  · simp [hg, h]
  · simp [hg, h]

theorem readSize_nil (s : IStream) (old : Nat) (h : s.rest = []) :
    (s.readSize old).1 = old ∧ (s.readSize old).2.rest = [] := by
  unfold IStream.readSize
  by_cases hg : s.good = true
  · simp [hg, h]
  · simp [hg, h]

theorem clearCin_nil (s : IStream) (h : s.rest = []) : (clearCin s).rest = [] := by
  have := clearCin_rest_le s
  rw [h] at this
  exact List.length_eq_zero.mp (Nat.le_zero.mp this)

theorem securedInputIntLoop_mono (lo hi : Int) :
    ∀ (fuel : Nat) (value : Int) (cin : IStream) (r : Int × IStream),
      securedInputIntLoop lo hi fuel value cin = .ok r →
      securedInputIntLoop lo hi (fuel + 1) value cin = .ok r := by
  intro fuel
  induction fuel with
  | zero =>
    intro value cin r h
    rw [securedInputIntLoop] at h
    cases h
  | succ fuel ih =>
    intro value cin r h
    rw [securedInputIntLoop] at h
    rw [securedInputIntLoop]
    split at h
    · rename_i hin
      rw [if_pos hin]
      exact h
    · rename_i hout
      rw [if_neg hout]
      exact ih _ _ _ h

theorem securedInputIntLoop_mono_le (lo hi : Int) (value : Int) (cin : IStream)
    (r : Int × IStream) :
    ∀ (fuel more : Nat), securedInputIntLoop lo hi fuel value cin = .ok r →
      securedInputIntLoop lo hi (fuel + more) value cin = .ok r := by
  intro fuel more h
  induction more with
  | zero => exact h
  | succ more ih => exact securedInputIntLoop_mono lo hi _ _ _ _ ih

theorem securedInputIntLoop_exhausted (lo hi : Int) :
    ∀ (fuel : Nat) (value : Int) (cin : IStream), cin.rest = [] → ¬ (lo ≤ value ∧ value ≤ hi) →
      securedInputIntLoop lo hi fuel value cin = .error .endOfInput := by
  intro fuel
  induction fuel with
  | zero =>
    intro value cin _ _
    rw [securedInputIntLoop]
  | succ fuel ih =>
    intro value cin hnil hout
    obtain ⟨h1, h2⟩ := readInt_nil cin value hnil
    rw [securedInputIntLoop, h1, if_neg hout]
    exact ih _ _ (clearCin_nil _ h2) hout

theorem securedInputIntLoop_fuel (lo hi : Int) :
    ∀ (fuel : Nat) (value : Int) (cin : IStream) (r : Int × IStream),
      securedInputIntLoop lo hi fuel value cin = .ok r →
      securedInputIntLoop lo hi (cin.rest.length + 2) value cin = .ok r := by
  intro fuel
  induction fuel with
  | zero =>
    intro value cin r h
    rw [securedInputIntLoop] at h
    cases h
  | succ fuel ih =>
    intro value cin r h
    rw [securedInputIntLoop] at h
    rw [securedInputIntLoop]
    split at h
    · rename_i hin
      rw [if_pos hin]
      exact h
    · rename_i hout
      rw [if_neg hout]
      by_cases hnil : cin.rest = []
      · obtain ⟨h1, h2⟩ := readInt_nil cin value hnil
        rw [securedInputIntLoop_exhausted lo hi fuel _ _ (clearCin_nil _ h2) hout] at h
        cases h
      · have hlt : (clearCin (cin.readInt value).2).rest.length < cin.rest.length := by
          by_cases hnil2 : (cin.readInt value).2.rest = []
          · rw [clearCin_nil _ hnil2]
            exact List.length_pos.mpr hnil
          · exact lt_of_lt_of_le (clearCin_rest_lt _ hnil2) (readInt_rest_le cin value)
        have h3 := securedInputIntLoop_mono_le lo hi _ _ _ _
          (cin.rest.length + 1 - ((clearCin (cin.readInt value).2).rest.length + 2)) (ih _ _ _ h)
        have e : (clearCin (cin.readInt value).2).rest.length + 2 +
            (cin.rest.length + 1 - ((clearCin (cin.readInt value).2).rest.length + 2)) =
            cin.rest.length + 1 := by omega
        rw [e] at h3
        exact h3

/-- `securedInput<int>` returns every result its loop can reach. -/
theorem securedInputInt_complete (lo hi : Int) (fuel : Nat) (cin : IStream)
    (r : Int × IStream) (h : securedInputIntLoop lo hi fuel 0 cin = .ok r) :
    securedInputInt lo hi cin = .ok r :=
  securedInputIntLoop_fuel lo hi fuel 0 cin r h

theorem securedInputSizeLoop_mono (lo hi : Nat) (value : Nat) (cin : IStream)
    (r : Nat × IStream) :
    ∀ (more fuel : Nat), securedInputSizeLoop lo hi fuel value cin = .ok r →
      securedInputSizeLoop lo hi (fuel + more) value cin = .ok r := by
  intro more fuel
  induction fuel generalizing value cin with
  | zero =>
    intro h
    rw [securedInputSizeLoop] at h
    cases h
  | succ fuel ih =>
    intro h
    rw [securedInputSizeLoop] at h
    have e : fuel + 1 + more = (fuel + more) + 1 := by omega
    rw [e, securedInputSizeLoop]
    split at h
    · rename_i hin
      rw [if_pos hin]
      exact h
    · rename_i hout
      rw [if_neg hout]
      exact ih _ _ h

theorem securedInputSizeLoop_exhausted (lo hi : Nat) :
    ∀ (fuel : Nat) (value : Nat) (cin : IStream), cin.rest = [] → ¬ (lo ≤ value ∧ value ≤ hi) →
      securedInputSizeLoop lo hi fuel value cin = .error .endOfInput := by
  intro fuel
  induction fuel with
  | zero =>
    intro value cin _ _
    rw [securedInputSizeLoop]
  | succ fuel ih =>
    intro value cin hnil hout
    obtain ⟨h1, h2⟩ := readSize_nil cin value hnil
    rw [securedInputSizeLoop, h1, if_neg hout]
    exact ih _ _ (clearCin_nil _ h2) hout

theorem securedInputSizeLoop_fuel (lo hi : Nat) :
    ∀ (fuel : Nat) (value : Nat) (cin : IStream) (r : Nat × IStream),
      securedInputSizeLoop lo hi fuel value cin = .ok r →
      securedInputSizeLoop lo hi (cin.rest.length + 2) value cin = .ok r := by
  intro fuel
  induction fuel with
  | zero =>
    intro value cin r h
    rw [securedInputSizeLoop] at h
    cases h
  | succ fuel ih =>
    intro value cin r h
    rw [securedInputSizeLoop] at h
    rw [securedInputSizeLoop]
    split at h
    · rename_i hin
      rw [if_pos hin]
      exact h
    · rename_i hout
      rw [if_neg hout]
      by_cases hnil : cin.rest = []
      · obtain ⟨h1, h2⟩ := readSize_nil cin value hnil
        rw [securedInputSizeLoop_exhausted lo hi fuel _ _ (clearCin_nil _ h2) hout] at h
        cases h
      · have hlt : (clearCin (cin.readSize value).2).rest.length < cin.rest.length := by
          by_cases hnil2 : (cin.readSize value).2.rest = []
          · rw [clearCin_nil _ hnil2]
            exact List.length_pos.mpr hnil
          · exact lt_of_lt_of_le (clearCin_rest_lt _ hnil2) (readSize_rest_le cin value)
        have h3 := securedInputSizeLoop_mono lo hi _ _ _
          (cin.rest.length + 1 - ((clearCin (cin.readSize value).2).rest.length + 2)) _
          (ih _ _ _ h)
        have e : (clearCin (cin.readSize value).2).rest.length + 2 +
            (cin.rest.length + 1 - ((clearCin (cin.readSize value).2).rest.length + 2)) =
            cin.rest.length + 1 := by omega
        rw [e] at h3
        exact h3

/-- `securedInput<std::size_t>` returns every result its loop can reach. -/
theorem securedInputSize_complete (lo hi : Nat) (fuel : Nat) (cin : IStream)
    (r : Nat × IStream) (h : securedInputSizeLoop lo hi fuel 0 cin = .ok r) :
    securedInputSize lo hi cin = .ok r :=
  securedInputSizeLoop_fuel lo hi fuel 0 cin r h

theorem readChar_nil (s : IStream) (old : Char) (h : s.rest = []) :
    (s.readChar old).1 = old ∧ (s.readChar old).2.rest = [] ∧
      (s.readChar old).2.failbit = true := by
  unfold IStream.readChar
  by_cases hg : s.good = true
  · simp [hg, h]
  · simp [hg, h]

/-- The stream after one round of the loop of `yesNoInput`. -/
theorem yesNo_round_lt (s : IStream) (old : Char) (h : s.rest ≠ []) :
    (if (s.readChar old).2.failbit then clearCin (s.readChar old).2
      else (s.readChar old).2).rest.length < s.rest.length := by
  unfold IStream.readChar
  by_cases hg : s.good = true
  · simp only [hg, if_true]
    cases heq : List.dropWhile isspace s.rest with
    | nil =>
      simp only [if_true]
      rw [clearCin_nil _ rfl]
      exact List.length_pos.mpr h
    | cons c cs =>
      have h1 := dropWhile_length_le isspace s.rest
      rw [heq] at h1
      simp only [List.length_cons] at h1
      have hf : s.failbit = false := by
        simp only [IStream.good, Bool.and_eq_true, Bool.not_eq_true'] at hg
        exact hg.2
      simp only [hf, Bool.false_eq_true, if_false]
      omega
  · simp only [hg, if_false, if_true]
    exact clearCin_rest_lt _ h

theorem yesNoInputLoop_mono (input : Char) (cin : IStream) (r : Bool × IStream) :
    ∀ (more fuel : Nat), yesNoInputLoop fuel input cin = .ok r →
      yesNoInputLoop (fuel + more) input cin = .ok r := by
  intro more fuel
  induction fuel generalizing input cin with
  | zero =>
    intro h
    rw [yesNoInputLoop] at h
    cases h
  | succ fuel ih =>
    intro h
    rw [yesNoInputLoop] at h
    have e : fuel + 1 + more = (fuel + more) + 1 := by omega
    rw [e, yesNoInputLoop]
    split at h
    · rename_i hother
      rw [if_pos hother]
      exact ih _ _ h
    · rename_i hyn
      rw [if_neg hyn]
      exact h

theorem yesNoInputLoop_exhausted :
    ∀ (fuel : Nat) (input : Char) (cin : IStream), cin.rest = [] →
      input ≠ 'y' ∧ input ≠ 'n' → yesNoInputLoop fuel input cin = .error .endOfInput := by
  intro fuel
  induction fuel with
  | zero =>
    intro input cin _ _
    rw [yesNoInputLoop]
  | succ fuel ih =>
    intro input cin hnil hother
    obtain ⟨h1, h2, h3⟩ := readChar_nil cin input hnil
    rw [yesNoInputLoop, h1, if_pos hother, h3, if_pos rfl]
    exact ih _ _ (clearCin_nil _ h2) hother

theorem yesNoInputLoop_fuel :
    ∀ (fuel : Nat) (input : Char) (cin : IStream) (r : Bool × IStream),
      input ≠ 'y' ∧ input ≠ 'n' → yesNoInputLoop fuel input cin = .ok r →
      yesNoInputLoop (cin.rest.length + 2) input cin = .ok r := by
  intro fuel
  induction fuel with
  | zero =>
    intro input cin r _ h
    rw [yesNoInputLoop] at h
    cases h
  | succ fuel ih =>
    intro input cin r hinput h
    rw [yesNoInputLoop] at h
    rw [yesNoInputLoop]
    split at h
    · rename_i hother
      rw [if_pos hother]
      by_cases hnil : cin.rest = []
      · obtain ⟨h1, h2, h3⟩ := readChar_nil cin input hnil
        rw [h3, if_pos rfl, yesNoInputLoop_exhausted fuel _ _ (clearCin_nil _ h2) hother] at h
        cases h
      · have hlt := yesNo_round_lt cin input hnil
        have h3 := yesNoInputLoop_mono _ _ _
          (cin.rest.length + 1 - ((if (cin.readChar input).2.failbit then
            clearCin (cin.readChar input).2 else (cin.readChar input).2).rest.length + 2)) _
          (ih _ _ _ hother h)
        have e : (if (cin.readChar input).2.failbit then
            clearCin (cin.readChar input).2 else (cin.readChar input).2).rest.length + 2 +
            (cin.rest.length + 1 - ((if (cin.readChar input).2.failbit then
              clearCin (cin.readChar input).2 else (cin.readChar input).2).rest.length + 2)) =
            cin.rest.length + 1 := by omega
        rw [e] at h3
        exact h3
    · rename_i hyn
      rw [if_neg hyn]
      exact h

/-- `yesNoInput` returns every result its loop can reach. -/
theorem yesNoInput_complete (fuel : Nat) (cin : IStream) (r : Bool × IStream)
    (h : yesNoInputLoop fuel (Char.ofNat 0) cin = .ok r) : yesNoInput cin = .ok r :=
  yesNoInputLoop_fuel fuel (Char.ofNat 0) cin r (by decide) h

theorem getline_not_good (s : IStream) (old : List Char) (h : s.good = false) :
    s.getline old = (old, { s with failbit := true }) := by
  simp only [IStream.getline, h, Bool.false_eq_true, if_false]

theorem getline_good_length (s : IStream) (old : List Char) (h : s.good = true) :
    (s.getline old).2.rest.length + (s.getline old).1.length ≤ s.rest.length := by
  have h1 : (s.rest.takeWhile (fun c => c != '\n')).length +
      (s.rest.dropWhile (fun c => c != '\n')).length = s.rest.length := by
    rw [← List.length_append, List.takeWhile_append_dropWhile]
  unfold IStream.getline
  rw [if_pos h, List.span_eq_take_drop]
  split
  · rename_i str x tl heq
    obtain ⟨e1, e2⟩ := Prod.mk.inj heq
    rw [e1, e2] at h1
    simp only [List.length_cons] at h1
    simp only
    omega
  · rename_i str heq
    obtain ⟨e1, e2⟩ := Prod.mk.inj heq
    rw [e1, e2] at h1
    simp only [List.length_nil]
    omega

theorem getline_good_lt (s : IStream) (old : List Char) (h : s.good = true)
    (hne : s.rest ≠ []) : (s.getline old).2.rest.length < s.rest.length := by
  have h1 : (s.rest.takeWhile (fun c => c != '\n')).length +
      (s.rest.dropWhile (fun c => c != '\n')).length = s.rest.length := by
    rw [← List.length_append, List.takeWhile_append_dropWhile]
  unfold IStream.getline
  rw [if_pos h, List.span_eq_take_drop]
  split
  · rename_i str x tl heq
    obtain ⟨e1, e2⟩ := Prod.mk.inj heq
    rw [e1, e2] at h1
    simp only [List.length_cons] at h1
    simp only
    omega
  · simp only [List.length_nil]
    exact List.length_pos.mpr hne

theorem getline_good_nil (s : IStream) (old : List Char) (h : s.good = true)
    (hnil : s.rest = []) :
    (s.getline old).1 = [] ∧ (s.getline old).2.good = false := by
  unfold IStream.getline
  rw [if_pos h, hnil]
  exact ⟨rfl, rfl⟩

theorem getline_rest_le (s : IStream) (old : List Char) :
    (s.getline old).2.rest.length ≤ s.rest.length := by
  cases hg : s.good with
  | true =>
    have := getline_good_length s old hg
    omega
  | false =>
    rw [getline_not_good s old hg]

theorem checkBoxID_nil : ∃ m, checkBoxID [] = .error m :=
  ⟨_, rfl⟩

theorem securedInputBoxLoop_mono (boxID : List Char) (console : Console)
    (r : box_t × Console) :
    ∀ (more fuel : Nat), securedInputBoxLoop fuel boxID console = .ok r →
      securedInputBoxLoop (fuel + more) boxID console = .ok r := by
  intro more fuel
  induction fuel generalizing boxID console with
  | zero =>
    intro h
    rw [securedInputBoxLoop] at h
    cases h
  | succ fuel ih =>
    intro h
    rw [securedInputBoxLoop] at h
    have e : fuel + 1 + more = (fuel + more) + 1 := by omega
    rw [e, securedInputBoxLoop]
    cases hc : checkBoxID (console.cin.getline boxID).1 with
    | ok box =>
      simp only [hc] at h ⊢
      exact h
    | error m =>
      simp only [hc] at h ⊢
      exact ih _ _ h

theorem securedInputBoxLoop_stuck :
    ∀ (fuel : Nat) (boxID : List Char) (console : Console), console.cin.good = false →
      (∃ m, checkBoxID boxID = .error m) →
      securedInputBoxLoop fuel boxID console = .error .endOfInput := by
  intro fuel
  induction fuel with
  | zero =>
    intro boxID console _ _
    rw [securedInputBoxLoop]
  | succ fuel ih =>
    intro boxID console hbad hrej
    obtain ⟨m, hm⟩ := hrej
    rw [securedInputBoxLoop, getline_not_good _ _ hbad]
    simp only [hm]
    apply ih
    · simp [IStream.good]
    · exact ⟨m, hm⟩

theorem securedInputBoxLoop_fuel :
    ∀ (fuel : Nat) (boxID : List Char) (console : Console) (r : box_t × Console),
      (∃ m, checkBoxID boxID = .error m) → securedInputBoxLoop fuel boxID console = .ok r →
      securedInputBoxLoop (console.cin.rest.length + 2) boxID console = .ok r := by
  intro fuel
  induction fuel with
  | zero =>
    intro boxID console r _ h
    rw [securedInputBoxLoop] at h
    cases h
  | succ fuel ih =>
    intro boxID console r hrej h
    rw [securedInputBoxLoop] at h
    rw [securedInputBoxLoop]
    cases hc : checkBoxID (console.cin.getline boxID).1 with
    | ok box =>
      simp only [hc] at h ⊢
      exact h
    | error m =>
      simp only [hc] at h ⊢
      cases hg : console.cin.good with
      | false =>
        rw [securedInputBoxLoop_stuck fuel _ _ (by
          simp only [getline_not_good _ _ hg]
          simp [IStream.good]) ⟨m, hc⟩] at h
        cases h
      | true =>
        by_cases hnil : console.cin.rest = []
        · rw [securedInputBoxLoop_stuck fuel _ _ (getline_good_nil _ _ hg hnil).2 ⟨m, hc⟩] at h
          cases h
        · have hlt := getline_good_lt console.cin boxID hg hnil
          have h3 := securedInputBoxLoop_mono _ _ _
            (console.cin.rest.length + 1 - ((console.cin.getline boxID).2.rest.length + 2)) _
            (ih _ _ _ ⟨m, hc⟩ h)
          have e : (console.cin.getline boxID).2.rest.length + 2 +
              (console.cin.rest.length + 1 - ((console.cin.getline boxID).2.rest.length + 2)) =
              console.cin.rest.length + 1 := by omega
          simp only at h3
          rw [e] at h3
          exact h3

theorem securedInputBoxLoop_consumes :
    ∀ (fuel : Nat) (boxID : List Char) (console console1 : Console) (box : box_t),
      (∃ m, checkBoxID boxID = .error m) →
      securedInputBoxLoop fuel boxID console = .ok (box, console1) →
      console1.cin.rest.length < console.cin.rest.length := by
  intro fuel
  induction fuel with
  | zero =>
    intro boxID console console1 box _ h
    rw [securedInputBoxLoop] at h
    cases h
  | succ fuel ih =>
    intro boxID console console1 box hrej h
    rw [securedInputBoxLoop] at h
    cases hc : checkBoxID (console.cin.getline boxID).1 with
    | ok b =>
      simp only [hc] at h
      cases h
      simp only
      cases hg : console.cin.good with
      | false =>
        obtain ⟨m, hm⟩ := hrej
        rw [getline_not_good _ _ hg, hm] at hc
        cases hc
      | true =>
        have hlen := getline_good_length console.cin boxID hg
        have hpos : 0 < (console.cin.getline boxID).1.length := by
          apply List.length_pos.mpr
          intro hnil
          rw [hnil] at hc
          obtain ⟨m, hm⟩ := checkBoxID_nil
          rw [hm] at hc
          cases hc
        omega
    | error m =>
      simp only [hc] at h
      have h1 := ih _ _ _ _ ⟨m, hc⟩ h
      have h2 := getline_rest_le console.cin boxID
      simp only at h1
      omega

/-- `securedInputBox` returns every result its loop can reach. -/
theorem securedInputBox_complete (fuel : Nat) (console : Console) (r : box_t × Console)
    (h : securedInputBoxLoop fuel [] { console with cin := clearCin console.cin } = .ok r) :
    securedInputBox console = .ok r :=
  securedInputBoxLoop_fuel fuel [] _ r checkBoxID_nil h

/-- A call of `securedInputBox` that returns has read at least one character. -/
theorem securedInputBox_consumes (console console1 : Console) (box : box_t)
    (h : securedInputBox console = .ok (box, console1)) :
    console1.cin.rest.length < console.cin.rest.length := by
  have h1 := securedInputBoxLoop_consumes _ _ _ _ _ checkBoxID_nil h
  have h2 := clearCin_rest_le console.cin
  simp only at h1
  omega

theorem editBoxLoop_mono (grid : grid_t) (console : Console) (r : grid_t × Console) :
    ∀ (more fuel : Nat), editBoxLoop fuel grid console = .ok r →
      editBoxLoop (fuel + more) grid console = .ok r := by
  intro more fuel
  induction fuel generalizing console with
  | zero =>
    intro h
    rw [editBoxLoop] at h
    cases h
  | succ fuel ih =>
    intro h
    rw [editBoxLoop] at h
    have e : fuel + 1 + more = (fuel + more) + 1 := by omega
    rw [e, editBoxLoop]
    cases hbox : securedInputBox console with
    | error err =>
      simp only [hbox] at h
      cases h
    | ok res =>
      obtain ⟨box, console1⟩ := res
      simp only [hbox] at h ⊢
      split at h
      · rename_i hcancel
        rw [if_pos hcancel]
        exact h
      · rename_i hcancel
        rw [if_neg hcancel]
        cases hread : readBox grid (toArrayIndex box.1 box.2) with
        | error err =>
          simp only [hread] at h
          cases h
        | ok target =>
          simp only [hread] at h ⊢
          split at h
          · rename_i hconst
            rw [if_pos hconst]
            exact ih _ h
          · rename_i hconst
            rw [if_neg hconst]
            exact h

theorem editBoxLoop_fuel :
    ∀ (fuel : Nat) (grid : grid_t) (console : Console) (r : grid_t × Console),
      editBoxLoop fuel grid console = .ok r →
      editBoxLoop (console.cin.rest.length + 1) grid console = .ok r := by
  intro fuel
  induction fuel with
  | zero =>
    intro grid console r h
    rw [editBoxLoop] at h
    cases h
  | succ fuel ih =>
    intro grid console r h
    rw [editBoxLoop] at h
    rw [editBoxLoop]
    cases hbox : securedInputBox console with
    | error err =>
      simp only [hbox] at h
      cases h
    | ok res =>
      obtain ⟨box, console1⟩ := res
      have hlt := securedInputBox_consumes console console1 box hbox
      simp only [hbox] at h ⊢
      split at h
      · rename_i hcancel
        rw [if_pos hcancel]
        exact h
      · rename_i hcancel
        rw [if_neg hcancel]
        cases hread : readBox grid (toArrayIndex box.1 box.2) with
        | error err =>
          simp only [hread] at h
          cases h
        | ok target =>
          simp only [hread] at h ⊢
          split at h
          · rename_i hconst
            rw [if_pos hconst]
            have h3 := editBoxLoop_mono _ _ _
              (console.cin.rest.length - (console1.cin.rest.length + 1)) _ (ih _ _ _ h)
            simp only at h3
            have e : console1.cin.rest.length + 1 +
                (console.cin.rest.length - (console1.cin.rest.length + 1)) =
                console.cin.rest.length := by omega
            rw [e] at h3
            exact h3
          · rename_i hconst
            rw [if_neg hconst]
            exact h

/-- `editBox` returns every result its loop can reach. -/
theorem editBox_complete (fuel : Nat) (grid : grid_t) (console : Console)
    (r : grid_t × Console) (h : editBoxLoop fuel grid console = .ok r) :
    editBox grid console = .ok r :=
  editBoxLoop_fuel fuel grid console r h

theorem eraseBoxLoop_mono (grid : grid_t) (console : Console) (r : grid_t × Console) :
    ∀ (more fuel : Nat), eraseBoxLoop fuel grid console = .ok r →
      eraseBoxLoop (fuel + more) grid console = .ok r := by
  intro more fuel
  induction fuel generalizing console with
  | zero =>
    intro h
    rw [eraseBoxLoop] at h
    cases h
  | succ fuel ih =>
    intro h
    rw [eraseBoxLoop] at h
    have e : fuel + 1 + more = (fuel + more) + 1 := by omega
    rw [e, eraseBoxLoop]
    cases hbox : securedInputBox console with
    | error err =>
      simp only [hbox] at h
      cases h
    | ok res =>
      obtain ⟨box, console1⟩ := res
      simp only [hbox] at h ⊢
      split at h
      · rename_i hcancel
        rw [if_pos hcancel]
        exact h
      · rename_i hcancel
        rw [if_neg hcancel]
        cases hread : readBox grid (toArrayIndex box.1 box.2) with
        | error err =>
          simp only [hread] at h
          cases h
        | ok target =>
          simp only [hread] at h ⊢
          split at h
          · rename_i hconst
            rw [if_pos hconst]
            exact ih _ h
          · rename_i hconst
            rw [if_neg hconst]
            exact h

theorem eraseBoxLoop_fuel :
    ∀ (fuel : Nat) (grid : grid_t) (console : Console) (r : grid_t × Console),
      eraseBoxLoop fuel grid console = .ok r →
      eraseBoxLoop (console.cin.rest.length + 1) grid console = .ok r := by
  intro fuel
  induction fuel with
  | zero =>
    intro grid console r h
    rw [eraseBoxLoop] at h
    cases h
  | succ fuel ih =>
    intro grid console r h
    rw [eraseBoxLoop] at h
    rw [eraseBoxLoop]
    cases hbox : securedInputBox console with
    | error err =>
      simp only [hbox] at h
      cases h
    | ok res =>
      obtain ⟨box, console1⟩ := res
      have hlt := securedInputBox_consumes console console1 box hbox
      simp only [hbox] at h ⊢
      split at h
      · rename_i hcancel
        rw [if_pos hcancel]
        exact h
      · rename_i hcancel
        rw [if_neg hcancel]
        cases hread : readBox grid (toArrayIndex box.1 box.2) with
        | error err =>
          simp only [hread] at h
          cases h
        | ok target =>
          simp only [hread] at h ⊢
          split at h
          · rename_i hconst
            rw [if_pos hconst]
            have h3 := eraseBoxLoop_mono _ _ _
              (console.cin.rest.length - (console1.cin.rest.length + 1)) _ (ih _ _ _ h)
            simp only at h3
            have e : console1.cin.rest.length + 1 +
                (console.cin.rest.length - (console1.cin.rest.length + 1)) =
                console.cin.rest.length := by omega
            rw [e] at h3
            exact h3
          · rename_i hconst
            rw [if_neg hconst]
            exact h

/-- `eraseBox` returns every result its loop can reach. -/
theorem eraseBox_complete (fuel : Nat) (grid : grid_t) (console : Console)
    (r : grid_t × Console) (h : eraseBoxLoop fuel grid console = .ok r) :
    eraseBox grid console = .ok r :=
  eraseBoxLoop_fuel fuel grid console r h

/-! ## Retry -/

/-- C6. Retry: when `yesNoInput` returns the answer, `retryLevel` returns a
grid; after a confirmed retry every box that is not constant is empty, every
constant box keeps its value and every `isConstant` flag is unchanged; after a
declined retry the grid is unchanged. -/
theorem retryLevel_effect (grid : grid_t) (console : Console) (answer : Bool) (cin1 : IStream)
    (h : yesNoInput console.cin = .ok (answer, cin1)) :
    ∃ grid2, retryLevel grid console = .ok (grid2, { console with cin := cin1 }) ∧
      (answer = true → ∀ i, ((grid i).isConstant = false → (grid2 i).value = none) ∧
        ((grid i).isConstant = true → (grid2 i).value = (grid i).value) ∧
        (grid2 i).isConstant = (grid i).isConstant) ∧
      (answer = false → grid2 = grid) := by
  cases answer with
  | false =>
    refine ⟨grid, ?_, ?_, fun _ => rfl⟩
    · simp only [retryLevel, h, Bool.not_false, if_true]
    · intro hf
      cases hf
  | true =>
    refine ⟨resetEditable grid, ?_, ?_, ?_⟩
    · simp only [retryLevel, h, Bool.not_true, Bool.false_eq_true, if_false]
    · intro _ i
      unfold resetEditable
      cases hc : (grid i).isConstant <;> simp [hc]
    · intro hf
      cases hf

/-- A witness for C6: the answer `y` confirms and the answer `n` declines. -/
theorem retryLevel_effect_witness :
    (∃ grid2, retryLevel exampleGrid { cin := { rest := ['y', '\n'] } } =
        .ok (grid2, { cin := { rest := ['\n'] } }) ∧
      (true = true → ∀ i, ((exampleGrid i).isConstant = false → (grid2 i).value = none) ∧
        ((exampleGrid i).isConstant = true → (grid2 i).value = (exampleGrid i).value) ∧
        (grid2 i).isConstant = (exampleGrid i).isConstant) ∧
      (true = false → grid2 = exampleGrid)) ∧
    (∃ grid2, retryLevel exampleGrid { cin := { rest := ['x', 'n', '\n'] } } =
        .ok (grid2, { cin := { rest := ['\n'] } }) ∧
      (false = true → ∀ i, ((exampleGrid i).isConstant = false → (grid2 i).value = none) ∧
        ((exampleGrid i).isConstant = true → (grid2 i).value = (exampleGrid i).value) ∧
        (grid2 i).isConstant = (exampleGrid i).isConstant) ∧
      (false = false → grid2 = exampleGrid)) :=
  ⟨retryLevel_effect exampleGrid { cin := { rest := ['y', '\n'] } } true { rest := ['\n'] }
      (by decide),
    retryLevel_effect exampleGrid { cin := { rest := ['x', 'n', '\n'] } } false
      { rest := ['\n'] } (by decide)⟩

/-! ## Edit and erase -/

theorem checkBoxID_valid (boxID : List Char) (box : box_t) (h : checkBoxID boxID = .ok box) :
    box = cancellingBoxInputCode ∨ (65 ≤ box.1 ∧ box.1 ≤ 73 ∧ box.2 ≤ 8) := by
  unfold checkBoxID at h
  split at h
  · cases h
    exact Or.inl rfl
  · split at h
    · rename_i c0 c1
      split at h
      · rename_i hcol
        split at h
        · rename_i hrow
          cases h
          right
          have hmax : realMaxColumn = 73 := by decide
          rw [hmax] at hcol
          refine ⟨hcol.1, hcol.2, ?_⟩
          simp only [toSizeT]
          omega
        · cases h
      · cases h
    · cases h

theorem securedInputBoxLoop_valid :
    ∀ (fuel : Nat) (boxID : List Char) (console console1 : Console) (box : box_t),
      securedInputBoxLoop fuel boxID console = .ok (box, console1) →
      box = cancellingBoxInputCode ∨ (65 ≤ box.1 ∧ box.1 ≤ 73 ∧ box.2 ≤ 8) := by
  intro fuel
  induction fuel with
  | zero =>
    intro boxID console console1 box h
    rw [securedInputBoxLoop] at h
    cases h
  | succ fuel ih =>
    intro boxID console console1 box h
    rw [securedInputBoxLoop] at h
    split at h
    · rename_i b hb
      cases h
      exact checkBoxID_valid _ _ hb
    · exact ih _ _ _ _ h

theorem securedInputBox_valid (console console1 : Console) (box : box_t)
    (h : securedInputBox console = .ok (box, console1)) :
    box = cancellingBoxInputCode ∨ (65 ≤ box.1 ∧ box.1 ≤ 73 ∧ box.2 ≤ 8) :=
  securedInputBoxLoop_valid _ _ _ _ _ h

theorem toArrayIndex_valid (box : box_t) (h : 65 ≤ box.1 ∧ box.1 ≤ 73 ∧ box.2 ≤ 8) :
    toArrayIndex box.1 box.2 < nBoxes := by
  obtain ⟨column, line⟩ := box
  obtain ⟨h1, h2, h3⟩ := h
  simp only at h1 h2 h3
  have e1 : (column - 65) % 18446744073709551616 = column - 65 :=
    Int.emod_eq_of_lt (by omega) (by omega)
  have e2 : line * 9 % 18446744073709551616 = line * 9 := Nat.mod_eq_of_lt (by omega)
  have e3 : (line * 9 + (column - 65).toNat) % 18446744073709551616 =
      line * 9 + (column - 65).toNat := Nat.mod_eq_of_lt (by omega)
  simp only [toArrayIndex, toSizeT, gridSize, sizeMod, nBoxes, e1, e2, e3]
  omega

theorem setValue_frame (grid grid2 : grid_t) (index : Nat) (value : Option Nat) (target : Box)
    (hread : readBox grid index = .ok target) (hfree : target.isConstant = false)
    (h : setValue grid index value = .ok grid2) :
    ∀ i, ((grid i).isConstant = true → grid2 i = grid i) ∧
      (grid2 i).isConstant = (grid i).isConstant := by
  intro i
  unfold setValue at h
  unfold readBox at hread
  split at h
  · rename_i hlt
    rw [dif_pos hlt] at hread
    cases hread
    cases h
    by_cases hi : i = ⟨index, hlt⟩
    · subst hi
      simp [grid_t.set, hfree]
    · simp [grid_t.set, hi]
  · cases h

theorem editBoxLoop_frame :
    ∀ (fuel : Nat) (grid grid2 : grid_t) (console console2 : Console),
      editBoxLoop fuel grid console = .ok (grid2, console2) →
      ∀ i, ((grid i).isConstant = true → grid2 i = grid i) ∧
        (grid2 i).isConstant = (grid i).isConstant := by
  intro fuel
  induction fuel with
  | zero =>
    intro grid grid2 console console2 h
    rw [editBoxLoop] at h
    cases h
  | succ fuel ih =>
    intro grid grid2 console console2 h
    rw [editBoxLoop] at h
    split at h
    · cases h
    · split at h
      · cases h
        exact fun i => ⟨fun _ => rfl, rfl⟩
      · split at h
        · cases h
        · rename_i target htarget
          split at h
          · exact ih _ _ _ _ h
          · rename_i hfree
            split at h
            · cases h
            · split at h
              · cases h
              · rename_i g hg
                cases h
                exact setValue_frame grid _ _ _ target htarget (by simpa using hfree) hg

theorem eraseBoxLoop_frame :
    ∀ (fuel : Nat) (grid grid2 : grid_t) (console console2 : Console),
      eraseBoxLoop fuel grid console = .ok (grid2, console2) →
      ∀ i, ((grid i).isConstant = true → grid2 i = grid i) ∧
        (grid2 i).isConstant = (grid i).isConstant := by
  intro fuel
  induction fuel with
  | zero =>
    intro grid grid2 console console2 h
    rw [eraseBoxLoop] at h
    cases h
  | succ fuel ih =>
    intro grid grid2 console console2 h
    rw [eraseBoxLoop] at h
    split at h
    · cases h
    · split at h
      · cases h
        exact fun i => ⟨fun _ => rfl, rfl⟩
      · split at h
        · cases h
        · rename_i target htarget
          split at h
          · exact ih _ _ _ _ h
          · rename_i hfree
            split at h
            · cases h
            · rename_i g hg
              cases h
              exact setValue_frame grid _ _ _ target htarget (by simpa using hfree) hg

theorem editStep_frame (grid grid2 : grid_t) (h : EditStep grid grid2) :
    ∀ i, ((grid i).isConstant = true → grid2 i = grid i) ∧
      (grid2 i).isConstant = (grid i).isConstant := by
  obtain ⟨console, console2, h1 | h1⟩ := h
  · exact editBoxLoop_frame _ _ _ _ _ h1
  · exact eraseBoxLoop_frame _ _ _ _ _ h1

theorem editSteps_frame (grid grid2 : grid_t) (h : Relation.ReflTransGen EditStep grid grid2) :
    ∀ i, ((grid i).isConstant = true → grid2 i = grid i) ∧
      (grid2 i).isConstant = (grid i).isConstant := by
  induction h with
  | refl => exact fun i => ⟨fun _ => rfl, rfl⟩
  | tail _ hstep ih =>
    intro i
    obtain ⟨h1, h2⟩ := ih i
    obtain ⟨h3, h4⟩ := editStep_frame _ _ hstep i
    refine ⟨fun hc => ?_, by rw [h4, h2]⟩
    rw [h3 (by rw [h2]; exact hc), h1 hc]

theorem readBox_boxAt (grid : grid_t) (index : Nat) (h : index < nBoxes) :
    readBox grid index = .ok (boxAt grid index) := by
  simp only [readBox, boxAt, h, dite_true]

theorem securedInputIntLoop_error (lo hi : Int) :
    ∀ (fuel : Nat) (value : Int) (cin : IStream) (e : Error),
      securedInputIntLoop lo hi fuel value cin = .error e → e = .endOfInput := by
  intro fuel
  induction fuel with
  | zero =>
    intro value cin e h
    rw [securedInputIntLoop] at h
    cases h
    rfl
  | succ fuel ih =>
    intro value cin e h
    rw [securedInputIntLoop] at h
    split at h
    · cases h
    · exact ih _ _ _ h

theorem securedInputBoxLoop_error :
    ∀ (fuel : Nat) (boxID : List Char) (console : Console) (e : Error),
      securedInputBoxLoop fuel boxID console = .error e → e = .endOfInput := by
  intro fuel
  induction fuel with
  | zero =>
    intro boxID console e h
    rw [securedInputBoxLoop] at h
    cases h
    rfl
  | succ fuel ih =>
    intro boxID console e h
    rw [securedInputBoxLoop] at h
    split at h
    · cases h
    · exact ih _ _ _ h

theorem setValue_ok (grid : grid_t) (index : Nat) (value : Option Nat) (h : index < nBoxes) :
    ∃ grid2, setValue grid index value = .ok grid2 := by
  simp only [setValue, h, dite_true]
  exact ⟨_, rfl⟩

theorem editBoxLoop_error :
    ∀ (fuel : Nat) (grid : grid_t) (console : Console) (e : Error),
      editBoxLoop fuel grid console = .error e → e = .endOfInput := by
  intro fuel
  induction fuel with
  | zero =>
    intro grid console e h
    rw [editBoxLoop] at h
    cases h
    rfl
  | succ fuel ih =>
    intro grid console e h
    rw [editBoxLoop] at h
    cases hbox : securedInputBox console with
    | error err =>
      simp only [hbox] at h
      cases h
      exact securedInputBoxLoop_error _ _ _ _ hbox
    | ok res =>
      obtain ⟨box, console1⟩ := res
      simp only [hbox] at h
      split at h
      · cases h
      · rename_i hcancel
        have hvalid := (securedInputBox_valid console console1 box hbox).resolve_left hcancel
        have hidx := toArrayIndex_valid box hvalid
        rw [readBox_boxAt grid _ hidx] at h
        simp only at h
        split at h
        · exact ih _ _ _ h
        · cases hin : securedInputInt 1 9 console1.cin with
          | error err =>
            simp only [hin] at h
            cases h
            exact securedInputIntLoop_error _ _ _ _ _ _ hin
          | ok res2 =>
            obtain ⟨value, cin2⟩ := res2
            obtain ⟨g, hg⟩ := setValue_ok grid _ (some (toSizeT value)) hidx
            simp only [hin, hg] at h
            cases h

theorem eraseBoxLoop_error :
    ∀ (fuel : Nat) (grid : grid_t) (console : Console) (e : Error),
      eraseBoxLoop fuel grid console = .error e → e = .endOfInput := by
  intro fuel
  induction fuel with
  | zero =>
    intro grid console e h
    rw [eraseBoxLoop] at h
    cases h
    rfl
  | succ fuel ih =>
    intro grid console e h
    rw [eraseBoxLoop] at h
    cases hbox : securedInputBox console with
    | error err =>
      simp only [hbox] at h
      cases h
      exact securedInputBoxLoop_error _ _ _ _ hbox
    | ok res =>
      obtain ⟨box, console1⟩ := res
      simp only [hbox] at h
      split at h
      · cases h
      · rename_i hcancel
        have hvalid := (securedInputBox_valid console console1 box hbox).resolve_left hcancel
        have hidx := toArrayIndex_valid box hvalid
        rw [readBox_boxAt grid _ hidx] at h
        simp only at h
        split at h
        · exact ih _ _ _ h
        · obtain ⟨g, hg⟩ := setValue_ok grid _ none hidx
          simp only [hg] at h
          cases h

/-- With at least as many rounds as `editBox` allows, the loop of `editBox`
gives the result of `editBox`. -/
theorem editBoxLoop_eq_editBox (grid : grid_t) (console : Console) (more : Nat) :
    editBoxLoop (console.cin.rest.length + 1 + more) grid console = editBox grid console := by
  cases h : editBox grid console with
  | ok r => exact editBoxLoop_mono grid console r more _ h
  | error e =>
    have he := editBoxLoop_error _ _ _ _ h
    subst he
    cases h2 : editBoxLoop (console.cin.rest.length + 1 + more) grid console with
    | ok r =>
      have := editBoxLoop_fuel _ _ _ _ h2
      unfold editBox at h
      rw [h] at this
      cases this
    | error e2 => rw [editBoxLoop_error _ _ _ _ h2]

/-- With at least as many rounds as `eraseBox` allows, the loop of `eraseBox`
gives the result of `eraseBox`. -/
theorem eraseBoxLoop_eq_eraseBox (grid : grid_t) (console : Console) (more : Nat) :
    eraseBoxLoop (console.cin.rest.length + 1 + more) grid console = eraseBox grid console := by
  cases h : eraseBox grid console with
  | ok r => exact eraseBoxLoop_mono grid console r more _ h
  | error e =>
    have he := eraseBoxLoop_error _ _ _ _ h
    subst he
    cases h2 : eraseBoxLoop (console.cin.rest.length + 1 + more) grid console with
    | ok r =>
      have := eraseBoxLoop_fuel _ _ _ _ h2
      unfold eraseBox at h
      rw [h] at this
      cases this
    | error e2 => rw [eraseBoxLoop_error _ _ _ _ h2]

/-- C5. Edit and erase are forbidden on constant boxes.  When
`securedInputBox` returns a box other than the cancelling code (an accepted
coordinate) and the box of the grid at that coordinate is constant, `editBox`,
and `eraseBox`, writes its line `Cannot edit ...` or `Cannot erase ...` to
`std::cerr` and then behaves as a new call on the same grid and the rest of the
input: it prompts again, nothing is thrown and no box is changed by the
attempt.  And whatever sequence of calls of `editBox` and `eraseBox` leads
from `grid` to `grid2`, every box that is constant in `grid` is the same box
in `grid2`. -/
theorem edit_erase_constant_box (grid : grid_t) (console console1 : Console) (box : box_t)
    (hbox : securedInputBox console = .ok (box, console1))
    (hcancel : box ≠ cancellingBoxInputCode)
    (hconst : (boxAt grid (toArrayIndex box.1 box.2)).isConstant = true)
    (grid2 : grid_t) (hseq : Relation.ReflTransGen EditStep grid grid2) :
    editBox grid console =
        editBox grid
          { console1 with cerr := console1.cerr ++ [constantBoxMessage "edit" box] } ∧
      eraseBox grid console =
        eraseBox grid
          { console1 with cerr := console1.cerr ++ [constantBoxMessage "erase" box] } ∧
      ∀ i, (grid i).isConstant = true → grid2 i = grid i := by
  have hvalid := (securedInputBox_valid console console1 box hbox).resolve_left hcancel
  have hread := readBox_boxAt grid _ (toArrayIndex_valid box hvalid)
  have hlt := securedInputBox_consumes console console1 box hbox
  have e : console.cin.rest.length =
      console1.cin.rest.length + 1 + (console.cin.rest.length - (console1.cin.rest.length + 1)) := by
    omega
  refine ⟨?_, ?_, fun i => (editSteps_frame grid grid2 hseq i).1⟩
  · have h1 := editBoxLoop_eq_editBox grid
      { console1 with cerr := console1.cerr ++ [constantBoxMessage "edit" box] }
      (console.cin.rest.length - (console1.cin.rest.length + 1))
    simp only at h1
    rw [← e] at h1
    rw [← h1, editBox, editBoxLoop]
    simp only [hbox, hcancel, if_false, hread, hconst, if_true]
  · have h1 := eraseBoxLoop_eq_eraseBox grid
      { console1 with cerr := console1.cerr ++ [constantBoxMessage "erase" box] }
      (console.cin.rest.length - (console1.cin.rest.length + 1))
    simp only at h1
    rw [← e] at h1
    rw [← h1, eraseBox, eraseBoxLoop]
    simp only [hbox, hcancel, if_false, hread, hconst, if_true]

theorem erase_example :
    eraseBox exampleGrid { cin := { rest := "\nB0\n".toList } } =
      .ok (erasedGrid, { cin := { rest := [] } }) := by
  rfl

/-- A witness for C5: the box A0 of the example grid is constant, the line
`A0` is entered, and the sequence of edits is one call of `eraseBox` that
erases B0. -/
theorem edit_erase_constant_box_witness :
    editBox exampleGrid { cin := { rest := "\nA0\n\nB0\n7\n".toList } } =
        editBox exampleGrid
          { cin := { rest := "\nB0\n7\n".toList },
            cerr := [] ++ [constantBoxMessage "edit" (65, 0)] } ∧
      eraseBox exampleGrid { cin := { rest := "\nA0\n\nB0\n7\n".toList } } =
        eraseBox exampleGrid
          { cin := { rest := "\nB0\n7\n".toList },
            cerr := [] ++ [constantBoxMessage "erase" (65, 0)] } ∧
      ∀ i, (exampleGrid i).isConstant = true → erasedGrid i = exampleGrid i :=
  edit_erase_constant_box exampleGrid { cin := { rest := "\nA0\n\nB0\n7\n".toList } }
    { cin := { rest := "\nB0\n7\n".toList } } (65, 0) (by decide) (by decide) (by decide)
    erasedGrid (Relation.ReflTransGen.single ⟨_, _, Or.inr erase_example⟩)

/-! ## The invariant of constant boxes -/

theorem openLevelLine_inv (r : Nat) :
    ∀ (line : List Char) (columnID : Nat) (grid grid2 : grid_t),
      (∀ i, (grid i).constantHasValue) → openLevelLine r line columnID grid = .ok grid2 →
      ∀ i, (grid2 i).constantHasValue := by
  intro line
  induction line with
  | nil =>
    intro columnID grid grid2 hinv h
    rw [openLevelLine] at h
    cases h
    exact hinv
  | cons c rest ih =>
    intro columnID grid grid2 hinv h
    rw [openLevelLine] at h
    split at h
    · refine ih _ _ _ ?_ h
      intro i
      unfold grid_t.set
      split
      · unfold Box.constantHasValue
        by_cases hc : c = ' '
        · simp [hc]
        · simp [hc]
      · exact hinv i
    · cases h

theorem openLevelLines_inv :
    ∀ (count r : Nat) (level : IStream) (grid grid2 : grid_t),
      (∀ i, (grid i).constantHasValue) → openLevelLines count r level grid = .ok grid2 →
      ∀ i, (grid2 i).constantHasValue := by
  intro count
  induction count with
  | zero =>
    intro r level grid grid2 hinv h
    rw [openLevelLines] at h
    cases h
    exact hinv
  | succ count ih =>
    intro r level grid grid2 hinv h
    rw [openLevelLines] at h
    split at h
    · cases h
    · rename_i g hg
      exact ih _ _ _ _ (openLevelLine_inv r _ _ _ _ hinv hg) h

theorem writtenBox_inv (sol : Bool) (b : Box) (h : writtenBox sol b) : b.constantHasValue := by
  rcases h with h | ⟨v, h | h⟩ <;> rw [h] <;> intro hc
  · cases hc
  · rfl
  · rfl

theorem loadFileData_inv (path : String) (content : List Char) (grid grid2 : grid_t)
    (colours colours2 : Colours) (hinv : ∀ i, (grid i).constantHasValue)
    (h : loadFileData path content grid colours = .ok (grid2, colours2)) :
    ∀ i, (grid2 i).constantHasValue := by
  intro i
  rcases loadFileData_written path content grid grid2 colours colours2 h i with h1 | h1
  · rw [h1]
    exact hinv i
  · exact writtenBox_inv _ _ h1

theorem frame_inv (grid grid2 : grid_t) (hinv : ∀ i, (grid i).constantHasValue)
    (h : ∀ i, ((grid i).isConstant = true → grid2 i = grid i) ∧
      (grid2 i).isConstant = (grid i).isConstant) :
    ∀ i, (grid2 i).constantHasValue := by
  intro i hc
  obtain ⟨h1, h2⟩ := h i
  rw [h2] at hc
  rw [h1 hc]
  exact hinv i hc

theorem retryLevel_inv (grid grid2 : grid_t) (console console2 : Console)
    (hinv : ∀ i, (grid i).constantHasValue)
    (h : retryLevel grid console = .ok (grid2, console2)) :
    ∀ i, (grid2 i).constantHasValue := by
  unfold retryLevel at h
  split at h
  · cases h
  · split at h
    · cases h
      exact hinv
    · cases h
      intro i hc
      unfold resetEditable at hc ⊢
      cases hconst : (grid i).isConstant with
      | false => simp [hconst] at hc
      | true =>
        simp only [hconst, Bool.not_true, Bool.false_eq_true, if_false]
        exact hinv i hconst

/-- C4. Fixed-cell invariant: in every grid of a session, that is the grid
`openLevel` returns and every grid reached from it by calls of `editBox`,
`eraseBox`, `retryLevel` (confirmed or declined), `loadFileData` (the load of
a save file) and `loadSolution` that return, every box whose `isConstant`
flag is true holds a value. -/
theorem constant_boxes_hold_values (grid : grid_t) (h : Reachable grid) :
    ∀ i, (grid i).isConstant = true → (grid i).value.isSome = true := by
  induction h with
  | fromLevel content grid hopen =>
    exact openLevelLines_inv _ _ _ _ _ (fun i hc => by cases hc) hopen
  | afterEdit grid grid2 console console2 _ hedit ih =>
    exact frame_inv grid grid2 ih (editBoxLoop_frame _ _ _ _ _ hedit)
  | afterErase grid grid2 console console2 _ herase ih =>
    exact frame_inv grid grid2 ih (eraseBoxLoop_frame _ _ _ _ _ herase)
  | afterRetry grid grid2 console console2 _ hretry ih =>
    exact retryLevel_inv grid grid2 console console2 ih hretry
  | afterLoad grid grid2 path content colours colours2 _ hload ih =>
    exact loadFileData_inv path content grid grid2 colours colours2 ih hload
  | afterSolution grid grid2 currentPath content levelID _ hload ih =>
    unfold loadSolution at hload
    split at hload
    · cases hload
    · rename_i g c hg
      cases hload
      exact loadFileData_inv _ content grid _ _ c ih hg

theorem open_example : openLevel levelText = .ok levelGrid := by
  rfl

theorem edit_example :
    editBox levelGrid { cin := { rest := "\nB0\n7\n".toList } } =
      .ok (levelEdited, { cin := { rest := ['\n'] } }) := by
  rfl

theorem levelEdited_reachable : Reachable levelEdited :=
  Reachable.afterEdit levelGrid levelEdited _ _
    (Reachable.fromLevel levelText levelGrid open_example) edit_example

/-- A witness for C4: the grid `openLevel` builds from `levelText`, after an
edit of the box B0. -/
theorem constant_boxes_hold_values_witness :
    Reachable levelEdited ∧
      ∀ i, (levelEdited i).isConstant = true → (levelEdited i).value.isSome = true :=
  ⟨levelEdited_reachable, constant_boxes_hold_values levelEdited levelEdited_reachable⟩

/-! ## Grid indexing -/

theorem toArrayIndex_valid_eq (column : Int) (line : Nat) (hc : 65 ≤ column ∧ column ≤ 73)
    (hl : line ≤ 8) : toArrayIndex column line = line * 9 + (column - 65).toNat := by
  obtain ⟨h1, h2⟩ := hc
  have e1 : (column - 65) % 18446744073709551616 = column - 65 :=
    Int.emod_eq_of_lt (by omega) (by omega)
  have e2 : line * 9 % 18446744073709551616 = line * 9 := Nat.mod_eq_of_lt (by omega)
  have e3 : (line * 9 + (column - 65).toNat) % 18446744073709551616 =
      line * 9 + (column - 65).toNat := Nat.mod_eq_of_lt (by omega)
  simp only [toArrayIndex, toSizeT, gridSize, sizeMod, e1, e2, e3]

/-- C16. Grid indexing: `toArrayIndex(column, line)` is
`line * 9 + (column - 'A')` (computed in `std::size_t`, that is modulo
`2 ^ 64`, and exactly for a column in `'A'..'I'` and a line in `0..8`); on
these columns and lines it is below 81, two coordinates with the same index
are the same coordinate, and every index below 81 is the index of a
coordinate: a bijection onto the indices of the 81 boxes. -/
theorem toArrayIndex_bijection (column : Int) (line : Nat) (hc : 65 ≤ column ∧ column ≤ 73)
    (hl : line ≤ 8) (column2 : Int) (line2 : Nat) (hc2 : 65 ≤ column2 ∧ column2 ≤ 73)
    (hl2 : line2 ≤ 8) (i : Nat) (hi : i < nBoxes) :
    (∀ (c : Int) (l : Nat),
      ((toArrayIndex c l : Nat) : Int) = ((l * 9 : Nat) + (c - 65)) % 18446744073709551616) ∧
    ((toArrayIndex column line : Nat) : Int) = (line * 9 : Nat) + (column - 65) ∧
    toArrayIndex column line < nBoxes ∧
    (toArrayIndex column line = toArrayIndex column2 line2 → column = column2 ∧ line = line2) ∧
    ∃ (c : Int) (l : Nat), (65 ≤ c ∧ c ≤ 73) ∧ l ≤ 8 ∧ toArrayIndex c l = i := by
  have hn := nBoxes_eq
  have e1 := toArrayIndex_valid_eq column line hc hl
  have e2 := toArrayIndex_valid_eq column2 line2 hc2 hl2
  refine ⟨?_, ?_, ?_, ?_, ?_⟩
  · intro c l
    simp only [toArrayIndex, toSizeT, gridSize, sizeMod]
    omega
  · rw [e1]
    omega
  · rw [e1]
    omega
  · intro h
    rw [e1, e2] at h
    omega
  · refine ⟨65 + ((i % 9 : Nat) : Int), i / 9, by omega, by omega, ?_⟩
    rw [toArrayIndex_valid_eq _ _ (by omega) (by omega)]
    omega

/-- A witness for C16: the coordinates D2 and B7, and the index 80. -/
theorem toArrayIndex_bijection_witness :
    (∀ (c : Int) (l : Nat),
      ((toArrayIndex c l : Nat) : Int) = ((l * 9 : Nat) + (c - 65)) % 18446744073709551616) ∧
    ((toArrayIndex 68 2 : Nat) : Int) = ((2 * 9 : Nat) : Int) + (68 - 65) ∧
    toArrayIndex 68 2 < nBoxes ∧
    (toArrayIndex 68 2 = toArrayIndex 66 7 → (68 : Int) = 66 ∧ 2 = 7) ∧
    ∃ (c : Int) (l : Nat), (65 ≤ c ∧ c ≤ 73) ∧ l ≤ 8 ∧ toArrayIndex c l = 80 :=
  toArrayIndex_bijection 68 2 (by decide) (by decide) 66 7 (by decide) (by decide) 80
    (by decide)

/-- C19, on the code: `toGridIndexes` is not the inverse of `toArrayIndex`.
It returns the quotient by 9 as the column and the remainder as the line, so
that the index 1 is sent to the coordinate A1, whose index is 9, and the
coordinate B0, of index 1, comes back as A1. -/
theorem toGridIndexes_not_inverse :
    toGridIndexes 1 = (65, 1) ∧
      toArrayIndex (toGridIndexes 1).1 (toGridIndexes 1).2 = 9 ∧
      toArrayIndex 66 0 = 1 ∧ toGridIndexes (toArrayIndex 66 0) = (65, 1) := by
  decide

theorem toArrayIndex_toGridIndexes (i : Nat) (hi : i < nBoxes) :
    toArrayIndex (toGridIndexes i).1 (toGridIndexes i).2 = i % 9 * 9 + i / 9 := by
  have hn := nBoxes_eq
  have e : toChar (((65 + i / 9) % sizeMod : Nat) : Int) = 65 + ((i / 9 : Nat) : Int) := by
    simp only [toChar, sizeMod]
    omega
  simp only [toGridIndexes, gridSize, e]
  rw [toArrayIndex_valid_eq _ _ (by omega) (by omega)]
  omega

/-! ## Box coordinates -/

theorem char_le_iff (a b : Char) : a ≤ b ↔ a.toNat ≤ b.toNat := by
  simp [Char.le_def, UInt32.le_def, BitVec.le_def, Char.toNat, UInt32.toNat]

theorem charCode_byte (c : Char) (h : c.toNat < 256) (lo hi : Nat) (hhi : hi ≤ 127) :
    ((lo : Int) ≤ charCode c ∧ charCode c ≤ (hi : Int)) ↔ (lo ≤ c.toNat ∧ c.toNat ≤ hi) := by
  simp only [charCode, toChar]
  omega

theorem charCode_small (c : Char) (h : c.toNat ≤ 127) : charCode c = (c.toNat : Int) := by
  simp only [charCode, toChar]
  omega

theorem realMaxColumn_eq : realMaxColumn = 73 := by
  decide

/-- The answer of one round of `securedInputBox` to a line of two characters
that is a column letter followed by a line digit. -/
theorem checkBoxID_accepts (c0 c1 : Char) (h0 : 'A' ≤ c0 ∧ c0 ≤ 'I')
    (h1 : '0' ≤ c1 ∧ c1 ≤ '8') :
    checkBoxID [c0, c1] = .ok ((c0.toNat : Int), c1.toNat - 48) := by
  rw [char_le_iff, char_le_iff] at h0 h1
  have a0 : ('A' : Char).toNat = 65 := rfl
  have a1 : ('I' : Char).toNat = 73 := rfl
  have a2 : ('0' : Char).toNat = 48 := rfl
  have a3 : ('8' : Char).toNat = 56 := rfl
  rw [a0, a1] at h0
  rw [a2, a3] at h1
  have e0 := charCode_small c0 (by omega)
  have e1 := charCode_small c1 (by omega)
  have hne : [c0, c1] ≠ ['0'] := by simp
  have hcol : 65 ≤ (c0.toNat : Int) ∧ (c0.toNat : Int) ≤ 73 := by omega
  have hrow : 48 ≤ (c1.toNat : Int) ∧ (c1.toNat : Int) ≤ 56 := by omega
  have hval : toSizeT ((c1.toNat : Int) - 48) = c1.toNat - 48 := by
    simp only [toSizeT]
    omega
  simp only [checkBoxID, hne, if_false, e0, e1, realMaxColumn_eq, hcol, hrow, and_self, if_true,
    hval]

/-- The answer of one round of `securedInputBox` to any other line than `0`
and a column letter followed by a line digit. -/
theorem checkBoxID_rejects (line : List Char) (hbytes : ∀ c ∈ line, c.toNat < 256)
    (hzero : line ≠ ['0'])
    (hother : ¬ ∃ c0 c1, line = [c0, c1] ∧ ('A' ≤ c0 ∧ c0 ≤ 'I') ∧ ('0' ≤ c1 ∧ c1 ≤ '8')) :
    ∃ messages, messages ≠ [] ∧ checkBoxID line = .error messages := by
  unfold checkBoxID
  rw [if_neg hzero]
  split
  · rename_i c0 c1
    have b0 : c0.toNat < 256 := hbytes c0 (by simp)
    have b1 : c1.toNat < 256 := hbytes c1 (by simp)
    have k0 := charCode_byte c0 b0 65 73 (by omega)
    have k1 := charCode_byte c1 b1 48 56 (by omega)
    rw [realMaxColumn_eq]
    split
    · rename_i hcol
      split
      · rename_i hrow
        exfalso
        apply hother
        refine ⟨c0, c1, rfl, ?_, ?_⟩
        · rw [char_le_iff, char_le_iff]
          exact k0.mp hcol
        · rw [char_le_iff, char_le_iff]
          exact k1.mp hrow
      · exact ⟨_, by simp, rfl⟩
    · exact ⟨_, by simp, rfl⟩
  · exact ⟨_, by simp, rfl⟩

/-- C11. Box-coordinate validation, for the line one round of the loop of
`securedInputBox` reads (a line of characters of one byte each).  The line
`0` makes `securedInputBox` return the cancelling code.  A line of two
characters, a column letter `'A'..'I'` followed by a line digit `'0'..'8'`,
makes it return that letter and the numeric value of the digit.  Every other
line is rejected: lines are written to `std::cerr` and the loop goes to its
next round, which prompts again.  The cancelling code is not a coordinate any
line is accepted with. -/
theorem securedInputBox_validation (fuel : Nat) (boxID : List Char) (console : Console)
    (line : List Char) (hline : (console.cin.getline boxID).1 = line)
    (hbytes : ∀ c ∈ line, c.toNat < 256) :
    (line = ['0'] →
      securedInputBoxLoop (fuel + 1) boxID console =
        .ok (cancellingBoxInputCode, { console with cin := (console.cin.getline boxID).2 })) ∧
    (∀ c0 c1, line = [c0, c1] → ('A' ≤ c0 ∧ c0 ≤ 'I') → ('0' ≤ c1 ∧ c1 ≤ '8') →
      securedInputBoxLoop (fuel + 1) boxID console =
          .ok (((c0.toNat : Int), c1.toNat - 48),
            { console with cin := (console.cin.getline boxID).2 }) ∧
        ((c0.toNat : Int), c1.toNat - 48) ≠ cancellingBoxInputCode) ∧
    (line ≠ ['0'] →
      (¬ ∃ c0 c1, line = [c0, c1] ∧ ('A' ≤ c0 ∧ c0 ≤ 'I') ∧ ('0' ≤ c1 ∧ c1 ≤ '8')) →
      ∃ messages, messages ≠ [] ∧
        securedInputBoxLoop (fuel + 1) boxID console =
          securedInputBoxLoop fuel line
            { cin := (console.cin.getline boxID).2, cerr := console.cerr ++ messages }) := by
  refine ⟨?_, ?_, ?_⟩
  · intro h
    rw [securedInputBoxLoop, hline, h]
    rfl
  · intro c0 c1 h h0 h1
    refine ⟨?_, ?_⟩
    · rw [securedInputBoxLoop, hline, h]
      simp only [checkBoxID_accepts c0 c1 h0 h1]
    · intro hc
      have hfst := congrArg Prod.fst hc
      simp only [cancellingBoxInputCode] at hfst
      have := h0.2
      rw [char_le_iff] at this
      have a1 : ('I' : Char).toNat = 73 := rfl
      omega
  · intro hzero hother
    obtain ⟨messages, hne, hm⟩ := checkBoxID_rejects line hbytes hzero hother
    refine ⟨messages, hne, ?_⟩
    rw [securedInputBoxLoop, hline]
    simp only [hm]

/-- A witness for C11: the lines `0`, `B4` and `J2`. -/
theorem securedInputBox_validation_witness :
    securedInputBoxLoop (2 + 1) [] { cin := { rest := "0\n".toList } } =
        .ok (cancellingBoxInputCode, { cin := { rest := [] } }) ∧
      (securedInputBoxLoop (2 + 1) [] { cin := { rest := "B4\n".toList } } =
          .ok ((66, 4), { cin := { rest := [] } }) ∧
        ((66, 4) : box_t) ≠ cancellingBoxInputCode) ∧
      ∃ messages, messages ≠ [] ∧
        securedInputBoxLoop (2 + 1) [] { cin := { rest := "J2\nA0\n".toList } } =
          securedInputBoxLoop 2 "J2".toList
            { cin := { rest := "A0\n".toList }, cerr := [] ++ messages } :=
  ⟨(securedInputBox_validation 2 [] { cin := { rest := "0\n".toList } } "0".toList rfl
      (by decide)).1 rfl,
    (securedInputBox_validation 2 [] { cin := { rest := "B4\n".toList } } "B4".toList rfl
      (by decide)).2.1 'B' '4' rfl (by decide) (by decide),
    (securedInputBox_validation 2 [] { cin := { rest := "J2\nA0\n".toList } } "J2".toList rfl
      (by decide)).2.2 (by decide)
      (by
        rintro ⟨c0, c1, h, h0, -⟩
        cases h
        exact absurd h0.2 (by decide))⟩

/-! ## Access to the boxes -/

/-- C12, as stated, fails: the column `'J'` of line 0 has the index 9 of the
column `'A'` of line 1, the access is not refused, and decoding the file
`tenCells`, whose first line holds ten cells, stores the tenth cell in the
first box of line 1 (as `loadFileData` and as `openLevel`). -/
theorem guarded_access_counterexample :
    toArrayIndex 74 0 = 9 ∧ toArrayIndex 65 1 = 9 ∧
      readBox exampleGrid (toArrayIndex 74 0) = .ok (exampleGrid ⟨9, by decide⟩) ∧
      (loadFileData "C:/Sudoku/Saves/1.txt" tenCells emptyGrid {}).map
        (fun result => result.1 ⟨9, by decide⟩) = .ok { isConstant := false, value := some 0 } ∧
      (openLevel tenCells).map (fun g => g ⟨9, by decide⟩) =
        .ok { isConstant := true, value := some 0 } := by
  decide

/-- C12, amended. Access to the boxes is not guarded and raises no index
error: the box at (`column`, `line`) is the element
`toArrayIndex(column, line)` of the array whenever this index is below 81,
whatever the column and the line, so that the column `'J'` of line 0 is the
box of the column `'A'` of line 1.  The coordinates entered by the user are
checked before the access: `securedInputBox` returns the cancelling code or a
coordinate with a column in `'A'..'I'` and a line in `0..8`, whose index
`line * 9 + (column - 'A')` is below 81 and is the index of that box. -/
theorem unguarded_access (grid : grid_t) (column : Int) (line : Nat)
    (h : toArrayIndex column line < nBoxes) (console console1 : Console) (box : box_t)
    (hbox : securedInputBox console = .ok (box, console1))
    (hcancel : box ≠ cancellingBoxInputCode) :
    readBox grid (toArrayIndex column line) = .ok (grid ⟨toArrayIndex column line, h⟩) ∧
      toArrayIndex 74 0 = toArrayIndex 65 1 ∧
      ((65 ≤ box.1 ∧ box.1 ≤ 73) ∧ box.2 ≤ 8) ∧
      ∃ (hlt : box.2 * 9 + (box.1 - 65).toNat < nBoxes),
        readBox grid (toArrayIndex box.1 box.2) =
          .ok (grid ⟨box.2 * 9 + (box.1 - 65).toNat, hlt⟩) := by
  have hvalid := (securedInputBox_valid console console1 box hbox).resolve_left hcancel
  have hidx := toArrayIndex_valid_eq box.1 box.2 ⟨hvalid.1, hvalid.2.1⟩ hvalid.2.2
  have hlt := toArrayIndex_valid box hvalid
  rw [hidx] at hlt
  refine ⟨?_, by decide, ⟨⟨hvalid.1, hvalid.2.1⟩, hvalid.2.2⟩, hlt, ?_⟩
  · simp only [readBox, h, dite_true]
  · rw [hidx]
    simp only [readBox, hlt, dite_true]

/-- A witness for C12: the index 9 of the example grid, and the line `B4`
entered at the prompt. -/
theorem unguarded_access_witness :
    readBox exampleGrid (toArrayIndex 74 0) = .ok (exampleGrid ⟨toArrayIndex 74 0, by decide⟩) ∧
      toArrayIndex 74 0 = toArrayIndex 65 1 ∧
      (((65 : Int) ≤ 66 ∧ (66 : Int) ≤ 73) ∧ 4 ≤ 8) ∧
      ∃ (hlt : 4 * 9 + ((66 : Int) - 65).toNat < nBoxes),
        readBox exampleGrid (toArrayIndex 66 4) =
          .ok (exampleGrid ⟨4 * 9 + ((66 : Int) - 65).toNat, hlt⟩) :=
  unguarded_access exampleGrid 74 0 (by decide) { cin := { rest := "\nB4\n".toList } }
    { cin := { rest := [] } } (66, 4) (by decide) (by decide)

/-! ## The frame of edit and erase -/

theorem securedInputIntLoop_range (lo hi : Int) :
    ∀ (fuel : Nat) (value : Int) (cin : IStream) (r : Int × IStream),
      securedInputIntLoop lo hi fuel value cin = .ok r → lo ≤ r.1 ∧ r.1 ≤ hi := by
  intro fuel
  induction fuel with
  | zero =>
    intro value cin r h
    rw [securedInputIntLoop] at h
    cases h
  | succ fuel ih =>
    intro value cin r h
    rw [securedInputIntLoop] at h
    split at h
    · rename_i hin
      cases h
      exact hin
    · exact ih _ _ _ h

theorem toSizeT_digit (value : Int) (h : 1 ≤ value ∧ value ≤ 9) :
    toSizeT value = value.toNat := by
  simp only [toSizeT]
  omega

/-- C17. Frame of edit and erase.  When `securedInputBox` returns an accepted
coordinate (`column`, `line`) whose box is not constant, the index of the box
is `line * 9 + (column - 'A')`.  `editBox` then asks for a value: whenever
`securedInput(1, 9)` returns one, it is a digit in 1..9 and `editBox` returns
the grid in which this box holds that digit.  `eraseBox` asks for nothing
more and returns the grid in which this box is empty.  In both grids the
`isConstant` flag of the box and the 80 other boxes are as in the original
grid. -/
theorem edit_erase_frame (grid : grid_t) (console console1 : Console) (box : box_t)
    (hbox : securedInputBox console = .ok (box, console1))
    (hcancel : box ≠ cancellingBoxInputCode)
    (hfree : (boxAt grid (toArrayIndex box.1 box.2)).isConstant = false) :
    ∃ (h : box.2 * 9 + (box.1 - 65).toNat < nBoxes),
      toArrayIndex box.1 box.2 = box.2 * 9 + (box.1 - 65).toNat ∧
      (∀ (value : Int) (cin2 : IStream),
        securedInputInt 1 9 console1.cin = .ok (value, cin2) →
        (1 ≤ value ∧ value ≤ 9) ∧
        ∃ edited : grid_t,
          editBox grid console = .ok (edited, { console1 with cin := cin2 }) ∧
          (edited ⟨box.2 * 9 + (box.1 - 65).toNat, h⟩).value = some value.toNat ∧
          (edited ⟨box.2 * 9 + (box.1 - 65).toNat, h⟩).isConstant = false ∧
          (∀ i, i ≠ ⟨box.2 * 9 + (box.1 - 65).toNat, h⟩ → edited i = grid i)) ∧
      ∃ erased : grid_t,
        eraseBox grid console = .ok (erased, console1) ∧
        (erased ⟨box.2 * 9 + (box.1 - 65).toNat, h⟩).value = none ∧
        (erased ⟨box.2 * 9 + (box.1 - 65).toNat, h⟩).isConstant = false ∧
        (∀ i, i ≠ ⟨box.2 * 9 + (box.1 - 65).toNat, h⟩ → erased i = grid i) := by
  have hvalid := (securedInputBox_valid console console1 box hbox).resolve_left hcancel
  have hidx := toArrayIndex_valid_eq box.1 box.2 ⟨hvalid.1, hvalid.2.1⟩ hvalid.2.2
  have hlt := toArrayIndex_valid box hvalid
  rw [hidx] at hlt hfree
  have hread := readBox_boxAt grid _ hlt
  have hbx : boxAt grid (box.2 * 9 + (box.1 - 65).toNat) =
      grid ⟨box.2 * 9 + (box.1 - 65).toNat, hlt⟩ := by
    simp only [boxAt, hlt, dite_true]
  refine ⟨hlt, hidx, ?_, grid.set ⟨_, hlt⟩ { grid ⟨_, hlt⟩ with value := none }, ?_, ?_, ?_, ?_⟩
  · intro value cin2 hvalue
    have hrange := securedInputIntLoop_range 1 9 _ _ _ _ hvalue
    simp only at hrange
    refine ⟨hrange, grid.set ⟨_, hlt⟩ { grid ⟨_, hlt⟩ with value := some value.toNat },
      ?_, ?_, ?_, ?_⟩
    · rw [editBox, editBoxLoop]
      simp only [hbox, hcancel, if_false, hidx, hread, hfree, Bool.false_eq_true, hvalue,
        setValue, hlt, dite_true, toSizeT_digit value hrange]
    · simp [grid_t.set]
    · rw [hbx] at hfree
      simp [grid_t.set, hfree]
    · intro i hi
      simp [grid_t.set, hi]
  · rw [eraseBox, eraseBoxLoop]
    simp only [hbox, hcancel, if_false, hidx, hread, hfree, Bool.false_eq_true, setValue,
      hlt, dite_true]
  · simp [grid_t.set]
  · rw [hbx] at hfree
    simp [grid_t.set, hfree]
  · intro i hi
    simp [grid_t.set, hi]

/-- A witness for C17: the box B0 of `levelEdited`, which holds 7 and is not
constant, edited with the digit 4 and erased. -/
theorem edit_erase_frame_witness :
    ∃ (h : (0 : Nat) * 9 + ((66 : Int) - 65).toNat < nBoxes) (edited erased : grid_t),
      (levelEdited ⟨0 * 9 + ((66 : Int) - 65).toNat, h⟩).value = some 7 ∧
      toArrayIndex 66 0 = 0 * 9 + ((66 : Int) - 65).toNat ∧
      editBox levelEdited { cin := { rest := "\nB0\n4\n".toList } } =
        .ok (edited, { cin := { rest := ['\n'] } }) ∧
      (edited ⟨0 * 9 + ((66 : Int) - 65).toNat, h⟩).value = some (4 : Int).toNat ∧
      (edited ⟨0 * 9 + ((66 : Int) - 65).toNat, h⟩).isConstant = false ∧
      (∀ i, i ≠ ⟨0 * 9 + ((66 : Int) - 65).toNat, h⟩ → edited i = levelEdited i) ∧
      eraseBox levelEdited { cin := { rest := "\nB0\n4\n".toList } } =
        .ok (erased, { cin := { rest := "4\n".toList } }) ∧
      (erased ⟨0 * 9 + ((66 : Int) - 65).toNat, h⟩).value = none ∧
      (erased ⟨0 * 9 + ((66 : Int) - 65).toNat, h⟩).isConstant = false ∧
      (∀ i, i ≠ ⟨0 * 9 + ((66 : Int) - 65).toNat, h⟩ → erased i = levelEdited i) := by
  obtain ⟨h, hidx, hedit, erased, herase⟩ :=
    edit_erase_frame levelEdited { cin := { rest := "\nB0\n4\n".toList } }
      { cin := { rest := "4\n".toList } } (66, 0) (by decide) (by decide) (by decide)
  obtain ⟨-, edited, h1, h2, h3, h4⟩ := hedit 4 { rest := ['\n'] } (by decide)
  exact ⟨h, edited, erased, rfl, hidx, h1, h2, h3, h4, herase⟩

/-! ## The range of the values -/

theorem cellOf_some (sol : Bool) (lines : List (List Token)) (r i : Nat) (b : Box)
    (h : cellOf sol lines r i = some b) : ∃ t : Token, b = t.box sol := by
  unfold cellOf at h
  split at h
  · simp only [Option.bind_eq_some, Option.map_eq_some'] at h
    obtain ⟨l, -, t, -, ht⟩ := h
    exact ⟨t, ht.symm⟩
  · cases h

theorem token_box_digit (sol : Bool) (t : Token) (v : Nat) (h : (t.box sol).value = some v) :
    v ≤ 9 := by
  cases t with
  | blank => cases h
  | plain d =>
    simp only [Token.box, Option.some.injEq] at h
    omega
  | fixed d =>
    simp only [Token.box, Option.some.injEq] at h
    omega

theorem placeRows_digits (sol : Bool) (lines : List (List Token)) (r : Nat) (grid : grid_t)
    (hl : ∀ l ∈ lines, l.length ≤ 9) (hgrid : digitValues grid) :
    digitValues (placeRows sol grid r lines) := by
  intro i v hv
  rw [placeRows_apply sol lines r grid i hl] at hv
  cases hc : cellOf sol lines r i.val with
  | none =>
    rw [hc] at hv
    exact hgrid i v hv
  | some b =>
    rw [hc] at hv
    obtain ⟨t, rfl⟩ := cellOf_some sol lines r i.val b hc
    exact token_box_digit sol t v hv

theorem setValue_digits (grid grid2 : grid_t) (index : Nat) (value : Option Nat)
    (hvalue : ∀ v, value = some v → v ≤ 9) (hgrid : digitValues grid)
    (h : setValue grid index value = .ok grid2) : digitValues grid2 := by
  unfold setValue at h
  split at h
  · rename_i hlt
    cases h
    intro i v hv
    unfold grid_t.set at hv
    split at hv
    · exact hvalue v hv
    · exact hgrid i v hv
  · cases h

theorem editBoxLoop_digits :
    ∀ (fuel : Nat) (grid grid2 : grid_t) (console console2 : Console), digitValues grid →
      editBoxLoop fuel grid console = .ok (grid2, console2) → digitValues grid2 := by
  intro fuel
  induction fuel with
  | zero =>
    intro grid grid2 console console2 _ h
    rw [editBoxLoop] at h
    cases h
  | succ fuel ih =>
    intro grid grid2 console console2 hgrid h
    rw [editBoxLoop] at h
    split at h
    · cases h
    · split at h
      · cases h
        exact hgrid
      · split at h
        · cases h
        · split at h
          · exact ih _ _ _ _ hgrid h
          · split at h
            · cases h
            · rename_i value cin2 hin
              have hrange := securedInputIntLoop_range 1 9 _ _ _ _ hin
              simp only at hrange
              split at h
              · cases h
              · rename_i g hg
                cases h
                refine setValue_digits grid _ _ _ ?_ hgrid hg
                intro v hv
                rw [toSizeT_digit value hrange] at hv
                cases hv
                omega

theorem eraseBoxLoop_digits :
    ∀ (fuel : Nat) (grid grid2 : grid_t) (console console2 : Console), digitValues grid →
      eraseBoxLoop fuel grid console = .ok (grid2, console2) → digitValues grid2 := by
  intro fuel
  induction fuel with
  | zero =>
    intro grid grid2 console console2 _ h
    rw [eraseBoxLoop] at h
    cases h
  | succ fuel ih =>
    intro grid grid2 console console2 hgrid h
    rw [eraseBoxLoop] at h
    split at h
    · cases h
    · split at h
      · cases h
        exact hgrid
      · split at h
        · cases h
        · split at h
          · exact ih _ _ _ _ hgrid h
          · split at h
            · cases h
            · rename_i g hg
              cases h
              exact setValue_digits grid _ _ none (fun v hv => by cases hv) hgrid hg

theorem retryLevel_digits (grid grid2 : grid_t) (console console2 : Console)
    (hgrid : digitValues grid) (h : retryLevel grid console = .ok (grid2, console2)) :
    digitValues grid2 := by
  unfold retryLevel at h
  split at h
  · cases h
  · split at h
    · cases h
      exact hgrid
    · cases h
      intro i v hv
      unfold resetEditable at hv
      split at hv
      · cases hv
      · exact hgrid i v hv

theorem levelEdited_digitReachable : DigitReachable levelEdited :=
  DigitReachable.afterEdit levelGrid levelEdited _ _
    (DigitReachable.fromLevel ([.plain 5, .blank, .plain 3] :: List.replicate 8 []) []
      levelGrid (by decide) (by decide) (by rfl))
    edit_example

theorem newColourLoop_lt (text : String) :
    ∀ (fuel : Nat) (newColour : Nat) (cin : IStream) (cout : List String)
      (r : Nat × IStream × List String),
      newColourLoop text fuel newColour cin cout = .ok r → r.1 < 16 := by
  intro fuel
  induction fuel with
  | zero =>
    intro newColour cin cout r h
    rw [newColourLoop] at h
    cases h
  | succ fuel ih =>
    intro newColour cin cout r h
    rw [newColourLoop] at h
    split at h
    · exact ih _ _ _ _ h
    · split at h
      · rename_i hlt
        cases h
        exact hlt
      · exact ih _ _ _ _ h

theorem ofSize_isDisplay (n : Nat) (h0 : n ≠ 0) (h : n < 16) : (Colour.ofSize n).isDisplay := by
  simp only [Colour.isDisplay, Colour.ofSize]
  omega

theorem setAt_valid (colours colours1 : Colours) (index : Nat) (v : Colour)
    (hv : v.isDisplay) (hvalid : colours.valid)
    (h : colours.setAt index v = .ok colours1) : colours1.valid := by
  obtain ⟨h1, h2, h3, h4⟩ := hvalid
  unfold Colours.setAt at h
  split at h
  · cases h
    exact ⟨h1, h2, hv, h4⟩
  · cases h
    exact ⟨h1, hv, h3, h4⟩
  · cases h
    exact ⟨hv, h2, h3, h4⟩
  · cases h
    exact ⟨h1, h2, h3, hv⟩
  · cases h

theorem changeColoursFrom_valid :
    ∀ (count colour : Nat) (colours : Colours) (cin : IStream) (cout : List String)
      (r : Colours × IStream × List String), colours.valid →
      changeColoursFrom count colour colours cin cout = .ok r → r.1.valid := by
  intro count
  induction count with
  | zero =>
    intro colour colours cin cout r hvalid h
    rw [changeColoursFrom] at h
    cases h
    exact hvalid
  | succ count ih =>
    intro colour colours cin cout r hvalid h
    rw [changeColoursFrom] at h
    split at h
    · cases h
    · rename_i newColour cin1 cout1 hnew
      have hlt := newColourLoop_lt _ _ _ _ _ _ hnew
      simp only at hlt
      split at h
      · rename_i hne
        split at h
        · cases h
        · rename_i colours1 hset
          exact ih _ _ _ _ _ (setAt_valid colours colours1 colour _
            (ofSize_isDisplay newColour hne hlt) hvalid hset) h
      · exact ih _ _ _ _ _ hvalid h

theorem default_valid : ({} : Colours).valid := by
  simp only [Colours.valid, Colour.isDisplay]
  decide

theorem ofSize_small (n : Nat) (h : 1 ≤ n ∧ n ≤ 15) : (Colour.ofSize n).isDisplay := by
  simp only [Colour.isDisplay, Colour.ofSize]
  omega

/-- C15, on the code: the first prompt of `changeColours` is `Box edges` and
the third is `Constant boxes`, but `colours[0]` is `constantBoxes` and
`colours[2]` is `boxEdges`.  With the default colours (edges 1, commands 9,
constant boxes 4, editable boxes 7), the entries `5 0 0 0` answer 5 to the
prompt `Box edges` and leave the other three roles unchanged: the colour of
the constant boxes becomes 5 and the colour of the box edges stays 1; the
entries `0 0 6 0` answer 6 to the prompt `Constant boxes`: the colour of the
box edges becomes 6. -/
theorem changeColours_roles :
    coloursText = ["Box edges", "Commands", "Constant boxes", "Editable boxes"] ∧
    (∀ (c : Colours) (v : Colour), c.setAt 0 v = .ok { c with constantBoxes := v }) ∧
    (∀ (c : Colours) (v : Colour), c.setAt 2 v = .ok { c with boxEdges := v }) ∧
    (changeColours {} { cin := { rest := "5 0 0 0\n".toList } }).map
        (fun r => (r.2.2.head?, r.1.boxEdges.code, r.1.commands.code, r.1.constantBoxes.code,
          r.1.editableBoxes.code)) =
      .ok (some "Box edges colour ? [1-15] (0 to cancel)", 1, 9, 5, 7) ∧
    (changeColours {} { cin := { rest := "0 0 6 0\n".toList } }).map
        (fun r => (r.2.2.get? 4, r.1.boxEdges.code, r.1.commands.code, r.1.constantBoxes.code,
          r.1.editableBoxes.code)) =
      .ok (some "Constant boxes colour ? [1-15] (0 to cancel)", 6, 9, 4, 7) :=
  ⟨rfl, fun _ _ => rfl, fun _ _ => rfl, by decide, by decide⟩

/-- C18, on the code: started in the directory `C:\Solutions`, `loadBackup`
hands `loadFileData` the path `C:/Solutions/Saves/1.txt`, which contains
`Solutions`; the save file `smallSave` (first cell a plain 5, colour segment
`2 5 3 1`) is then read as a solution file: the plain 5 becomes a constant box
and the colours keep their defaults (edges 1, commands 9, constant boxes 4,
editable boxes 7).  Started in `C:\Sudoku`, the same file gives an editable
box and the colours 2, 5, 3, 1. -/
theorem loadBackup_in_solutions_directory :
    savePath "C:\\Solutions" 1 = "C:/Solutions/Saves/1.txt" ∧
    containsText (savePath "C:\\Solutions" 1) "Solutions" = true ∧
    (loadBackup "C:\\Solutions" [(1, smallSave)] emptyGrid {}
        { cin := { rest := "1\n".toList } }).map
        (fun r => (r.1 ⟨0, by decide⟩, r.2.1.boxEdges.code, r.2.1.commands.code,
          r.2.1.constantBoxes.code, r.2.1.editableBoxes.code)) =
      .ok ({ isConstant := true, value := some 5 }, 1, 9, 4, 7) ∧
    (loadBackup "C:\\Sudoku" [(1, smallSave)] emptyGrid {}
        { cin := { rest := "1\n".toList } }).map
        (fun r => (r.1 ⟨0, by decide⟩, r.2.1.boxEdges.code, r.2.1.commands.code,
          r.2.1.constantBoxes.code, r.2.1.editableBoxes.code)) =
      .ok ({ isConstant := false, value := some 5 }, 2, 5, 3, 1) := by
  decide

/-! ## The fuel of the colour and save prompts -/

theorem readSize_nil_fails (s : IStream) (old : Nat) (h : s.rest = []) :
    (s.readSize old).2.failbit = true := by
  unfold IStream.readSize
  by_cases hg : s.good = true
  · simp [hg, h]
  · simp [hg, h]

theorem readSize_ok_lt (s : IStream) (old : Nat) (h : (s.readSize old).2.failbit = false) :
    (s.readSize old).2.rest.length < s.rest.length := by
  unfold IStream.readSize at h ⊢
  by_cases hg : s.good = true
  · simp only [hg, if_true] at h ⊢
    cases heq : List.dropWhile isspace s.rest with
    | nil =>
      rw [heq] at h
      simp at h
    | cons c cs =>
      rw [heq] at h
      simp only at h ⊢
      have h1 := dropWhile_length_le isspace s.rest
      rw [heq] at h1
      simp only [List.length_cons] at h1
      have h3 : (if c = '-' ∨ c = '+' then cs else c :: cs).length ≤ cs.length + 1 := by
        split_ifs <;> simp
      generalize (if c = '-' ∨ c = '+' then cs else c :: cs) = body at h h3 ⊢
      have h4 : (body.takeWhile isdigit).length + (body.dropWhile isdigit).length =
          body.length := by
        rw [← List.length_append, List.takeWhile_append_dropWhile]
      by_cases hempty : (body.takeWhile isdigit).isEmpty = true
      · simp [hempty] at h
      · have hpos : 0 < (body.takeWhile isdigit).length := by
          apply List.length_pos.mpr
          intro hnil
          rw [hnil] at hempty
          exact hempty rfl
        split_ifs <;> simp only <;> omega
  · simp [hg] at h

theorem newColourLoop_mono (text : String) (more : Nat) :
    ∀ (fuel newColour : Nat) (cin : IStream) (cout : List String)
      (r : Nat × IStream × List String),
      newColourLoop text fuel newColour cin cout = .ok r →
      newColourLoop text (fuel + more) newColour cin cout = .ok r := by
  intro fuel
  induction fuel with
  | zero =>
    intro newColour cin cout r h
    rw [newColourLoop] at h
    cases h
  | succ fuel ih =>
    intro newColour cin cout r h
    rw [newColourLoop] at h
    have e : fuel + 1 + more = (fuel + more) + 1 := by omega
    rw [e, newColourLoop]
    split at h
    · rename_i hfail
      rw [if_pos hfail]
      exact ih _ _ _ _ h
    · rename_i hfail
      rw [if_neg hfail]
      split at h
      · rename_i hlt
        rw [if_pos hlt]
        exact h
      · rename_i hlt
        rw [if_neg hlt]
        exact ih _ _ _ _ h

theorem newColourLoop_exhausted (text : String) :
    ∀ (fuel newColour : Nat) (cin : IStream) (cout : List String), cin.rest = [] →
      newColourLoop text fuel newColour cin cout = .error .endOfInput := by
  intro fuel
  induction fuel with
  | zero =>
    intro newColour cin cout _
    rw [newColourLoop]
  | succ fuel ih =>
    intro newColour cin cout hnil
    rw [newColourLoop, if_pos (readSize_nil_fails cin newColour hnil)]
    exact ih _ _ _ (clearCin_nil _ (readSize_nil cin newColour hnil).2)

theorem newColourLoop_fuel (text : String) :
    ∀ (fuel newColour : Nat) (cin : IStream) (cout : List String)
      (r : Nat × IStream × List String),
      newColourLoop text fuel newColour cin cout = .ok r →
      newColourLoop text (cin.rest.length + 2) newColour cin cout = .ok r := by
  intro fuel
  induction fuel with
  | zero =>
    intro newColour cin cout r h
    rw [newColourLoop] at h
    cases h
  | succ fuel ih =>
    intro newColour cin cout r h
    rw [newColourLoop] at h
    rw [newColourLoop]
    split at h
    · rename_i hfail
      rw [if_pos hfail]
      by_cases hnil : cin.rest = []
      · rw [newColourLoop_exhausted text fuel _ _ _
          (clearCin_nil _ (readSize_nil cin newColour hnil).2)] at h
        cases h
      · have hlt : (clearCin (cin.readSize newColour).2).rest.length < cin.rest.length := by
          by_cases hnil2 : (cin.readSize newColour).2.rest = []
          · rw [clearCin_nil _ hnil2]
            exact List.length_pos.mpr hnil
          · exact lt_of_lt_of_le (clearCin_rest_lt _ hnil2) (readSize_rest_le cin newColour)
        have h3 := newColourLoop_mono text
          (cin.rest.length + 1 - ((clearCin (cin.readSize newColour).2).rest.length + 2))
          _ _ _ _ _ (ih _ _ _ _ h)
        have e : (clearCin (cin.readSize newColour).2).rest.length + 2 +
            (cin.rest.length + 1 - ((clearCin (cin.readSize newColour).2).rest.length + 2)) =
            cin.rest.length + 1 := by omega
        rw [e] at h3
        exact h3
    · rename_i hfail
      rw [if_neg hfail]
      split at h
      · rename_i hlt
        rw [if_pos hlt]
        exact h
      · rename_i hlt
        rw [if_neg hlt]
        have hdec := readSize_ok_lt cin newColour (by simpa using hfail)
        have h3 := newColourLoop_mono text
          (cin.rest.length + 1 - ((cin.readSize newColour).2.rest.length + 2))
          _ _ _ _ _ (ih _ _ _ _ h)
        have e : (cin.readSize newColour).2.rest.length + 2 +
            (cin.rest.length + 1 - ((cin.readSize newColour).2.rest.length + 2)) =
            cin.rest.length + 1 := by omega
        rw [e] at h3
        exact h3

theorem chooseSaveLoop_mono (saves : List Nat) (more : Nat) :
    ∀ (fuel saveID : Nat) (console : Console) (r : Nat × Console),
      chooseSaveLoop saves fuel saveID console = .ok r →
      chooseSaveLoop saves (fuel + more) saveID console = .ok r := by
  intro fuel
  induction fuel with
  | zero =>
    intro saveID console r h
    rw [chooseSaveLoop] at h
    cases h
  | succ fuel ih =>
    intro saveID console r h
    rw [chooseSaveLoop] at h
    have e : fuel + 1 + more = (fuel + more) + 1 := by omega
    rw [e, chooseSaveLoop]
    split at h
    · rename_i hfail
      rw [if_pos hfail]
      exact ih _ _ _ h
    · rename_i hfail
      rw [if_neg hfail]
      split at h
      · rename_i hmissing
        rw [if_pos hmissing]
        exact ih _ _ _ h
      · rename_i hmissing
        rw [if_neg hmissing]
        exact h

theorem chooseSaveLoop_exhausted (saves : List Nat) :
    ∀ (fuel saveID : Nat) (console : Console), console.cin.rest = [] →
      chooseSaveLoop saves fuel saveID console = .error .endOfInput := by
  intro fuel
  induction fuel with
  | zero =>
    intro saveID console _
    rw [chooseSaveLoop]
  | succ fuel ih =>
    intro saveID console hnil
    rw [chooseSaveLoop, if_pos (readSize_nil_fails console.cin saveID hnil)]
    exact ih _ _ (clearCin_nil _ (readSize_nil console.cin saveID hnil).2)

theorem chooseSaveLoop_fuel (saves : List Nat) :
    ∀ (fuel saveID : Nat) (console : Console) (r : Nat × Console),
      chooseSaveLoop saves fuel saveID console = .ok r →
      chooseSaveLoop saves (console.cin.rest.length + 2) saveID console = .ok r := by
  intro fuel
  induction fuel with
  | zero =>
    intro saveID console r h
    rw [chooseSaveLoop] at h
    cases h
  | succ fuel ih =>
    intro saveID console r h
    rw [chooseSaveLoop] at h
    rw [chooseSaveLoop]
    split at h
    · rename_i hfail
      rw [if_pos hfail]
      by_cases hnil : console.cin.rest = []
      · rw [chooseSaveLoop_exhausted saves fuel _ _
          (clearCin_nil _ (readSize_nil console.cin saveID hnil).2)] at h
        cases h
      · have hlt : (clearCin (console.cin.readSize saveID).2).rest.length <
            console.cin.rest.length := by
          by_cases hnil2 : (console.cin.readSize saveID).2.rest = []
          · rw [clearCin_nil _ hnil2]
            exact List.length_pos.mpr hnil
          · exact lt_of_lt_of_le (clearCin_rest_lt _ hnil2)
              (readSize_rest_le console.cin saveID)
        have h3 := chooseSaveLoop_mono saves
          (console.cin.rest.length + 1 -
            ((clearCin (console.cin.readSize saveID).2).rest.length + 2))
          _ _ _ _ (ih _ _ _ h)
        simp only at h3
        have e : (clearCin (console.cin.readSize saveID).2).rest.length + 2 +
            (console.cin.rest.length + 1 -
              ((clearCin (console.cin.readSize saveID).2).rest.length + 2)) =
            console.cin.rest.length + 1 := by omega
        rw [e] at h3
        exact h3
    · rename_i hfail
      rw [if_neg hfail]
      split at h
      · rename_i hmissing
        rw [if_pos hmissing]
        have hdec := readSize_ok_lt console.cin saveID (by simpa using hfail)
        have h3 := chooseSaveLoop_mono saves
          (console.cin.rest.length + 1 - ((console.cin.readSize saveID).2.rest.length + 2))
          _ _ _ _ (ih _ _ _ h)
        simp only at h3
        have e : (console.cin.readSize saveID).2.rest.length + 2 +
            (console.cin.rest.length + 1 - ((console.cin.readSize saveID).2.rest.length + 2)) =
            console.cin.rest.length + 1 := by omega
        rw [e] at h3
        exact h3
      · rename_i hmissing
        rw [if_neg hmissing]
        exact h

end Sudoku
